import Mathlib

/-!
Verification development for the moat-micro transport and dispatch core.

Each section embeds one component of the source tree
(`moat/micro/_embed/lib/moat/micro/...`) as executable Lean definitions and
proves or refutes the specification claims about it.

Python's nonnegative modular arithmetic on possibly negative differences
`(a - b) % w` is rendered as `pydiff a b w` below; machine integers do not
occur (all quantities involved are small nonnegative counters).
-/

/-- Python's `(a - b) % w` for natural `a b` and positive modulus `w`:
subtracting `b` modulo `w` is the same as adding `w - b % w`. -/
def pydiff (a b w : Nat) : Nat := (a + (w - b % w)) % w

theorem pydiff_eq_of_lt {a b w : Nat} (ha : a < w) (hb : b ≤ a) :
    pydiff a b w = a - b := by
  unfold pydiff
  have hbw : b < w := Nat.lt_of_le_of_lt hb ha
  rw [Nat.mod_eq_of_lt hbw]
  have h1 : a + (w - b) = (a - b) + w := by omega
  rw [h1, Nat.add_mod_right, Nat.mod_eq_of_lt (by omega)]

theorem pydiff_self (a w : Nat) (hw : 0 < w) : pydiff a a w = 0 := by
  unfold pydiff
  have h2 : a % w < w := Nat.mod_lt a hw
  have h0 := Nat.mod_add_div a w
  have h3 : a + (w - a % w) = w * (a / w) + w := by omega
  rw [h3]
  rw [Nat.add_mod, Nat.mul_mod_right, Nat.mod_self]
  simp

/-!
## Request layer: sequence-number allocation (claim C5)

Source: `moat/micro/_embed/lib/moat/micro/cmd.py`, `Request.send`:

    if self.seq > 10 * (len(self.reply) + 5):
        self.seq = 9
    while True:
        self.seq += 1
        seq = self.seq
        if seq not in self.reply:
            break

`reply` is the map of pending request ids; its key set is modelled as a
`Finset Nat`.  The loop is rendered with explicit fuel; `reply.card + 1`
steps always suffice to leave the set of live ids.
-/

namespace ReqSend

/-- The wrap rule applied to `seq` before the allocation loop starts
(`if self.seq > 10 * (len(self.reply) + 5): self.seq = 9`). -/
def seqStart (reply : Finset Nat) (seq : Nat) : Nat :=
  if seq > 10 * (reply.card + 5) then 9 else seq

/-- The `while True` loop of `Request.send`: repeatedly increment and
return the first id that is not a key of `reply`. -/
def allocLoop : Nat → Finset Nat → Nat → Nat
  | 0, _, s => s + 1
  | fuel + 1, reply, s =>
    if (s + 1) ∈ reply then allocLoop fuel reply (s + 1) else s + 1

/-- Sequence-number allocation of `Request.send`: wrap, then search upward
for an id that is not pending. -/
def allocSeq (reply : Finset Nat) (seq : Nat) : Nat :=
  allocLoop (reply.card + 1) reply (seqStart reply seq)

theorem allocLoop_gt (fuel : Nat) (reply : Finset Nat) (s : Nat) :
    s < allocLoop fuel reply s := by
  induction fuel generalizing s with
  | zero => simp [allocLoop]
  | succ n ih =>
    unfold allocLoop
    by_cases h : (s + 1) ∈ reply
    · simp only [h, if_true]
      exact Nat.lt_of_succ_lt (ih (s + 1))
    · simp [h]

theorem allocLoop_mem_of_between (fuel : Nat) (reply : Finset Nat) (s m : Nat)
    (h1 : s < m) (h2 : m < allocLoop fuel reply s) : m ∈ reply := by
  induction fuel generalizing s with
  | zero =>
    simp only [allocLoop] at h2
    omega
  | succ n ih =>
    unfold allocLoop at h2
    by_cases h : (s + 1) ∈ reply
    · simp only [h, if_true] at h2
      rcases Nat.eq_or_lt_of_le (Nat.succ_le_of_lt h1) with he | hl
      · rw [show m = s + 1 from he.symm]
        exact h
      · exact ih (s + 1) hl h2
    · simp only [h, if_false] at h2
      omega

theorem allocLoop_mem_eq (fuel : Nat) (reply : Finset Nat) (s : Nat)
    (h : allocLoop fuel reply s ∈ reply) : allocLoop fuel reply s = s + fuel + 1 := by
  induction fuel generalizing s with
  | zero => simp [allocLoop]
  | succ n ih =>
    unfold allocLoop at h ⊢
    by_cases hm : (s + 1) ∈ reply
    · simp only [hm, if_true] at h ⊢
      rw [ih (s + 1) h]
      omega
    · simp only [hm, if_false] at h

theorem allocLoop_not_mem (reply : Finset Nat) (s : Nat) :
    allocLoop (reply.card + 1) reply s ∉ reply := by
  intro hmem
  have he := allocLoop_mem_eq (reply.card + 1) reply s hmem
  have hsub : Finset.Ioc s (allocLoop (reply.card + 1) reply s) ⊆ reply := by
    intro m hm
    rw [Finset.mem_Ioc] at hm
    rcases Nat.eq_or_lt_of_le hm.2 with hx | hx
    · rw [hx]
      exact hmem
    · exact allocLoop_mem_of_between _ _ _ _ hm.1 hx
  have hc := Finset.card_le_card hsub
  rw [Nat.card_Ioc] at hc
  omega

/-- Claim C5: while a request with id `i` is pending (a key of the reply
map), `Request.send` never assigns `i` to a new request; the allocated id
is strictly above the (post-wrap) starting point, so ids increase
monotonically between wraps, the wrap to 9 happens exactly when the counter
exceeds `10 * (card reply + 5)`, and every id between the starting point
and the allocated one was skipped because it is still live. -/
theorem request_seq_unique (reply : Finset Nat) (seq : Nat) :
    allocSeq reply seq ∉ reply ∧
    seqStart reply seq < allocSeq reply seq ∧
    (∀ m, seqStart reply seq < m → m < allocSeq reply seq → m ∈ reply) ∧
    seqStart reply seq = (if seq > 10 * (reply.card + 5) then 9 else seq) := by
  refine ⟨?_, ?_, ?_, rfl⟩
  · exact allocLoop_not_mem reply (seqStart reply seq)
  · exact allocLoop_gt _ _ _
  · intro m h1 h2
    exact allocLoop_mem_of_between _ _ _ _ h1 h2

/-!
## `sys.unproxy` (claim C10)

Source: `moat/micro/_embed/lib/moat/micro/base.py`, `SysCmd.cmd_unproxy`:

    if p == "" or p == "-" or p[0] == "_":
        raise RuntimeError("cannot be deleted")
    drop_proxy(p)

The proxy table itself lives in `moat.util`, which is not part of this
source tree; the table and `drop_proxy` are modelled from the spec.
-/

end ReqSend

namespace Unproxy

/-- Modelled from the spec: the proxy table is a mapping from stable short
string names to process-local objects (objects abstracted as `α`);
`sys.unproxy(name)` clears a proxy entry.  `drop_proxy` (imported by
`base.py` but defined in `moat.util`, outside this tree) removes the
entry with the given name. -/
def drop_proxy {α : Type} (t : List (String × α)) (p : String) : List (String × α) :=
  t.filter (fun e => e.1 ≠ p)

/-- The guard and call of `SysCmd.cmd_unproxy`: protected names raise
`RuntimeError("cannot be deleted")` before the table is touched. -/
def cmd_unproxy {α : Type} (t : List (String × α)) (p : String) :
    Except String Unit × List (String × α) :=
  if p = "" ∨ p = "-" ∨ p.take 1 = "_" then
    (Except.error "cannot be deleted", t)
  else
    (Except.ok (), drop_proxy t p)

/-- Claim C10: `sys.unproxy` errors with "cannot be deleted" for the empty
string, the reserved name `-`, and names starting with `_`, leaving the
proxy table unchanged in those cases; any other name is dropped from the
table and all other entries survive. -/
theorem unproxy_protected {α : Type} (t : List (String × α)) (p : String) :
    ((p = "" ∨ p = "-" ∨ p.take 1 = "_") →
      (cmd_unproxy t p).1 = Except.error "cannot be deleted" ∧
      (cmd_unproxy t p).2 = t) ∧
    (¬(p = "" ∨ p = "-" ∨ p.take 1 = "_") →
      (cmd_unproxy t p).1 = Except.ok () ∧
      (∀ e ∈ t, e.1 ≠ p → e ∈ (cmd_unproxy t p).2) ∧
      (∀ e ∈ (cmd_unproxy t p).2, e ∈ t ∧ e.1 ≠ p)) := by
  constructor
  · intro h
    simp [cmd_unproxy, h]
  · intro h
    refine ⟨by simp [cmd_unproxy, h], ?_, ?_⟩
    · intro e he hne
      simp [cmd_unproxy, h, drop_proxy, List.mem_filter, he, hne]
    · intro e he
      simp only [cmd_unproxy, h, if_false, drop_proxy, List.mem_filter,
        decide_eq_true_eq] at he
      exact he

/-- Witness for C10 at concrete inputs: the reserved name `-` is refused
and leaves the table alone, while a plain name is dropped. -/
theorem unproxy_protected_witness :
    (cmd_unproxy [("b", 0)] "-").2 = [("b", 0)] ∧
    (cmd_unproxy [("b", 0), ("c", 1)] "b").1 = Except.ok () := by
  constructor
  · exact ((unproxy_protected [("b", 0)] "-").1 (Or.inr (Or.inl rfl))).2
  · exact ((unproxy_protected [("b", 0), ("c", 1)] "b").2 (by decide)).1

end Unproxy

/-!
## Prefix-framed console extraction (claim C9)

Source: `moat/micro/_embed/lib/moat/micro/proto/stream.py`,
`MsgpackStream.recv` with `msg_prefix` set:

    while True:
        b = (await super().recv(1))[0]
        if b == self.msg_prefix:
            res = await self.unpack()
            return res
        if self.console_handler is not None:
            self.console_handler(b)

The byte transport is modelled as a list of bytes; the msgpack unpacker
(external library) is a parameter that consumes one encoded value from the
head of the stream.  The result collects the console bytes emitted, the
decoded value, and the unconsumed remainder of the stream.
-/

namespace MsgRecv

/-- One `recv` call in prefix mode: hunt for the sentinel byte, handing
every other byte to the console handler in order; at the sentinel decode
exactly one value and stop.  Returns (console bytes, decode result with
leftover stream). -/
def recvPfx {α : Type} (pfx : Nat) (unpack : List Nat → Option (α × List Nat)) :
    List Nat → List Nat × Option (α × List Nat)
  | [] => ([], none)
  | b :: rest =>
    if b = pfx then ([], unpack rest)
    else (b :: (recvPfx pfx unpack rest).1, (recvPfx pfx unpack rest).2)

/-- Claim C9: in prefix-framed mode every byte read outside a message that
is not the sentinel is delivered to the console handler in the order read;
on the sentinel byte exactly one codec value is decoded and returned, and
the remaining bytes are left for the next hunt. -/
theorem recv_console_split {α : Type} (pfx : Nat)
    (unpack : List Nat → Option (α × List Nat))
    (junk enc rest : List Nat) (v : α)
    (hj : pfx ∉ junk) (hu : unpack (enc ++ rest) = some (v, rest)) :
    recvPfx pfx unpack (junk ++ pfx :: (enc ++ rest)) = (junk, some (v, rest)) := by
  induction junk with
  | nil => simp [recvPfx, hu]
  | cons b bs ih =>
    have hb : b ≠ pfx := by
      intro he
      exact hj (by simp [he])
    have hbs : pfx ∉ bs := fun h => hj (List.mem_cons_of_mem _ h)
    have hr := ih hbs
    simp only [List.cons_append, recvPfx, hb, if_false]
    rw [show bs.append (pfx :: (enc ++ rest)) = bs ++ pfx :: (enc ++ rest) from rfl, hr]

/-- Witness for C9: two console bytes before a sentinel (0xC1), then a
one-byte "codec" value; the console sees exactly the junk, the value is
returned, and the tail is kept. -/
theorem recv_console_split_witness :
    recvPfx 193 (fun l => match l with
      | x :: r => some (x, r)
      | [] => none) ([7, 8] ++ 193 :: ([5] ++ [9])) = ([7, 8], some (5, [9])) := by
  exact recv_console_split 193 _ [7, 8] [5] [9] 5 (by decide) rfl

end MsgRecv

/-!
## Dispatch tree routing (claim C4)

Source: `moat/micro/_embed/lib/moat/micro/cmd.py`, `BaseCmd.dispatch`:

    if not action:
        return await c(self.cmd)
    if isinstance(action, str) and len(action) > 1:
        try:
            p = getattr(self, "cmd_" + action)
        except AttributeError:
            pass
        else:
            return await c(p)
    if len(action) > 1:
        try:
            dis = getattr(self, "dis_" + action[0])
        except AttributeError:
            raise AttributeError(action) from None
        else:
            return await dis(action[1:], msg)
    else:
        return await c(getattr(self, "cmd_" + action[0]))

A handler is modelled by its `cmd_*` attributes (name to command id), its
`dis_*` attributes (name to sub-handler) and the optional `cmd` default
method.  An action is either a string (a list of characters; slicing takes
its tail) or a list of string elements.  The command that would be invoked
is reported by id; Python's AttributeError is `attrErr`.
-/

namespace CmdTree

/-- An action: a Python string (list of characters) or a list of path
elements. -/
inductive Act where
  | ofStr (s : List Char)
  | ofList (l : List String)
deriving DecidableEq

/-- Python `len(action)`. -/
def Act.len : Act → Nat
  | .ofStr s => s.length
  | .ofList l => l.length

/-- The first element `action[0]` as the string used in the `getattr`
lookups (one-character string for string actions). -/
def Act.keyS : Act → String
  | .ofStr [] => ""
  | .ofStr (c :: _) => String.mk [c]
  | .ofList [] => ""
  | .ofList (e :: _) => e

/-- The slice `action[1:]`. -/
def Act.tl : Act → Act
  | .ofStr [] => .ofStr []
  | .ofStr (_ :: r) => .ofStr r
  | .ofList [] => .ofList []
  | .ofList (_ :: r) => .ofList r

/-- A dispatch-tree handler: `cmd_*` commands, `dis_*` sub-handlers and the
optional default `cmd` method. -/
inductive Handler where
  | node (cmds : List (String × Nat)) (subs : List (String × Handler))
      (defC : Option Nat)

/-- The `cmd_*` attribute table of a handler. -/
def Handler.cmds : Handler → List (String × Nat)
  | .node c _ _ => c

/-- The `dis_*` attribute table of a handler. -/
def Handler.subs : Handler → List (String × Handler)
  | .node _ s _ => s

/-- The optional default `cmd` method of a handler. -/
def Handler.defC : Handler → Option Nat
  | .node _ _ d => d

/-- Python `getattr` on one of the attribute tables. -/
def lookupA {α : Type} (l : List (String × α)) (k : String) : Option α :=
  (l.find? (fun e => e.1 = k)).map (fun e => e.2)

/-- Result of routing: the command that is invoked (the message itself is
always passed along unchanged), or an `AttributeError`. -/
inductive DispRes where
  | called (cmd : Nat)
  | attrErr
deriving DecidableEq

theorem Act.tl_len (a : Act) : a.tl.len = a.len - 1 := by
  cases a with
  | ofStr s => cases s <;> simp [Act.tl, Act.len]
  | ofList l => cases l <;> simp [Act.tl, Act.len]

/-- `BaseCmd.dispatch` for a string action, translated clause by clause
from the source; slicing a string action keeps it a string, so the string
case is a structural recursion over the character list. -/
def dispatchS (h : Handler) : List Char → DispRes
  | [] =>
    match h.defC with
    | some c => .called c
    | none => .attrErr
  | c :: rest =>
    if rest.isEmpty then
      match lookupA h.cmds (String.mk [c]) with
      | some k => .called k
      | none => .attrErr
    else
      match lookupA h.cmds (String.mk (c :: rest)) with
      | some k => .called k
      | none =>
        match lookupA h.subs (String.mk [c]) with
        | some sub => dispatchS sub rest
        | none => .attrErr

/-- `BaseCmd.dispatch` for a list action: no whole-string lookup
(`isinstance(action, str)` is false), otherwise the same clauses. -/
def dispatchL (h : Handler) : List String → DispRes
  | [] =>
    match h.defC with
    | some c => .called c
    | none => .attrErr
  | e :: rest =>
    if rest.isEmpty then
      match lookupA h.cmds e with
      | some k => .called k
      | none => .attrErr
    else
      match lookupA h.subs e with
      | some sub => dispatchL sub rest
      | none => .attrErr

/-- `BaseCmd.dispatch` on either action shape. -/
def dispatch (h : Handler) : Act → DispRes
  | .ofStr s => dispatchS h s
  | .ofList l => dispatchL h l

/-- The routing rule exactly as claim C4 states it, for string actions:
whole-string commands first, then the sub-handler under the first element
with the rest of the action, then a command named by the single first
element, else an error. -/
def routesClaimS (h : Handler) : List Char → DispRes
  | [] =>
    match h.defC with
    | some c => .called c
    | none => .attrErr
  | c :: rest =>
    match (if rest.isEmpty then none else lookupA h.cmds (String.mk (c :: rest))) with
    | some k => .called k
    | none =>
      match lookupA h.subs (String.mk [c]) with
      | some sub => routesClaimS sub rest
      | none =>
        match lookupA h.cmds (String.mk [c]) with
        | some k => .called k
        | none => .attrErr

/-- The routing rule exactly as claim C4 states it, for list actions. -/
def routesClaimL (h : Handler) : List String → DispRes
  | [] =>
    match h.defC with
    | some c => .called c
    | none => .attrErr
  | e :: rest =>
    match lookupA h.subs e with
    | some sub => routesClaimL sub rest
    | none =>
      match lookupA h.cmds e with
      | some k => .called k
      | none => .attrErr

/-- The claimed routing on either action shape. -/
def routesClaim (h : Handler) : Act → DispRes
  | .ofStr s => routesClaimS h s
  | .ofList l => routesClaimL h l

/-- Claim C4 as stated is false on the code: with a handler owning only
the command `a` (no sub-handler, no `ab` command), dispatching the string
"ab" raises AttributeError in the code, while the claim routes to command
`a` with the rest of the action; and a single-element action never reaches
a registered sub-handler in the code, while the claim recurses into it. -/
theorem dispatch_claim_counterexample :
    dispatch (.node [("a", 1)] [] none) (.ofStr ['a', 'b']) = .attrErr ∧
    routesClaim (.node [("a", 1)] [] none) (.ofStr ['a', 'b']) = .called 1 ∧
    dispatch (.node [] [("a", .node [] [] (some 7))] none) (.ofList ["a"]) = .attrErr ∧
    routesClaim (.node [] [("a", .node [] [] (some 7))] none) (.ofList ["a"]) = .called 7 := by
  refine ⟨?_, ?_, ?_, ?_⟩ <;> decide

/-- Claim C4 (amended): for a non-empty string action of length at least 2,
a command registered under the whole string wins; otherwise an action of
more than one element requires a registered sub-handler under its first
element (recursing into it with the rest of the action) and fails with
AttributeError when there is none - there is no fallback to a
single-element command; a one-element action calls the command named by
its only element with the message (never consulting sub-handlers) and
fails when it is absent. -/
theorem dispatch_routing (h : Handler) (a : Act) (hne : a.len ≠ 0) :
    (∀ s, a = .ofStr s → s.length > 1 → ∀ c, lookupA h.cmds (String.mk s) = some c →
      dispatch h a = .called c) ∧
    ((∀ s, a = .ofStr s → s.length > 1 → lookupA h.cmds (String.mk s) = none) →
      (a.len > 1 →
        dispatch h a = (match lookupA h.subs a.keyS with
          | some sub => dispatch sub a.tl
          | none => .attrErr)) ∧
      (a.len = 1 →
        dispatch h a = (match lookupA h.cmds a.keyS with
          | some c => .called c
          | none => .attrErr))) := by
  constructor
  · rintro s rfl hlen c hc
    match s with
    | [] => simp at hlen
    | [c1] => simp at hlen
    | c1 :: c2 :: r =>
      simp [dispatch, dispatchS, hc]
  · intro hfull
    constructor
    · intro hgt
      cases a with
      | ofStr s =>
        match s with
        | [] => simp [Act.len] at hgt
        | [c1] => simp [Act.len] at hgt
        | c1 :: c2 :: r =>
          have hnone := hfull (c1 :: c2 :: r) rfl (by simp)
          cases hsub : lookupA h.subs (String.mk [c1]) <;>
            simp [dispatch, dispatchS, hnone, hsub, Act.keyS, Act.tl]
      | ofList l =>
        match l with
        | [] => simp [Act.len] at hgt
        | [e1] => simp [Act.len] at hgt
        | e1 :: e2 :: r =>
          cases hsub : lookupA h.subs e1 <;>
            simp [dispatch, dispatchL, hsub, Act.keyS, Act.tl]
    · intro heq
      cases a with
      | ofStr s =>
        match s with
        | [] => simp [Act.len] at heq
        | [c1] => simp [dispatch, dispatchS, Act.keyS]
        | c1 :: c2 :: r => simp [Act.len] at heq
      | ofList l =>
        match l with
        | [] => simp [Act.len] at heq
        | [e1] => simp [dispatch, dispatchL, Act.keyS]
        | e1 :: e2 :: r => simp [Act.len] at heq

/-- Witness for the amended C4 routing at concrete inputs: "ab" with a
whole-name command calls it, and a two-element list action walks into the
sub-handler. -/
theorem dispatch_routing_witness :
    dispatch (.node [("ab", 3)] [] none) (.ofStr ['a', 'b']) = .called 3 ∧
    dispatch (.node [] [("a", .node [("b", 5)] [] none)] none)
      (.ofList ["a", "b"]) = .called 5 := by
  constructor
  · exact (dispatch_routing (.node [("ab", 3)] [] none) (.ofStr ['a', 'b'])
      (by decide)).1 ['a', 'b'] rfl (by decide) 3 (by decide)
  · have h := (dispatch_routing (.node [] [("a", .node [("b", 5)] [] none)] none)
      (.ofList ["a", "b"]) (by decide)).2 (fun s hs => nomatch hs)
    rw [h.1 (by decide)]
    decide

end CmdTree

/-!
## Remote-error wire encoding (claim C8)

Source: `moat/micro/_embed/lib/moat/micro/cmd.py`, `Request._handle_request`:

    res = {'i': i}
    try:
        r = await self.child.dispatch(a, d)
    except SilentRemoteError as exc:
        if i is None:
            return
        res["e"] = exc
    except WouldBlock:
        raise
    except Exception as exc:
        print(...); print_exc(exc)
        if i is None:
            return
        try:
            obj2name(type(exc))
        except KeyError:
            res["e"] = "E:" + repr(exc)
        else:
            res["e"] = exc
    else:
        if i is None:
            return
        res["d"] = r
    try:
        await self.parent.send(res)
    except TypeError as exc:
        ...
        res = {'e': "T:" + repr(exc), 'i': i}
        await self.parent.send(res)

An exception is modelled by its catch class (SilentRemoteError subclass,
WouldBlock, or any other Exception), whether its type has a registered
proxy name (`obj2name(type(exc))` succeeds), and its repr string.  Whether
`parent.send` raises TypeError on the first reply is a parameter.
-/

namespace ReqHandle

/-- Which `except` clause of `_handle_request` catches the exception. -/
inductive ExcKind where
  | silentRemote
  | wouldBlock
  | other
deriving DecidableEq

/-- An exception as seen by `_handle_request`. -/
structure Exc where
  kind : ExcKind
  registered : Bool
  rep : String
deriving DecidableEq

/-- Outcome of `self.child.dispatch(a, d)`. -/
inductive Outcome (V : Type) where
  | ok (v : V)
  | raised (e : Exc)
deriving DecidableEq

/-- Contents of the `e` field of a reply: the exception object itself
(later proxied by the codec) or a string. -/
inductive EField where
  | obj (e : Exc)
  | txt (s : String)
deriving DecidableEq

/-- A reply message as built by `_handle_request` (`i`, optional `d`,
optional `e`). -/
structure Reply (V : Type) where
  i : Option Nat
  d : Option V
  e : Option EField
deriving DecidableEq

/-- The reply message `_handle_request` builds, if any (`none` models the
early returns for notifications and the re-raise of `WouldBlock`). -/
def handleReply {V : Type} (i : Option Nat) (out : Outcome V) : Option (Reply V) :=
  match out with
  | .ok v =>
    match i with
    | none => none
    | some _ => some ⟨i, some v, none⟩
  | .raised e =>
    match e.kind with
    | .silentRemote =>
      match i with
      | none => none
      | some _ => some ⟨i, none, some (.obj e)⟩
    | .wouldBlock => none
    | .other =>
      match i with
      | none => none
      | some _ =>
        some ⟨i, none, some (if e.registered then .obj e else .txt ("E:" ++ e.rep))⟩

/-- The messages `_handle_request` hands to `parent.send`: the reply, or -
when sending it raises `TypeError` with repr `tyRep` - the fallback
`T:`-reply. -/
def handleSend {V : Type} (i : Option Nat) (out : Outcome V)
    (sendFails : Reply V → Bool) (tyRep : String) : List (Reply V) :=
  match handleReply i out with
  | none => []
  | some r => if sendFails r then [⟨i, none, some (.txt ("T:" ++ tyRep))⟩] else [r]

/-- Claim C8 as stated is false on the code: a handler that raises
`WouldBlock` (an exception type with no registered proxy name) produces no
reply at all - the exception is re-raised - while the claim requires a
reply whose `e` field is the string `E:` followed by the repr; likewise a
`SilentRemoteError` subclass without a registered name is sent as the
exception object, not stringified. -/
theorem remote_error_counterexample :
    handleSend (V := Nat) (some 1) (.raised ⟨.wouldBlock, false, "WouldBlock()"⟩)
      (fun _ => false) "" = [] ∧
    handleSend (V := Nat) (some 1) (.raised ⟨.silentRemote, false, "Quiet()"⟩)
      (fun _ => false) "" =
      [⟨some 1, none, some (.obj ⟨.silentRemote, false, "Quiet()"⟩)⟩] ∧
    (∀ s, ([] : List (Reply Nat)) ≠ [⟨some 1, none, some (.txt ("E:" ++ s))⟩]) := by
  refine ⟨rfl, rfl, ?_⟩
  intro s h
  exact absurd h (by simp)

/-- Claim C8 (amended): for a request carrying an id, an exception raised
by the handler that is neither a silent remote error nor `WouldBlock` is
placed in the reply field `e` as the exception object itself when its type
has a registered proxy name and as the string `E:` plus its repr
otherwise; a silent remote error is placed in `e` as the object with no
registration check; `WouldBlock` is re-raised and produces no reply; and
whenever sending a reply raises `TypeError`, a single second reply is sent
whose `e` field is `T:` plus the repr of that error. -/
theorem remote_error_encoding {V : Type} (n : Nat) (e : Exc) (v : V)
    (sendFails : Reply V → Bool) (tyRep : String) :
    (e.kind = .other → e.registered = true →
      handleReply (V := V) (some n) (.raised e) = some ⟨some n, none, some (.obj e)⟩) ∧
    (e.kind = .other → e.registered = false →
      handleReply (V := V) (some n) (.raised e) =
        some ⟨some n, none, some (.txt ("E:" ++ e.rep))⟩) ∧
    (e.kind = .silentRemote →
      handleReply (V := V) (some n) (.raised e) = some ⟨some n, none, some (.obj e)⟩) ∧
    (e.kind = .wouldBlock →
      handleSend (V := V) (some n) (.raised e) sendFails tyRep = []) ∧
    (∀ i out r, handleReply (V := V) i out = some r → sendFails r = true →
      handleSend i out sendFails tyRep = [⟨i, none, some (.txt ("T:" ++ tyRep))⟩]) ∧
    (handleReply (V := V) none (.ok v) = none ∧
      handleReply (V := V) none (.raised e) = none) := by
  refine ⟨?_, ?_, ?_, ?_, ?_, ?_⟩
  · intro hk hr
    simp [handleReply, hk, hr]
  · intro hk hr
    simp [handleReply, hk, hr]
  · intro hk
    simp [handleReply, hk]
  · intro hk
    simp [handleSend, handleReply, hk]
  · intro i out r hrep hfail
    simp [handleSend, hrep, hfail]
  · constructor
    · rfl
    · cases hk : e.kind <;> simp [handleReply, hk]

/-- Witness for the amended C8 at concrete inputs: an unregistered
ordinary exception is stringified with the `E:` tag, and a send-time
TypeError produces the `T:` reply. -/
theorem remote_error_encoding_witness :
    handleReply (V := Nat) (some 1) (.raised ⟨.other, false, "ValueError(1)"⟩) =
      some ⟨some 1, none, some (.txt "E:ValueError(1)")⟩ ∧
    handleSend (V := Nat) (some 2) (.ok 5) (fun _ => true) "TypeError(x)" =
      [⟨some 2, none, some (.txt "T:TypeError(x)")⟩] := by
  constructor
  · exact (remote_error_encoding (V := Nat) 1 ⟨.other, false, "ValueError(1)"⟩ 0
      (fun _ => false) "").2.1 rfl rfl
  · exact (remote_error_encoding (V := Nat) 2 ⟨.other, false, ""⟩ 5
      (fun _ => true) "TypeError(x)").2.2.2.2.1 (some 2) (.ok 5)
      ⟨some 2, some 5, none⟩ rfl rfl

end ReqHandle

/-!
## The Reliable sliding-window layer (claims C1, C2, C6, C7)

Source: `moat/micro/_embed/lib/moat/micro/proto/reliable.py`.  The whole
per-instance state is embedded in `Rel.RState`; `Rel.dispatch` is a
line-by-line translation of `Reliable.dispatch`, with `send_msg`,
`send_reset`, `reset`, `_update_config`, `_reset_done` and the
acknowledgement / drain loops as named helpers.  Real-time data (retry
deadlines `t_recv`, `in_reset` timestamps, `ticks_ms`) only schedules when
the background task acts; it is abstracted away, with `in_reset` kept as
its truth value and timer-driven actions modelled as nondeterministic
steps.  Waiter events are abstracted to the booleans the code branches on
(`e.is_set()`); the receive queue `rq` records the cumulative sequence of
payloads ever delivered upward.
-/

namespace Rel

/-- Peer configuration carried in reset messages (`c = {'t':…, 'm':…}`). -/
structure RCfg where
  t : Option Nat := none
  m : Option Nat := none
deriving DecidableEq

/-- A message of the reliable layer, with the wire keys of the source:
control action `a`/`n`/`c`/`e`, data seq `s`, ack `r`, out-of-order list
`x`, payload `d`.  An absent `x` key and `x = []` are indistinguishable to
the receiver (`msg.get('x', ())`). -/
structure RMsg (V : Type) where
  a : Option String := none
  n : Option Nat := none
  c : Option RCfg := none
  e : Option String := none
  s : Option Nat := none
  r : Option Nat := none
  x : List Nat := []
  d : Option V := none
deriving DecidableEq

/-- The state of one `Reliable` instance.  `isUp` is whether the `_is_up`
event is set; `mSend` maps seq to (payload, waiter-already-set), `mRecv`
maps seq to payload; `rq` is the cumulative list of payloads delivered to
the receive queue. -/
structure RState (V : Type) where
  window : Nat
  timeout : Nat
  closed : Bool
  inReset : Bool
  isUp : Bool
  resetLevel : Nat
  sendHead : Nat
  sendTail : Nat
  recvHead : Nat
  recvTail : Nat
  sQ : List V
  mSend : List (Nat × (V × Bool))
  mRecv : List (Nat × V)
  pendAck : Bool
  rq : List V
deriving DecidableEq

/-- Python dict lookup on an association list. -/
def alookup {β : Type} (m : List (Nat × β)) (k : Nat) : Option β :=
  (m.find? (fun e => e.1 = k)).map (fun e => e.2)

/-- Python dict `pop`/`del` on an association list. -/
def aerase {β : Type} (m : List (Nat × β)) (k : Nat) : List (Nat × β) :=
  m.filter (fun e => e.1 ≠ k)

/-- Python dict assignment on an association list. -/
def ainsert {β : Type} (m : List (Nat × β)) (k : Nat) (v : β) : List (Nat × β) :=
  (k, v) :: aerase m k

/-- `Reliable.reset(level)`: zero the window state, clear the queues, go
into reset at the given level.  (`rq` is the receive queue object, which
is kept.) -/
def resetSt {V : Type} (st : RState V) (level : Nat) : RState V :=
  { st with
    sendHead := 0
    sendTail := 0
    recvHead := 0
    recvTail := 0
    sQ := []
    mSend := []
    mRecv := []
    pendAck := true
    closed := false
    inReset := true
    resetLevel := level }

/-- `Reliable._get_config`. -/
def getConfig {V : Type} (st : RState V) : RCfg :=
  ⟨some st.timeout, some st.window⟩

/-- `Reliable._update_config`: larger timeout, smaller window, floor 4. -/
def updateConfig {V : Type} (st : RState V) (c : RCfg) : RState V :=
  { st with timeout := max st.timeout (c.t.getD 0),
            window := max 4 (min st.window (c.m.getD st.window)) }

/-- `Reliable._reset_done`: when in reset, leave it and set `_is_up`. -/
def resetDone {V : Type} (st : RState V) : RState V :=
  if st.inReset then { st with inReset := false, isUp := true } else st

/-- `Reliable.send_reset(level, err)`: pick the level (0 when closed),
build the control message (config attached for nonzero level), and extend
the reset deadline when below level 3. -/
def sendReset {V : Type} (st : RState V) (level : Nat) (err : Option String) :
    RState V × RMsg V :=
  let st1 := if st.closed then st
    else if level ≠ 0 then { st with resetLevel := level } else st
  let lvl := if st.closed then 0
    else if level ≠ 0 then level else st.resetLevel
  let msg : RMsg V := { a := some "r", n := some lvl,
                        c := if lvl ≠ 0 then some (getConfig st1) else none,
                        e := err }
  let st2 := if st1.resetLevel < 3 then { st1 with inReset := true } else st1
  (st2, msg)

/-- The `while r != self.s_recv_head` loop of `send_msg` collecting the
out-of-order seqs already received (field `x`); fuel `window` bounds the
walk around the seq circle. -/
def collectX {V : Type} : Nat → RState V → Nat → List Nat
  | 0, _, _ => []
  | fuel + 1, st, rr =>
    if rr = st.recvHead then []
    else (if (alookup st.mRecv rr).isSome then [rr] else []) ++
      collectX fuel st ((rr + 1) % st.window)

/-- `Reliable.send_msg()` with `k=None`: emit a bare ack carrying
`s = send_head`, `r = recv_tail` and the `x` list, unless no ack is
pending. -/
def sendMsgAck {V : Type} (st : RState V) : RState V × Option (RMsg V) :=
  if st.pendAck then
    ({ st with pendAck := false },
     some { s := some st.sendHead, r := some st.recvTail,
            x := collectX st.window st st.recvTail })
  else (st, none)

/-- `Reliable.send_msg(k)`: emit the data message for seq `k` from the
send table with the current ack fields.  (Deadline bookkeeping is timing
and is dropped.) -/
def sendMsgData {V : Type} (st : RState V) (k : Nat) : RState V × Option (RMsg V) :=
  match alookup st.mSend k with
  | none => (st, none)
  | some mte =>
    ({ st with pendAck := false },
     some { s := some k, d := some mte.1, r := some st.recvTail,
            x := collectX st.window st st.recvTail })

/-- The queue-processing part of `Reliable._run_bg`: when the pending-send
queue is nonempty and the window has room
(`(send_head - send_tail) % window < window // 2`), assign the head
sequence number to the first queued message, advance the head, store the
entry and emit its data message. -/
def bgAssign {V : Type} (st : RState V) : RState V × Option (RMsg V) :=
  match st.sQ with
  | [] => (st, none)
  | msg :: rest =>
    if pydiff st.sendHead st.sendTail st.window < st.window / 2 then
      let seq := st.sendHead
      sendMsgData
        { st with
          sQ := rest
          sendHead := (seq + 1) % st.window
          mSend := ainsert st.mSend seq (msg, false) } seq
    else (st, none)

/-- The retransmit part of `Reliable._run_bg`: a stored entry whose waiter
is not yet set and whose deadline passed (timing abstracted) is resent. -/
def bgRetransmit {V : Type} (st : RState V) (k : Nat) : RState V × Option (RMsg V) :=
  match alookup st.mSend k with
  | some (_, false) => sendMsgData st k
  | _ => (st, none)

/-- `Reliable.send(msg)`: raise `ChannelClosed` when closed, else append
to the pending-send queue (the caller then awaits the waiter). -/
def sendEnqueue {V : Type} (st : RState V) (v : V) : Except Unit (RState V) :=
  if st.closed then Except.error ()
  else Except.ok { st with sQ := st.sQ ++ [v] }

/-- `Reliable.between(a,b,c)`: `(b-a) % window <= (c-a) % window`. -/
def between {V : Type} (st : RState V) (a b c : Nat) : Bool :=
  pydiff b a st.window ≤ pydiff c a st.window

/-- The data-acceptance part of `Reliable.dispatch` (lines 384-410): for a
message carrying `d`, store it when new and inside the half-window, or
when it falls between tail and head; for a bare ack move `recv_head`
forward within the half-window. -/
def handleData {V : Type} (st : RState V) (r : Nat) (d : Option V) : RState V :=
  match d with
  | some dv =>
    let st1 := { st with pendAck := true }
    if between st1 st1.recvTail st1.recvHead r then
      if pydiff r st1.recvTail st1.window < st1.window / 2 then
        { st1 with mRecv := ainsert st1.mRecv r dv,
                   recvHead := (r + 1) % st1.window }
      else st1
    else if between st1 st1.recvTail r st1.recvHead then
      { st1 with mRecv := ainsert st1.mRecv r dv }
    else st1
  | none =>
    if between st st.recvTail st.recvHead r then
      if pydiff r st.recvTail st.window ≤ st.window / 2 then
        { st with recvHead := r }
      else st
    else st

/-- The ack-processing loop of `Reliable.dispatch` (lines 413-430): walk
`send_tail` towards the acked seq, stopping at `send_head`, popping send
entries and setting their waiters. -/
def ackWalk {V : Type} : Nat → RState V → Nat → RState V
  | 0, st, _ => st
  | fuel + 1, st, sAck =>
    if st.sendTail = sAck then st
    else if st.sendTail = st.sendHead then st
    else
      let st1 :=
        match alookup st.mSend st.sendTail with
        | none => st
        | some _ => { st with mSend := aerase st.mSend st.sendTail,
                              pendAck := true }
      ackWalk fuel { st1 with sendTail := (st1.sendTail + 1) % st1.window } sAck

/-- The `for rr in x` loop of `Reliable.dispatch` (lines 432-438): set the
waiters of selectively acked entries (they stay in the table). -/
def xMark {V : Type} (st : RState V) : List Nat → RState V
  | [] => st
  | rr :: rest =>
    match alookup st.mSend rr with
    | none => xMark st rest
    | some (v, _) => xMark { st with mSend := ainsert st.mSend rr (v, true) } rest

/-- The delivery loop of `Reliable.dispatch` (lines 441-453): drain
contiguous entries from `recv_tail`, handing each payload to the receive
queue. -/
def drain {V : Type} : Nat → RState V → RState V
  | 0, st => st
  | fuel + 1, st =>
    if st.recvTail = st.recvHead then st
    else
      match alookup st.mRecv st.recvTail with
      | none => st
      | some d =>
        drain fuel
          { st with
            mRecv := aerase st.mRecv st.recvTail
            recvTail := (st.recvTail + 1) % st.window
            pendAck := true
            rq := st.rq ++ [d] }

/-- The result of one `dispatch` call: the new state, the messages passed
to `parent.send`, and the strings reported through `self.error`. -/
structure DResult (V : Type) where
  st : RState V
  out : List (RMsg V)
  errs : List String
deriving DecidableEq

/-- The closed-side block of `Reliable.dispatch` (lines 355-365): reply
with a reset only every fourth incoming message, counting on
`reset_level`. -/
def closedReply {V : Type} (st : RState V) : DResult V :=
  if st.resetLevel > 2 then
    let p := sendReset st 0 none
    ⟨{ p.1 with resetLevel := 0 }, [p.2], []⟩
  else
    ⟨{ st with resetLevel := st.resetLevel + 1 }, [], []⟩

/-- The data part of `Reliable.dispatch` (lines 373-466): validate the
seq fields, accept data, process acks and the `x` list, drain deliveries,
and send the pending ack. -/
def dataPhase {V : Type} (st : RState V) (msg : RMsg V) : DResult V :=
  match msg.s, msg.r with
  | some r, some sAck =>
    if r < st.window ∧ sAck < st.window then
      let st1 := handleData st r msg.d
      let st2 := ackWalk st1.window st1 sAck
      let st3 := xMark st2 msg.x
      let st4 := drain st3.window st3
      if st4.pendAck then
        let p := sendMsgAck st4
        ⟨p.1, p.2.toList, []⟩
      else ⟨st4, [], []⟩
    else
      let p := sendReset (resetSt st 1) 0 (some "R/S out of bounds")
      ⟨p.1, [p.2], []⟩
  | _, _ => ⟨st, [], []⟩

/-- `Reliable.dispatch(msg)`, translated clause by clause. -/
def dispatch {V : Type} (st : RState V) (msg : RMsg V) : DResult V :=
  match msg.a with
  | some aa =>
    if aa = "r" then
      let c := msg.c.getD {}
      let n := msg.n.getD 0
      if n = 0 then
        closedReply { st with closed := true, isUp := false }
      else if st.closed then
        let p := sendReset st 0 none
        ⟨p.1, [p.2], []⟩
      else if n = 1 then
        let se :=
          if st.inReset then
            ((if st.resetLevel = 1 then { st with resetLevel := 2 } else st),
             ([] : List String))
          else
            (resetSt st 2, [(msg.e.getD "ext reset")])
        let st2 := updateConfig se.1 c
        let p := sendReset st2 0 none
        ⟨p.1, [p.2], se.2⟩
      else if n = 2 then
        let p := sendReset (updateConfig st c) 3 none
        ⟨resetDone p.1, [p.2], []⟩
      else if n = 3 then
        if ¬ st.inReset ∨ st.resetLevel > 1 then
          ⟨resetDone (updateConfig st c), [], []⟩
        else
          let p := sendReset (resetSt st 1) 0 none
          ⟨p.1, [p.2], ["ext reset ack2"]⟩
      else
        ⟨st, [], []⟩
    else
      ⟨st, [], []⟩
  | none =>
    if st.closed then closedReply st
    else if st.inReset ∧ st.resetLevel < 2 then
      let p := sendReset st 0 none
      ⟨p.1, [p.2], []⟩
    else
      dataPhase (if st.inReset then resetDone st else st) msg

/-- The state of `Reliable` right after `run()` has called `reset()`:
window and timeout from the constructor, in reset at level 1. -/
def initSt (V : Type) (w t : Nat) : RState V :=
  { window := w, timeout := t, closed := false, inReset := true, isUp := false,
    resetLevel := 1, sendHead := 0, sendTail := 0, recvHead := 0, recvTail := 0,
    sQ := [], mSend := [], mRecv := [], pendAck := true, rq := [] }

end Rel

namespace Rel

theorem succ_mod {a w : Nat} (ha : a < w) :
    (a + 1) % w = if a + 1 = w then 0 else a + 1 := by
  by_cases h : a + 1 = w
  · simp [h]
  · rw [if_neg h, Nat.mod_eq_of_lt (by omega)]

theorem pydiff_closed {a b w : Nat} (ha : a < w) (hb : b < w) :
    pydiff a b w = if b ≤ a then a - b else a + w - b := by
  unfold pydiff
  rw [Nat.mod_eq_of_lt hb]
  by_cases h : b ≤ a
  · rw [if_pos h]
    have h1 : a + (w - b) = (a - b) + w := by omega
    rw [h1, Nat.add_mod_right, Nat.mod_eq_of_lt (by omega)]
  · rw [if_neg h, Nat.mod_eq_of_lt (by omega)]
    omega

theorem pydiff_lt {a b w : Nat} (ha : a < w) (hb : b < w) : pydiff a b w < w := by
  rw [pydiff_closed ha hb]
  split_ifs <;> omega

theorem pydiff_eq_zero_iff {a b w : Nat} (ha : a < w) (hb : b < w) :
    pydiff a b w = 0 ↔ a = b := by
  rw [pydiff_closed ha hb]
  split_ifs <;> omega

theorem pydiff_succ_left {a b w : Nat} (ha : a < w) (hb : b < w)
    (h : pydiff a b w + 1 < w) :
    pydiff ((a + 1) % w) b w = pydiff a b w + 1 := by
  rw [succ_mod ha] at *
  by_cases he : a + 1 = w
  · rw [if_pos he]
    rw [pydiff_closed ha hb, pydiff_closed (by omega) hb] at *
    split_ifs at * <;> omega
  · rw [if_neg he]
    rw [pydiff_closed ha hb, pydiff_closed (by omega) hb] at *
    split_ifs at * <;> omega

theorem pydiff_succ_right {a b w : Nat} (ha : a < w) (hb : b < w) (hne : a ≠ b) :
    pydiff a ((b + 1) % w) w = pydiff a b w - 1 ∧ 0 < pydiff a b w := by
  rw [succ_mod hb]
  by_cases he : b + 1 = w
  · rw [if_pos he]
    rw [pydiff_closed ha hb, pydiff_closed ha (by omega)]
    split_ifs <;> omega
  · rw [if_neg he]
    rw [pydiff_closed ha hb, pydiff_closed ha (by omega)]
    split_ifs <;> omega

theorem pydiff_inj {a b c w : Nat} (ha : a < w) (hb : b < w) (hc : c < w)
    (h : pydiff a c w = pydiff b c w) : a = b := by
  rw [pydiff_closed ha hc, pydiff_closed hb hc] at h
  split_ifs at h <;> omega

theorem alookup_ainsert_self {β : Type} (m : List (Nat × β)) (k : Nat) (v : β) :
    alookup (ainsert m k v) k = some v := by
  simp [alookup, ainsert, List.find?]

theorem alookup_cons {β : Type} (e : Nat × β) (m : List (Nat × β)) (k1 : Nat) :
    alookup (e :: m) k1 = if e.1 = k1 then some e.2 else alookup m k1 := by
  by_cases h : e.1 = k1 <;> simp [alookup, List.find?, h]

theorem aerase_cons {β : Type} (e : Nat × β) (m : List (Nat × β)) (k : Nat) :
    aerase (e :: m) k = if e.1 = k then aerase m k else e :: aerase m k := by
  by_cases h : e.1 = k <;> simp [aerase, List.filter, h]

theorem alookup_aerase_self {β : Type} (m : List (Nat × β)) (k : Nat) :
    alookup (aerase m k) k = none := by
  induction m with
  | nil => rfl
  | cons e rest ih =>
    rw [aerase_cons]
    by_cases h : e.1 = k
    · rw [if_pos h]
      exact ih
    · rw [if_neg h, alookup_cons, if_neg h]
      exact ih

theorem alookup_aerase_ne {β : Type} (m : List (Nat × β)) (k k1 : Nat) (h : k1 ≠ k) :
    alookup (aerase m k) k1 = alookup m k1 := by
  induction m with
  | nil => rfl
  | cons e rest ih =>
    rw [aerase_cons]
    by_cases hek : e.1 = k
    · have hne : e.1 ≠ k1 := by
        rw [hek]
        exact fun he => h he.symm
      rw [if_pos hek, ih, alookup_cons, if_neg hne]
    · rw [if_neg hek, alookup_cons, alookup_cons]
      by_cases he1 : e.1 = k1
      · rw [if_pos he1, if_pos he1]
      · rw [if_neg he1, if_neg he1]
        exact ih

theorem alookup_ainsert_ne {β : Type} (m : List (Nat × β)) (k k1 : Nat) (v : β)
    (h : k1 ≠ k) : alookup (ainsert m k v) k1 = alookup m k1 := by
  rw [ainsert, alookup_cons, if_neg (fun he => h (Eq.symm he))]
  exact alookup_aerase_ne m k k1 h

end Rel

namespace Rel

/-- Claim C7 as stated is false on the code: a closed `Reliable` instance
receiving the control message `a='r', n=1` replies immediately (no rate
limit) with a reset message carrying `n=0`, not a fresh reset-initiation
`n=1`; the same reply is produced again for the next control message. -/
theorem closed_reset_counterexample :
    (dispatch { initSt Nat 8 1000 with closed := true, inReset := false }
      { a := some "r", n := some 1, c := some ⟨some 1000, some 8⟩ }).out
        = [{ a := some "r", n := some 0 }] ∧
    (some 0 : Option Nat) ≠ some 1 ∧
    (dispatch
      (dispatch { initSt Nat 8 1000 with closed := true, inReset := false }
        { a := some "r", n := some 1, c := some ⟨some 1000, some 8⟩ }).st
      { a := some "r", n := some 1, c := some ⟨some 1000, some 8⟩ }).out
        = [{ a := some "r", n := some 0 }] := by
  refine ⟨?_, ?_, ?_⟩ <;> decide

/-- Claim C7 (amended): a closed `Reliable` instance answers every
incoming control message with `n ≥ 1` immediately - not rate-limited -
with a reset message carrying `n=0` (the closed indication, since
`send_reset` forces level 0 when closed); incoming data messages (no `a`
key) are answered with the same `n=0` message rate-limited by the
`reset_level` counter: one reply every fourth message. -/
theorem closed_reset_reply {V : Type} (st : RState V) (msg : RMsg V)
    (hcl : st.closed = true) :
    (msg.a = some "r" → msg.n.getD 0 ≠ 0 →
      (dispatch st msg).out = [{ a := some "r", n := some 0 }] ∧
      (dispatch st msg).st.closed = true) ∧
    (msg.a = none →
      (st.resetLevel > 2 →
        (dispatch st msg).out = [{ a := some "r", n := some 0 }] ∧
        (dispatch st msg).st.resetLevel = 0) ∧
      (st.resetLevel ≤ 2 →
        (dispatch st msg).out = [] ∧
        (dispatch st msg).st.resetLevel = st.resetLevel + 1)) := by
  constructor
  · intro ha hn
    have hd : dispatch st msg = ⟨(sendReset st 0 none).1, [(sendReset st 0 none).2], []⟩ := by
      simp only [dispatch, ha]
      norm_num [hn, hcl]
    constructor
    · simp [hd, sendReset, hcl]
    · rw [hd]
      simp only [sendReset, hcl]
      split_ifs <;> simp [hcl]
  · intro ha
    have hd : dispatch st msg = closedReply st := by
      simp [dispatch, ha, hcl]
    constructor
    · intro hl
      simp [hd, closedReply, hl, sendReset, hcl]
    · intro hl
      have hl1 : ¬ st.resetLevel > 2 := by omega
      simp [hd, closedReply, hl1]

/-- Witness for the amended C7: the concrete closed instance replies
`n=0` to a control message, and a closed instance at counter 3 replies
`n=0` to a data message while one at counter 0 stays silent. -/
theorem closed_reset_reply_witness :
    (dispatch { initSt Nat 8 1000 with closed := true }
      { a := some "r", n := some 2 } : DResult Nat).out
        = [{ a := some "r", n := some 0 }] ∧
    (dispatch { initSt Nat 8 1000 with closed := true, resetLevel := 3 }
      { s := some 0, r := some 0 } : DResult Nat).out
        = [{ a := some "r", n := some 0 }] ∧
    (dispatch { initSt Nat 8 1000 with closed := true, resetLevel := 0 }
      { s := some 0, r := some 0 } : DResult Nat).out = [] := by
  refine ⟨?_, ?_, ?_⟩
  · exact ((closed_reset_reply { initSt Nat 8 1000 with closed := true }
      { a := some "r", n := some 2 } rfl).1 rfl (by decide)).1
  · exact ((closed_reset_reply { initSt Nat 8 1000 with closed := true, resetLevel := 3 }
      { s := some 0, r := some 0 } rfl).2 rfl).1 (by decide) |>.1
  · exact ((closed_reset_reply { initSt Nat 8 1000 with closed := true, resetLevel := 0 }
      { s := some 0, r := some 0 } rfl).2 rfl).2 (by decide) |>.1

end Rel

namespace Rel

/-!
### Claim C2: window safety of the send side

The claim is about every reachable state of one `Reliable` instance.
Reachability composes the instance's own actions (`bgAssign`,
`bgRetransmit`, `sendMsgAck`, `sendEnqueue`) with `dispatch` of arbitrary
incoming messages.  The counterexample below shows the claim fails as
stated: a reset-handshake config adoption can shrink the window while
messages are in flight (`_run_bg` assigns sequence numbers whenever the
queue is nonempty and the window has room, also during a reset, and the
`n=2` handler adopts the peer config without clearing the send state).
The amended invariant therefore restricts incoming messages to ones whose
config does not shrink the window (`cfgKeeps`).
-/

/-- Claim C2 as stated is false on the code: enqueue three messages and
let the background task assign them (window 8, so the room check passes
three times), then receive `a='r', n=2` carrying the peer config `m=4`.
The config is adopted with three messages in flight: afterwards the window
is 4, `(send_head - send_tail) mod window = 3 > window/2 = 2`, and the
in-flight table still holds 3 > 2 entries. -/
theorem window_shrink_counterexample :
    (let s0 := initSt Nat 8 1000
     let s1 := ((sendEnqueue s0 10).toOption).getD s0
     let s2 := ((sendEnqueue s1 11).toOption).getD s1
     let s3 := ((sendEnqueue s2 12).toOption).getD s2
     let s4 := (bgAssign s3).1
     let s5 := (bgAssign s4).1
     let s6 := (bgAssign s5).1
     let f := (dispatch s6 { a := some "r", n := some 2,
                             c := some ⟨some 1000, some 4⟩ }).st
     (sendEnqueue s0 10).toOption = some s1 ∧
     (sendEnqueue s1 11).toOption = some s2 ∧
     (sendEnqueue s2 12).toOption = some s3 ∧
     f.window = 4 ∧
     pydiff f.sendHead f.sendTail f.window = 3 ∧
     f.window / 2 = 2 ∧
     f.mSend.length = 3) := by
  decide

/-- An incoming message whose config (if any) does not shrink the window:
the condition under which `_update_config` leaves `window` unchanged. -/
def cfgKeeps {V : Type} (st : RState V) (msg : RMsg V) : Prop :=
  ∀ c, msg.c = some c → st.window ≤ c.m.getD st.window

/-- One transition of a single `Reliable` instance: its own send-side
actions, and `dispatch` of any incoming message that does not shrink the
window. -/
inductive StepR {V : Type} : RState V → RState V → Prop where
  | enqueue (st : RState V) (v : V) (st' : RState V) :
      sendEnqueue st v = Except.ok st' → StepR st st'
  | assign (st : RState V) : StepR st (bgAssign st).1
  | retransmit (st : RState V) (k : Nat) : StepR st (bgRetransmit st k).1
  | ackSend (st : RState V) : StepR st (sendMsgAck st).1
  | recv (st : RState V) (msg : RMsg V) :
      cfgKeeps st msg → StepR st (dispatch st msg).st

/-- Reachability from a start state through `StepR`. -/
inductive ReachR {V : Type} (start : RState V) : RState V → Prop where
  | refl : ReachR start start
  | tail {b c : RState V} (h1 : ReachR start b) (h2 : StepR b c) : ReachR start c

/-- The send-window invariant: window at least 4, head and tail reduced,
modular distance at most half the window, every in-flight seq inside
`[tail, head)`, and in-flight keys distinct. -/
structure WInv {V : Type} (st : RState V) : Prop where
  w4 : 4 ≤ st.window
  hlt : st.sendHead < st.window
  tlt : st.sendTail < st.window
  dist : pydiff st.sendHead st.sendTail st.window ≤ st.window / 2
  keys : ∀ k v, alookup st.mSend k = some v →
    k < st.window ∧
    pydiff k st.sendTail st.window < pydiff st.sendHead st.sendTail st.window
  knd : (st.mSend.map Prod.fst).Nodup

/-- Transfer of `WInv` along equality of the send-side fields. -/
theorem WInv.congr {V : Type} {st st' : RState V} (h : WInv st)
    (hw : st'.window = st.window) (hh : st'.sendHead = st.sendHead)
    (ht : st'.sendTail = st.sendTail) (hm : st'.mSend = st.mSend) : WInv st' := by
  constructor
  · rw [hw]
    exact h.w4
  · rw [hh, hw]
    exact h.hlt
  · rw [ht, hw]
    exact h.tlt
  · simp only [hh, ht, hw]
    exact h.dist
  · intro k v hk
    rw [hm] at hk
    simp only [hh, ht, hw]
    exact h.keys k v hk
  · rw [hm]
    exact h.knd

theorem winv_initSt (V : Type) (w t : Nat) (hw : 4 ≤ w) : WInv (initSt V w t) := by
  refine ⟨hw, ?_, ?_, ?_, ?_, ?_⟩
  · show (0 : Nat) < w
    omega
  · show (0 : Nat) < w
    omega
  · show pydiff 0 0 w ≤ w / 2
    rw [pydiff_self 0 w (by omega)]
    omega
  · intro k v hk
    simp [initSt, alookup] at hk
  · simp [initSt]

theorem winv_resetSt {V : Type} (st : RState V) (level : Nat) (h4 : 4 ≤ st.window) :
    WInv (resetSt st level) := by
  refine ⟨h4, ?_, ?_, ?_, ?_, ?_⟩
  · show (0 : Nat) < st.window
    omega
  · show (0 : Nat) < st.window
    omega
  · show pydiff 0 0 st.window ≤ st.window / 2
    rw [pydiff_self 0 st.window (by omega)]
    omega
  · intro k v hk
    simp [resetSt, alookup] at hk
  · simp [resetSt]

end Rel

namespace Rel

theorem mem_keys_iff {β : Type} (m : List (Nat × β)) (k : Nat) :
    k ∈ m.map Prod.fst ↔ (alookup m k).isSome := by
  induction m with
  | nil => simp [alookup]
  | cons e rest ih =>
    rw [alookup_cons]
    by_cases h : e.1 = k
    · simp [h]
    · simp only [List.map_cons, List.mem_cons, h, if_false]
      constructor
      · intro hx
        rcases hx with hx | hx
        · exact absurd hx.symm h
        · exact ih.1 hx
      · intro hx
        exact Or.inr (ih.2 hx)

theorem aerase_keys_sublist {β : Type} (m : List (Nat × β)) (k : Nat) :
    ((aerase m k).map Prod.fst).Sublist (m.map Prod.fst) :=
  List.Sublist.map _ (List.filter_sublist m)

theorem ainsert_keys_nodup {β : Type} (m : List (Nat × β)) (k : Nat) (v : β)
    (h : (m.map Prod.fst).Nodup) : ((ainsert m k v).map Prod.fst).Nodup := by
  rw [ainsert]
  simp only [List.map_cons]
  refine List.Nodup.cons ?_ ((aerase_keys_sublist m k).nodup h)
  intro hmem
  have := (mem_keys_iff (aerase m k) k).1 hmem
  rw [alookup_aerase_self] at this
  simp at this

theorem handleData_send_eq {V : Type} (st : RState V) (r : Nat) (d : Option V) :
    (handleData st r d).window = st.window ∧
    (handleData st r d).sendHead = st.sendHead ∧
    (handleData st r d).sendTail = st.sendTail ∧
    (handleData st r d).mSend = st.mSend := by
  cases d <;> simp only [handleData] <;> split_ifs <;> exact ⟨rfl, rfl, rfl, rfl⟩

theorem drain_send_eq {V : Type} (fuel : Nat) (st : RState V) :
    (drain fuel st).window = st.window ∧
    (drain fuel st).sendHead = st.sendHead ∧
    (drain fuel st).sendTail = st.sendTail ∧
    (drain fuel st).mSend = st.mSend := by
  induction fuel generalizing st with
  | zero => exact ⟨rfl, rfl, rfl, rfl⟩
  | succ n ih =>
    simp only [drain]
    split_ifs
    · exact ⟨rfl, rfl, rfl, rfl⟩
    · cases h : alookup st.mRecv st.recvTail with
      | none => exact ⟨rfl, rfl, rfl, rfl⟩
      | some d => exact ih _

theorem sendReset_send_eq {V : Type} (st : RState V) (level : Nat)
    (err : Option String) :
    ((sendReset st level err).1).window = st.window ∧
    ((sendReset st level err).1).sendHead = st.sendHead ∧
    ((sendReset st level err).1).sendTail = st.sendTail ∧
    ((sendReset st level err).1).mSend = st.mSend := by
  simp only [sendReset]
  split_ifs <;> exact ⟨rfl, rfl, rfl, rfl⟩

theorem winv_sendReset {V : Type} (st : RState V) (level : Nat)
    (err : Option String) (h : WInv st) : WInv (sendReset st level err).1 := by
  have he := sendReset_send_eq st level err
  exact h.congr he.1 he.2.1 he.2.2.1 he.2.2.2

theorem winv_handleData {V : Type} (st : RState V) (r : Nat) (d : Option V)
    (h : WInv st) : WInv (handleData st r d) := by
  have he := handleData_send_eq st r d
  exact h.congr he.1 he.2.1 he.2.2.1 he.2.2.2

theorem winv_drain {V : Type} (fuel : Nat) (st : RState V) (h : WInv st) :
    WInv (drain fuel st) := by
  have he := drain_send_eq fuel st
  exact h.congr he.1 he.2.1 he.2.2.1 he.2.2.2

theorem winv_resetDone {V : Type} (st : RState V) (h : WInv st) :
    WInv (resetDone st) := by
  unfold resetDone
  split_ifs
  · exact h.congr rfl rfl rfl rfl
  · exact h

theorem winv_closedReply {V : Type} (st : RState V) (h : WInv st) :
    WInv (closedReply st).st := by
  unfold closedReply
  split_ifs
  · exact (winv_sendReset st 0 none h).congr rfl rfl rfl rfl
  · exact h.congr rfl rfl rfl rfl

theorem winv_sendMsgAck {V : Type} (st : RState V) (h : WInv st) :
    WInv (sendMsgAck st).1 := by
  unfold sendMsgAck
  split_ifs
  · exact h.congr rfl rfl rfl rfl
  · exact h

theorem winv_sendMsgData {V : Type} (st : RState V) (k : Nat) (h : WInv st) :
    WInv (sendMsgData st k).1 := by
  unfold sendMsgData
  cases alookup st.mSend k with
  | none => exact h
  | some mte => exact h.congr rfl rfl rfl rfl

theorem winv_bgRetransmit {V : Type} (st : RState V) (k : Nat) (h : WInv st) :
    WInv (bgRetransmit st k).1 := by
  unfold bgRetransmit
  cases hl : alookup st.mSend k with
  | none => exact h
  | some mte =>
    cases mte with
    | mk v b =>
      cases b
      · exact winv_sendMsgData st k h
      · exact h

theorem winv_updateConfig {V : Type} (st : RState V) (c : RCfg)
    (hk : st.window ≤ c.m.getD st.window) (h : WInv st) :
    WInv (updateConfig st c) := by
  have hw : (updateConfig st c).window = st.window := by
    simp only [updateConfig]
    have h1 : min st.window (c.m.getD st.window) = st.window :=
      Nat.min_eq_left hk
    rw [h1, Nat.max_eq_right (by have := h.w4; omega : 4 ≤ st.window)]
  exact h.congr hw rfl rfl rfl

end Rel

namespace Rel

theorem winv_tail_advance {V : Type} (st : RState V) (h : WInv st)
    (hne : st.sendTail ≠ st.sendHead) (m' : List (Nat × (V × Bool)))
    (hm : ∀ k v, alookup m' k = some v →
      alookup st.mSend k = some v ∧ k ≠ st.sendTail)
    (hnd : (m'.map Prod.fst).Nodup) (pa : Bool) :
    WInv { st with mSend := m', pendAck := pa,
                   sendTail := (st.sendTail + 1) % st.window } := by
  have hw0 : 0 < st.window := by have := h.w4; omega
  have hsr := pydiff_succ_right h.hlt h.tlt (fun he => hne he.symm)
  constructor
  · exact h.w4
  · exact h.hlt
  · exact Nat.mod_lt _ hw0
  · show pydiff st.sendHead ((st.sendTail + 1) % st.window) st.window ≤ st.window / 2
    rw [hsr.1]
    have := h.dist
    omega
  · intro k v hk
    obtain ⟨hold, hkt⟩ := hm k v hk
    obtain ⟨hklt, hkd⟩ := h.keys k v hold
    refine ⟨hklt, ?_⟩
    show pydiff k ((st.sendTail + 1) % st.window) st.window <
      pydiff st.sendHead ((st.sendTail + 1) % st.window) st.window
    have hks := pydiff_succ_right hklt h.tlt hkt
    rw [hks.1, hsr.1]
    omega
  · exact hnd

theorem winv_ackWalk {V : Type} (fuel : Nat) (st : RState V) (sAck : Nat)
    (h : WInv st) : WInv (ackWalk fuel st sAck) := by
  induction fuel generalizing st with
  | zero => exact h
  | succ n ih =>
    rw [ackWalk]
    split_ifs with h1 h2
    · exact h
    · exact h
    · cases hl : alookup st.mSend st.sendTail with
      | none =>
        simp only [hl]
        apply ih
        apply winv_tail_advance st h h2 st.mSend ?_ h.knd st.pendAck
        intro k v hk
        refine ⟨hk, ?_⟩
        intro he
        rw [he, hl] at hk
        exact absurd hk (by simp)
      | some mte =>
        simp only [hl]
        apply ih
        apply winv_tail_advance st h h2 (aerase st.mSend st.sendTail) ?_
          ((aerase_keys_sublist _ _).nodup h.knd) true
        intro k v hk
        by_cases he : k = st.sendTail
        · rw [he, alookup_aerase_self] at hk
          exact absurd hk (by simp)
        · rw [alookup_aerase_ne _ _ _ he] at hk
          exact ⟨hk, he⟩

theorem winv_xMark {V : Type} (st : RState V) (xs : List Nat) (h : WInv st) :
    WInv (xMark st xs) := by
  induction xs generalizing st with
  | nil => exact h
  | cons rr rest ih =>
    rw [xMark]
    cases hl : alookup st.mSend rr with
    | none => exact ih st h
    | some mte =>
      apply ih
      constructor
      · exact h.w4
      · exact h.hlt
      · exact h.tlt
      · exact h.dist
      · intro k v hk
        by_cases he : k = rr
        · subst he
          rw [alookup_ainsert_self] at hk
          exact h.keys k mte hl
        · rw [alookup_ainsert_ne _ _ _ _ he] at hk
          exact h.keys k v hk
      · exact ainsert_keys_nodup _ _ _ h.knd

theorem winv_bgAssign {V : Type} (st : RState V) (h : WInv st) :
    WInv (bgAssign st).1 := by
  cases hq : st.sQ with
  | nil =>
    simp only [bgAssign, hq]
    exact h
  | cons v rest =>
    simp only [bgAssign, hq]
    split_ifs with hg
    · apply winv_sendMsgData
      have hw0 : 0 < st.window := by
        have := h.w4
        omega
      have hd1 : pydiff st.sendHead st.sendTail st.window + 1 < st.window := by
        have := h.dist
        have h4 := h.w4
        omega
      constructor
      · exact h.w4
      · exact Nat.mod_lt _ hw0
      · exact h.tlt
      · show pydiff ((st.sendHead + 1) % st.window) st.sendTail st.window ≤
          st.window / 2
        rw [pydiff_succ_left h.hlt h.tlt hd1]
        omega
      · intro k kv hk
        have hk2 : alookup (ainsert st.mSend st.sendHead (v, false)) k = some kv := hk
        by_cases he : k = st.sendHead
        · subst he
          refine ⟨h.hlt, ?_⟩
          show pydiff st.sendHead st.sendTail st.window <
            pydiff ((st.sendHead + 1) % st.window) st.sendTail st.window
          rw [pydiff_succ_left h.hlt h.tlt hd1]
          omega
        · rw [alookup_ainsert_ne _ _ _ _ he] at hk2
          obtain ⟨hlt2, hdk⟩ := h.keys k kv hk2
          refine ⟨hlt2, ?_⟩
          show pydiff k st.sendTail st.window <
            pydiff ((st.sendHead + 1) % st.window) st.sendTail st.window
          rw [pydiff_succ_left h.hlt h.tlt hd1]
          omega
      · show ((ainsert st.mSend st.sendHead (v, false)).map Prod.fst).Nodup
        exact ainsert_keys_nodup _ _ _ h.knd
    · exact h

theorem winv_dataPhase {V : Type} (st : RState V) (msg : RMsg V) (h : WInv st) :
    WInv (dataPhase st msg).st := by
  cases hs : msg.s with
  | none =>
    cases hr : msg.r <;> simp only [dataPhase, hs, hr] <;> exact h
  | some r =>
    cases hr : msg.r with
    | none =>
      simp only [dataPhase, hs, hr]
      exact h
    | some sAck =>
      simp only [dataPhase, hs, hr]
      split_ifs with hv hp
      · exact winv_sendMsgAck _ (winv_drain _ _ (winv_xMark _ msg.x
          (winv_ackWalk _ _ sAck (winv_handleData st r msg.d h))))
      · exact winv_drain _ _ (winv_xMark _ msg.x
          (winv_ackWalk _ _ sAck (winv_handleData st r msg.d h)))
      · exact winv_sendReset _ 0 (some "R/S out of bounds") (winv_resetSt st 1 h.w4)

theorem winv_dispatch {V : Type} (st : RState V) (msg : RMsg V) (h : WInv st)
    (hc : cfgKeeps st msg) : WInv (dispatch st msg).st := by
  have hgetD : ∀ (st' : RState V), st'.window = st.window →
      st'.window ≤ (msg.c.getD {}).m.getD st'.window := by
    intro st' hw
    cases hm : msg.c with
    | none => simp
    | some c0 =>
      simp only [Option.getD]
      rw [hw]
      exact hc c0 hm
  cases ha : msg.a with
  | none =>
    by_cases h1 : st.closed = true
    · simp only [dispatch, ha, h1, if_true]
      exact winv_closedReply st h
    · by_cases h2 : st.inReset = true ∧ st.resetLevel < 2
      · simp only [dispatch, ha, h1, h2, if_true, if_false]
        exact winv_sendReset st 0 none h
      · simp only [dispatch, ha, h1, h2, if_false]
        apply winv_dataPhase
        by_cases h3 : st.inReset = true
        · simp only [h3, if_true]
          exact winv_resetDone st h
        · simp only [h3, if_false]
          exact h
  | some aa =>
    by_cases har : aa = "r"
    · subst har
      by_cases hn0 : msg.n.getD 0 = 0
      · have hd : (dispatch st msg).st =
            (closedReply { st with closed := true, isUp := false }).st := by
          simp only [dispatch, ha]
          norm_num [hn0]
        rw [hd]
        exact winv_closedReply _ (h.congr rfl rfl rfl rfl)
      · by_cases hcl : st.closed = true
        · have hd : (dispatch st msg).st = (sendReset st 0 none).1 := by
            simp only [dispatch, ha]
            norm_num [hn0, hcl]
          rw [hd]
          exact winv_sendReset st 0 none h
        · by_cases hn1 : msg.n.getD 0 = 1
          · have hd : (dispatch st msg).st =
                (sendReset (updateConfig ((if st.inReset = true then
                    ((if st.resetLevel = 1 then { st with resetLevel := 2 } else st),
                      ([] : List String))
                  else (resetSt st 2, [msg.e.getD "ext reset"])).1)
                  (msg.c.getD {})) 0 none).1 := by
              simp only [dispatch, ha]
              norm_num [hn0, hcl, hn1]
            rw [hd]
            apply winv_sendReset
            split_ifs with hir hrl
            · exact winv_updateConfig _ _ (hgetD _ rfl) (h.congr rfl rfl rfl rfl)
            · exact winv_updateConfig _ _ (hgetD _ rfl) h
            · exact winv_updateConfig _ _ (hgetD _ rfl) (winv_resetSt st 2 h.w4)
          · by_cases hn2 : msg.n.getD 0 = 2
            · have hd : (dispatch st msg).st = resetDone
                  (sendReset (updateConfig st (msg.c.getD {})) 3 none).1 := by
                simp only [dispatch, ha]
                norm_num [hn0, hcl, hn1, hn2]
              rw [hd]
              exact winv_resetDone _
                (winv_sendReset _ 3 none (winv_updateConfig _ _ (hgetD _ rfl) h))
            · by_cases hn3 : msg.n.getD 0 = 3
              · by_cases hnr : st.inReset = false ∨ 1 < st.resetLevel
                · have hd : (dispatch st msg).st =
                      resetDone (updateConfig st (msg.c.getD {})) := by
                    simp only [dispatch, ha]
                    norm_num [hn0, hcl, hn1, hn2, hn3]
                    rw [if_pos hnr]
                  rw [hd]
                  exact winv_resetDone _ (winv_updateConfig _ _ (hgetD _ rfl) h)
                · have hd : (dispatch st msg).st =
                      (sendReset (resetSt st 1) 0 none).1 := by
                    simp only [dispatch, ha]
                    norm_num [hn0, hcl, hn1, hn2, hn3]
                    rw [if_neg hnr]
                  rw [hd]
                  exact winv_sendReset _ 0 none (winv_resetSt st 1 h.w4)
              · have hd : (dispatch st msg).st = st := by
                  simp only [dispatch, ha]
                  norm_num [hn0, hcl, hn1, hn2, hn3]
                rw [hd]
                exact h
    · have hd : (dispatch st msg).st = st := by
        simp only [dispatch, ha]
        norm_num [har]
      rw [hd]
      exact h

end Rel



namespace Rel

theorem mSend_card_le {V : Type} (st : RState V) (h : WInv st) :
    st.mSend.length ≤ st.window / 2 := by
  classical
  have hlen : st.mSend.length = (st.mSend.map Prod.fst).length := by
    rw [List.length_map]
  have hmem : ∀ k ∈ st.mSend.map Prod.fst, k < st.window ∧
      pydiff k st.sendTail st.window <
        pydiff st.sendHead st.sendTail st.window := by
    intro k hk
    have hs := (mem_keys_iff st.mSend k).1 hk
    obtain ⟨v, hv⟩ := Option.isSome_iff_exists.1 hs
    exact h.keys k v hv
  have hndm : ((st.mSend.map Prod.fst).map
      (fun k => pydiff k st.sendTail st.window)).Nodup := by
    refine List.Nodup.map_on ?_ h.knd
    intro x hx y hy hxy
    exact pydiff_inj (hmem x hx).1 (hmem y hy).1 h.tlt hxy
  have hsub : ((st.mSend.map Prod.fst).map
      (fun k => pydiff k st.sendTail st.window)).toFinset ⊆
      Finset.range (pydiff st.sendHead st.sendTail st.window) := by
    intro x hx
    rw [List.mem_toFinset, List.mem_map] at hx
    obtain ⟨k, hk, hkx⟩ := hx
    rw [Finset.mem_range, ← hkx]
    exact (hmem k hk).2
  have hc1 : ((st.mSend.map Prod.fst).map
      (fun k => pydiff k st.sendTail st.window)).toFinset.card =
      (st.mSend.map Prod.fst).length := by
    rw [List.toFinset_card_of_nodup hndm, List.length_map]
  have hc2 := Finset.card_le_card hsub
  rw [hc1, Finset.card_range] at hc2
  have := h.dist
  omega

theorem winv_step {V : Type} {st st' : RState V} (hs : StepR st st') (h : WInv st) :
    WInv st' := by
  cases hs with
  | enqueue v st2 he =>
    simp only [sendEnqueue] at he
    split_ifs at he with hcl
    simp only [Except.ok.injEq] at he
    rw [← he]
    exact h.congr rfl rfl rfl rfl
  | assign => exact winv_bgAssign st h
  | retransmit k => exact winv_bgRetransmit st k h
  | ackSend => exact winv_sendMsgAck st h
  | recv msg hc => exact winv_dispatch st msg h hc

theorem winv_reach {V : Type} {w t : Nat} {st : RState V} (hw : 4 ≤ w)
    (hr : ReachR (initSt V w t) st) : WInv st := by
  induction hr with
  | refl => exact winv_initSt V w t hw
  | tail h1 h2 ih => exact winv_step h2 ih

/-- Claim C2 (amended): in every state of a `Reliable` instance reachable
through its own send-side actions and incoming messages whose config never
shrinks the window, the modular distance `(send_head - send_tail) mod W`
is at most `W/2` and the in-flight send table holds at most `W/2` entries;
moreover the background task assigns a sequence number only when the
distance is strictly below `W/2` (otherwise `_run_bg` leaves the state
unchanged and emits nothing), and `Reliable.send` itself only appends to
the pending queue - it never assigns a sequence number or touches the
window, so a sender keeps at most `W/2` messages in flight.  (Without the
no-shrink restriction the claim is false, see the counterexample.) -/
theorem window_safety {V : Type} (w t : Nat) (st : RState V) (hw : 4 ≤ w)
    (hr : ReachR (initSt V w t) st) :
    pydiff st.sendHead st.sendTail st.window ≤ st.window / 2 ∧
    st.mSend.length ≤ st.window / 2 ∧
    (∀ s1 : RState V, ¬ pydiff s1.sendHead s1.sendTail s1.window < s1.window / 2 →
      bgAssign s1 = (s1, none)) ∧
    (∀ (s1 : RState V) (v : V) (s2 : RState V), sendEnqueue s1 v = Except.ok s2 →
      s2 = { s1 with sQ := s1.sQ ++ [v] }) := by
  have hi := winv_reach hw hr
  refine ⟨hi.dist, mSend_card_le st hi, ?_, ?_⟩
  · intro s1 hg
    cases hq : s1.sQ with
    | nil => simp [bgAssign, hq]
    | cons v rest => simp [bgAssign, hq, hg]
  · intro s1 v s2 he
    simp only [sendEnqueue] at he
    split_ifs at he with hcl
    simp only [Except.ok.injEq] at he
    exact he.symm

/-- The state reached from the initial window-8 state by enqueueing two
messages and letting the background task assign both. -/
def c2wit : RState Nat :=
  (bgAssign (bgAssign { initSt Nat 8 1000 with sQ := [5, 6] }).1).1

/-- Witness for the amended C2: after enqueueing and assigning two
messages from the initial state (window 8), the reached state satisfies
the claimed bounds. -/
theorem window_safety_witness :
    pydiff c2wit.sendHead c2wit.sendTail c2wit.window ≤ c2wit.window / 2 ∧
    c2wit.mSend.length ≤ c2wit.window / 2 := by
  have r0 : ReachR (initSt Nat 8 1000) (initSt Nat 8 1000) := ReachR.refl
  have r1 := ReachR.tail r0
    (StepR.enqueue _ 5 { initSt Nat 8 1000 with sQ := [5] } rfl)
  have r2 := ReachR.tail r1
    (StepR.enqueue _ 6 { initSt Nat 8 1000 with sQ := [5, 6] } rfl)
  have r3 := ReachR.tail r2 (StepR.assign _)
  have r4 := ReachR.tail r3 (StepR.assign _)
  have h := window_safety 8 1000 c2wit (by decide) r4
  exact ⟨h.1, h.2.1⟩

end Rel

/-!
## Object codec round-trip (claim C3)

Source: `moat/micro/_embed/lib/moat/micro/proto/stream.py`, `_encode` and
`_decode`.  The codec is modelled at the msgpack-value level: `PVal` is a
Python value (primitives, containers, `Proxy` placeholders, classes and
class instances), `EVal` the corresponding wire value where proxied
objects appear as ExtType 4 (named proxy) or ExtType 5 (class name plus
encoded constructor args and state).  A class instance is abstracted as
(class name, positional args, state mapping) - the `__reduce__` handling
of `_encode` reconstructs precisely these three pieces.

The proxy table (`obj2name` / `name2obj` / `get_proxy` from `moat.util`,
not under this source tree) is modelled from the spec as a single
name-to-object list used in both directions; `get_proxy` allocates an
auto-name and appends.
-/

namespace Codec

/-- A Python value as seen by the codec. -/
inductive PVal where
  | vnil
  | vbool (b : Bool)
  | vint (n : Int)
  | vstr (s : String)
  | vbytes (bs : List Nat)
  | vlist (xs : List PVal)
  | vmap (kvs : List (String × PVal))
  | vproxy (n : String)
  | vcls (c : String)
  | vobj (cls : String) (args : List PVal) (st : List (String × PVal))
  | vext (tag : Nat)

/-- A wire (msgpack) value: primitives and containers as themselves,
proxied objects as ExtType 4 or ExtType 5. -/
inductive EVal where
  | enil
  | ebool (b : Bool)
  | eint (n : Int)
  | estr (s : String)
  | ebytes (bs : List Nat)
  | elist (xs : List EVal)
  | emap (kvs : List (String × EVal))
  | ext4 (n : String)
  | ext5 (cls : String) (args : List EVal) (st : List (String × EVal))

mutual

/-- Structural equality of Python values (the `==` the proxy table uses). -/
def peq : PVal → PVal → Bool
  | .vnil, .vnil => true
  | .vbool a, .vbool b => a == b
  | .vint a, .vint b => a == b
  | .vstr a, .vstr b => a == b
  | .vbytes a, .vbytes b => a == b
  | .vlist a, .vlist b => peqL a b
  | .vmap a, .vmap b => peqM a b
  | .vproxy a, .vproxy b => a == b
  | .vcls a, .vcls b => a == b
  | .vobj c1 a1 s1, .vobj c2 a2 s2 => c1 == c2 && peqL a1 a2 && peqM s1 s2
  | .vext a, .vext b => a == b
  | _, _ => false

/-- Pointwise structural equality of value lists. -/
def peqL : List PVal → List PVal → Bool
  | [], [] => true
  | x :: xs, y :: ys => peq x y && peqL xs ys
  | _, _ => false

/-- Pointwise structural equality of string-keyed value mappings. -/
def peqM : List (String × PVal) → List (String × PVal) → Bool
  | [], [] => true
  | x :: xs, y :: ys => (x.1 == y.1 && peq x.2 y.2) && peqM xs ys
  | _, _ => false

end

theorem peqL_iff_of (xs ys : List PVal)
    (h : ∀ x ∈ xs, ∀ y, peq x y = true ↔ x = y) :
    peqL xs ys = true ↔ xs = ys := by
  induction xs generalizing ys with
  | nil => cases ys <;> simp [peqL]
  | cons x rest ih =>
    cases ys with
    | nil => simp [peqL]
    | cons y rys =>
      rw [peqL, Bool.and_eq_true, h x (by simp),
        ih rys (fun z hz => h z (by simp [hz]))]
      simp

theorem peqM_iff_of (xs ys : List (String × PVal))
    (h : ∀ x ∈ xs, ∀ y, peq x.2 y = true ↔ x.2 = y) :
    peqM xs ys = true ↔ xs = ys := by
  induction xs generalizing ys with
  | nil => cases ys <;> simp [peqM]
  | cons x rest ih =>
    cases ys with
    | nil => simp [peqM]
    | cons y rys =>
      rw [peqM, Bool.and_eq_true, Bool.and_eq_true, h x (by simp),
        ih rys (fun z hz => h z (by simp [hz]))]
      constructor
      · intro hx
        obtain ⟨⟨h1, h2⟩, h3⟩ := hx
        have : x = y := by
          cases x
          cases y
          simp only [beq_iff_eq] at h1
          simp at h1 h2 ⊢
          exact ⟨h1, h2⟩
        rw [this, h3]
      · intro hx
        injection hx with h1 h2
        subst h1
        subst h2
        refine ⟨⟨by simp, by simp⟩, rfl⟩

theorem peq_iff_aux : ∀ (n : Nat) (a b : PVal), sizeOf a ≤ n →
    (peq a b = true ↔ a = b) := by
  intro n
  induction n with
  | zero =>
    intro a b h
    cases a <;> simp at h
  | succ n ih =>
    intro a b hs
    cases a with
    | vlist xs =>
      have hxs : ∀ x ∈ xs, ∀ y, peq x y = true ↔ x = y := by
        intro x hx y
        refine ih x y ?_
        have h1 := List.sizeOf_lt_of_mem hx
        simp at hs
        omega
      cases b <;> simp [peq, peqL_iff_of xs _ hxs]
    | vmap kvs =>
      have hxs : ∀ x ∈ kvs, ∀ y, peq x.2 y = true ↔ x.2 = y := by
        intro x hx y
        refine ih x.2 y ?_
        have h1 := List.sizeOf_lt_of_mem hx
        have h2 : sizeOf x.2 < sizeOf x := by
          cases x
          simp
        simp at hs
        omega
      cases b <;> simp [peq, peqM_iff_of kvs _ hxs]
    | vobj c args st =>
      have hargs : ∀ x ∈ args, ∀ y, peq x y = true ↔ x = y := by
        intro x hx y
        refine ih x y ?_
        have h1 := List.sizeOf_lt_of_mem hx
        simp at hs
        omega
      have hst : ∀ x ∈ st, ∀ y, peq x.2 y = true ↔ x.2 = y := by
        intro x hx y
        refine ih x.2 y ?_
        have h1 := List.sizeOf_lt_of_mem hx
        have h2 : sizeOf x.2 < sizeOf x := by
          cases x
          simp
        simp at hs
        omega
      cases b <;>
        simp [peq, peqL_iff_of args _ hargs, peqM_iff_of st _ hst, and_assoc]
    | vnil => cases b <;> simp [peq]
    | vbool a => cases b <;> simp [peq]
    | vint a => cases b <;> simp [peq]
    | vstr a => cases b <;> simp [peq]
    | vbytes a => cases b <;> simp [peq]
    | vproxy a => cases b <;> simp [peq]
    | vcls a => cases b <;> simp [peq]
    | vext a => cases b <;> simp [peq]

theorem peq_iff (a b : PVal) : peq a b = true ↔ a = b :=
  peq_iff_aux (sizeOf a) a b (Nat.le_refl _)

instance : DecidableEq PVal := fun a b => decidable_of_iff _ (peq_iff a b)

end Codec

namespace Codec

/-- Modelled from the spec: the proxy table of `moat.util`, a mapping of
stable short names to process-local objects, consulted by name
(`name2obj`) and by object (`obj2name`). -/
abbrev Tbl := List (String × PVal)

/-- Modelled from the spec: `name2obj` resolves a registered name. -/
def name2obj (t : Tbl) (n : String) : Option PVal :=
  (List.find? (fun e => e.1 = n) t).map (fun e => e.2)

/-- Modelled from the spec: `obj2name` finds the name of a registered
object. -/
def obj2name (t : Tbl) (v : PVal) : Option String :=
  (List.find? (fun e => e.2 = v) t).map (fun e => e.1)

/-- Modelled from the spec: `get_proxy` allocates an auto-name for an
unregistered object and records it in the table. -/
def get_proxy (t : Tbl) (v : PVal) : Tbl × String :=
  (("p" ++ toString (List.length t), v) :: t, "p" ++ toString (List.length t))

mutual

/-- `_encode` combined with msgpack packing: primitives and containers
pack natively (recursing through the `default` hook), `Proxy` placeholders
become ExtType 4 of their name, a value registered in the table becomes
ExtType 4 of its name, an instance of a registered class becomes ExtType 5
of the class name with packed args and state, and anything else gets an
auto-allocated proxy name. -/
def packV (t : Tbl) : PVal → Tbl × EVal
  | .vnil => (t, .enil)
  | .vbool b => (t, .ebool b)
  | .vint n => (t, .eint n)
  | .vstr s => (t, .estr s)
  | .vbytes bs => (t, .ebytes bs)
  | .vlist xs =>
    let p := packL t xs
    (p.1, .elist p.2)
  | .vmap kvs =>
    let p := packM t kvs
    (p.1, .emap p.2)
  | .vproxy n => (t, .ext4 n)
  | .vcls c =>
    match obj2name t (.vcls c) with
    | some k => (t, .ext4 k)
    | none =>
      let p := get_proxy t (.vcls c)
      (p.1, .ext4 p.2)
  | .vobj c args st =>
    match obj2name t (.vobj c args st) with
    | some k => (t, .ext4 k)
    | none =>
      match obj2name t (.vcls c) with
      | some k =>
        let p1 := packL t args
        let p2 := packM p1.1 st
        (p2.1, .ext5 k p1.2 p2.2)
      | none =>
        let p := get_proxy t (.vobj c args st)
        (p.1, .ext4 p.2)
  | .vext tag => (t, .ext4 ("?" ++ toString tag))

/-- Packing of a list of values, threading the proxy table. -/
def packL (t : Tbl) : List PVal → Tbl × List EVal
  | [] => (t, [])
  | v :: rest =>
    let p := packV t v
    let q := packL p.1 rest
    (q.1, p.2 :: q.2)

/-- Packing of a string-keyed mapping, threading the proxy table. -/
def packM (t : Tbl) : List (String × PVal) → Tbl × List (String × EVal)
  | [] => (t, [])
  | kv :: rest =>
    let p := packV t kv.2
    let q := packM p.1 rest
    (q.1, (kv.1, p.2) :: q.2)

end

mutual

/-- `_decode` combined with msgpack unpacking: ExtType 4 resolves the
name in the table, materialising a `Proxy` placeholder when unknown;
ExtType 5 looks the class up by name and reconstructs the instance from
the decoded args and state, falling back to a raw ExtType value when the
name does not resolve to a class. -/
def unpackV (t : Tbl) : EVal → PVal
  | .enil => .vnil
  | .ebool b => .vbool b
  | .eint n => .vint n
  | .estr s => .vstr s
  | .ebytes bs => .vbytes bs
  | .elist ys => .vlist (unpackL t ys)
  | .emap kvs => .vmap (unpackM t kvs)
  | .ext4 n =>
    match name2obj t n with
    | some v => v
    | none => .vproxy n
  | .ext5 k args st =>
    match name2obj t k with
    | some (.vcls c) => .vobj c (unpackL t args) (unpackM t st)
    | _ => .vext 5

/-- Unpacking of a list of wire values. -/
def unpackL (t : Tbl) : List EVal → List PVal
  | [] => []
  | y :: rest => unpackV t y :: unpackL t rest

/-- Unpacking of a string-keyed mapping of wire values. -/
def unpackM (t : Tbl) : List (String × EVal) → List (String × PVal)
  | [] => []
  | kv :: rest => (kv.1, unpackV t kv.2) :: unpackM t rest

end

mutual

/-- The values covered by claim C3: primitives and containers of them, a
`Proxy` placeholder whose name is not taken, a registered class, a value
registered in the proxy table, and an instance of a registered class with
round-trippable args and state. -/
def canRT (t : Tbl) : PVal → Bool
  | .vnil => true
  | .vbool _ => true
  | .vint _ => true
  | .vstr _ => true
  | .vbytes _ => true
  | .vlist xs => canRTL t xs
  | .vmap kvs => canRTM t kvs
  | .vproxy n => (name2obj t n).isNone
  | .vcls c => (obj2name t (.vcls c)).isSome
  | .vobj c args st =>
    match obj2name t (.vobj c args st) with
    | some _ => true
    | none => (obj2name t (.vcls c)).isSome && canRTL t args && canRTM t st
  | .vext _ => false

/-- Round-trippability of every element of a list. -/
def canRTL (t : Tbl) : List PVal → Bool
  | [] => true
  | v :: rest => canRT t v && canRTL t rest

/-- Round-trippability of every value of a mapping. -/
def canRTM (t : Tbl) : List (String × PVal) → Bool
  | [] => true
  | kv :: rest => canRT t kv.2 && canRTM t rest

end

/-- A well-formed proxy table: registered names are distinct. -/
def TblWF (t : Tbl) : Prop := (List.map Prod.fst t).Nodup

instance (t : Tbl) : Decidable (TblWF t) :=
  List.nodupDecidable (List.map Prod.fst t)

theorem name2obj_cons (e : String × PVal) (t : Tbl) (n : String) :
    name2obj (e :: t) n = if e.1 = n then some e.2 else name2obj t n := by
  by_cases h : e.1 = n <;> simp [name2obj, List.find?, h]

theorem obj2name_cons (e : String × PVal) (t : Tbl) (v : PVal) :
    obj2name (e :: t) v = if e.2 = v then some e.1 else obj2name t v := by
  by_cases h : e.2 = v <;> simp [obj2name, List.find?, h]

theorem obj2name_mem {t : Tbl} {v : PVal} {k : String}
    (h : obj2name t v = some k) : k ∈ List.map Prod.fst t := by
  induction t with
  | nil => simp [obj2name] at h
  | cons e rest ih =>
    rw [obj2name_cons] at h
    by_cases he : e.2 = v
    · rw [if_pos he] at h
      injection h with h2
      simp [← h2]
    · rw [if_neg he] at h
      simp [ih h]

theorem name2obj_of_obj2name {t : Tbl} {v : PVal} {k : String}
    (hwf : TblWF t) (h : obj2name t v = some k) : name2obj t k = some v := by
  induction t with
  | nil => simp [obj2name] at h
  | cons e rest ih =>
    rw [obj2name_cons] at h
    rw [name2obj_cons]
    by_cases he : e.2 = v
    · rw [if_pos he] at h
      injection h with h2
      rw [if_pos h2, he]
    · rw [if_neg he] at h
      have hmem := obj2name_mem h
      have hwf2 : (List.map Prod.fst rest).Nodup := by
        rw [TblWF, List.map_cons, List.nodup_cons] at hwf
        exact hwf.2
      have hne : ¬ e.1 = k := by
        intro hek
        rw [TblWF, List.map_cons, List.nodup_cons] at hwf
        rw [hek] at hwf
        exact hwf.1 hmem
      rw [if_neg hne]
      exact ih hwf2 h

end Codec

namespace Codec

theorem packL_of (t : Tbl) (xs : List PVal)
    (h : ∀ x ∈ xs, canRT t x = true →
      unpackV t (packV t x).2 = x ∧ (packV t x).1 = t)
    (hc : canRTL t xs = true) :
    (packL t xs).1 = t ∧ unpackL t (packL t xs).2 = xs := by
  induction xs with
  | nil => simp [packL, unpackL]
  | cons x rest ih =>
    rw [canRTL, Bool.and_eq_true] at hc
    have hx := h x (by simp) hc.1
    have hrest := ih (fun z hz hcz => h z (by simp [hz]) hcz) hc.2
    simp only [packL]
    rw [hx.2]
    refine ⟨hrest.1, ?_⟩
    rw [unpackL, hx.1, hrest.2]

theorem packM_of (t : Tbl) (xs : List (String × PVal))
    (h : ∀ x ∈ xs, canRT t x.2 = true →
      unpackV t (packV t x.2).2 = x.2 ∧ (packV t x.2).1 = t)
    (hc : canRTM t xs = true) :
    (packM t xs).1 = t ∧ unpackM t (packM t xs).2 = xs := by
  induction xs with
  | nil => simp [packM, unpackM]
  | cons x rest ih =>
    rw [canRTM, Bool.and_eq_true] at hc
    have hx := h x (by simp) hc.1
    have hrest := ih (fun z hz hcz => h z (by simp [hz]) hcz) hc.2
    simp only [packM]
    rw [hx.2]
    refine ⟨hrest.1, ?_⟩
    rw [unpackM, hx.1, hrest.2]

theorem codec_rt_aux : ∀ (n : Nat) (t : Tbl) (v : PVal), sizeOf v ≤ n →
    TblWF t → canRT t v = true →
    unpackV t (packV t v).2 = v ∧ (packV t v).1 = t := by
  intro n
  induction n with
  | zero =>
    intro t v h
    cases v <;> simp at h
  | succ n ih =>
    intro t v hs hwf hc
    cases v with
    | vnil => exact ⟨rfl, rfl⟩
    | vbool b => exact ⟨rfl, rfl⟩
    | vint i => exact ⟨rfl, rfl⟩
    | vstr s => exact ⟨rfl, rfl⟩
    | vbytes bs => exact ⟨rfl, rfl⟩
    | vlist xs =>
      rw [canRT] at hc
      have hp := packL_of t xs ?_ hc
      · simp only [packV, unpackV]
        rw [hp.1, hp.2]
        simp
      · intro x hx hcx
        refine ih t x ?_ hwf hcx
        have h1 := List.sizeOf_lt_of_mem hx
        simp at hs
        omega
    | vmap kvs =>
      rw [canRT] at hc
      have hp := packM_of t kvs ?_ hc
      · simp only [packV, unpackV]
        rw [hp.1, hp.2]
        simp
      · intro x hx hcx
        refine ih t x.2 ?_ hwf hcx
        have h1 := List.sizeOf_lt_of_mem hx
        have h2 : sizeOf x.2 < sizeOf x := by
          cases x
          simp
        simp at hs
        omega
    | vproxy nm =>
      rw [canRT, Option.isNone_iff_eq_none] at hc
      simp only [packV, unpackV, hc]
      simp
    | vcls c =>
      rw [canRT] at hc
      obtain ⟨k, hk⟩ := Option.isSome_iff_exists.1 hc
      have hn := name2obj_of_obj2name hwf hk
      simp only [packV, unpackV, hk, hn]
      simp
    | vobj c args st =>
      cases hon : obj2name t (.vobj c args st) with
      | some k =>
        have hn := name2obj_of_obj2name hwf hon
        simp only [packV, unpackV, hon, hn]
        simp
      | none =>
        rw [canRT] at hc
        simp only [hon, Bool.and_eq_true] at hc
        obtain ⟨⟨hcls, hargs⟩, hst⟩ := hc
        obtain ⟨k, hk⟩ := Option.isSome_iff_exists.1 hcls
        have hn := name2obj_of_obj2name hwf hk
        have hpl := packL_of t args ?_ hargs
        · have hpm := packM_of t st ?_ hst
          · simp only [packV, hon, hk]
            rw [hpl.1]
            refine ⟨?_, ?_⟩
            · simp only [unpackV, hn]
              rw [hpl.2, hpm.2]
            · exact hpm.1
          · intro x hx hcx
            refine ih t x.2 ?_ hwf hcx
            have h1 := List.sizeOf_lt_of_mem hx
            have h2 : sizeOf x.2 < sizeOf x := by
              cases x
              simp
            simp at hs
            omega
        · intro x hx hcx
          refine ih t x ?_ hwf hcx
          have h1 := List.sizeOf_lt_of_mem hx
          simp at hs
          omega
    | vext tag =>
      rw [canRT] at hc
      exact absurd hc (by simp)

/-- Claim C3: for every value `v` that is a primitive (or a container of
such), a proxy placeholder, a value registered in the proxy table, or an
instance of a class registered in the table, decoding the encoding of `v`
under a well-formed table yields a value structurally equal to `v`, and
encoding such a value - in particular one that already has a registered
name - leaves the proxy table, and hence its size, unchanged. -/
theorem codec_roundtrip (t : Tbl) (v : PVal) (hwf : TblWF t)
    (hrt : canRT t v = true) :
    unpackV t (packV t v).2 = v ∧ (packV t v).1 = t ∧
    List.length (packV t v).1 = List.length t := by
  have h := codec_rt_aux (sizeOf v) t v (Nat.le_refl _) hwf hrt
  exact ⟨h.1, h.2, by rw [h.2]⟩

/-- Witness for C3 at a concrete table: `Bar(95)` is registered by value
under `b`, class `KeyError` under `_KyErr`; a `KeyError` instance
round-trips through ExtType 5 and the registered `Bar` value through
ExtType 4, and the table size stays 2. -/
theorem codec_roundtrip_witness :
    (unpackV [("b", .vobj "Bar" [.vint 95] []), ("_KyErr", .vcls "KeyError")]
      (packV [("b", .vobj "Bar" [.vint 95] []), ("_KyErr", .vcls "KeyError")]
        (.vobj "KeyError" [.vstr "boom"] [])).2 = .vobj "KeyError" [.vstr "boom"] []) ∧
    (unpackV [("b", .vobj "Bar" [.vint 95] []), ("_KyErr", .vcls "KeyError")]
      (packV [("b", .vobj "Bar" [.vint 95] []), ("_KyErr", .vcls "KeyError")]
        (.vobj "Bar" [.vint 95] [])).2 = .vobj "Bar" [.vint 95] []) ∧
    List.length (packV [("b", .vobj "Bar" [.vint 95] []),
      ("_KyErr", .vcls "KeyError")] (.vobj "KeyError" [.vstr "boom"] [])).1 = 2 := by
  refine ⟨?_, ?_, ?_⟩
  · exact (codec_roundtrip _ _ (by decide) (by decide)).1
  · exact (codec_roundtrip _ _ (by decide) (by decide)).1
  · exact (codec_roundtrip [("b", .vobj "Bar" [.vint 95] []),
      ("_KyErr", .vcls "KeyError")] (.vobj "KeyError" [.vstr "boom"] [])
      (by decide) (by decide)).2.2

end Codec

namespace Rel

/-- `pydiff` of two residues recovers the absolute distance when it is
below the modulus. -/
theorem pydiff_mod_eq {w : Nat} (hw : 1 < w) (y d : Nat) (hd : d < w) :
    pydiff ((y + d) % w) (y % w) w = d := by
  induction d with
  | zero => simpa using pydiff_self (y % w) w (by omega)
  | succ n ih =>
    have hn := ih (by omega)
    have h1 : (y + (n + 1)) % w = (((y + n) % w) + 1) % w := by
      conv_lhs => rw [show y + (n + 1) = (y + n) + 1 by ring]
      rw [Nat.add_mod (y + n) 1 w, Nat.mod_eq_of_lt (show (1 : Nat) < w by omega)]
    rw [h1, pydiff_succ_left (Nat.mod_lt _ (by omega)) (Nat.mod_lt _ (by omega))
      (by rw [hn]; omega), hn]

/-- The two `pydiff`s between distinct residues sum to the modulus. -/
theorem pydiff_add_rev {a b w : Nat} (ha : a < w) (hb : b < w) (hne : a ≠ b) :
    pydiff a b w + pydiff b a w = w := by
  rw [pydiff_closed ha hb, pydiff_closed hb ha]
  split_ifs <;> omega

/-- `pydiff` of a stale residue: distance around the circle. -/
theorem pydiff_mod_stale {w : Nat} (hw : 1 < w) (x y : Nat) (hxy : x < y)
    (hlt : y - x < w) : pydiff (x % w) (y % w) w = w - (y - x) := by
  have h1 : pydiff (y % w) (x % w) w = y - x := by
    have h2 := pydiff_mod_eq hw x (y - x) hlt
    rwa [show x + (y - x) = y by omega] at h2
  have hne : y % w ≠ x % w := by
    intro he
    rw [he, pydiff_self _ _ (by omega)] at h1
    omega
  have h2 := pydiff_add_rev (Nat.mod_lt y (by omega)) (Nat.mod_lt x (by omega)) hne
  omega

/-- Residue distance of ordered absolute counters. -/
theorem pydiff_mod_sub {w : Nat} (hw : 1 < w) {x y : Nat} (hyx : y ≤ x)
    (hlt : x - y < w) : pydiff (x % w) (y % w) w = x - y := by
  have h := pydiff_mod_eq hw y (x - y) hlt
  rwa [show y + (x - y) = x by omega] at h

/-- Adding to a base the `pydiff` from a residue back to the base's
residue lands on the residue. -/
theorem add_pydiff_mod {w : Nat} (hw : 0 < w) (x k : Nat) (hk : k < w) :
    (x + pydiff k (x % w) w) % w = k := by
  have hxm : (x % w) % w = x % w := Nat.mod_mod_of_dvd _ dvd_rfl
  have hdm := Nat.div_add_mod x w
  have hxl : x % w < w := Nat.mod_lt _ hw
  unfold pydiff
  rw [hxm, Nat.add_mod_mod]
  rw [show x + (k + (w - x % w)) = k + w * (x / w) + w by omega]
  rw [Nat.add_mod_right, Nat.add_mul_mod_self_left, Nat.mod_eq_of_lt hk]

/-- One fuelled step of `collectX` stops at the receive head. -/
theorem collectX_stop {V : Type} (fuel : Nat) (st : RState V) (rr : Nat)
    (h : rr = st.recvHead) : collectX fuel st rr = [] := by
  cases fuel with
  | zero => rfl
  | succ n => rw [collectX, if_pos h]

/-- `ackWalk` is the identity when the ack already equals the tail. -/
theorem ackWalk_stop {V : Type} (fuel : Nat) (st : RState V) (sAck : Nat)
    (hf : 0 < fuel) (h : st.sendTail = sAck) : ackWalk fuel st sAck = st := by
  cases fuel with
  | zero => omega
  | succ n => rw [ackWalk, if_pos h]

/-- `drain` is the identity when the receive window is empty. -/
theorem drain_stop {V : Type} (fuel : Nat) (st : RState V)
    (hf : 0 < fuel) (h : st.recvTail = st.recvHead) : drain fuel st = st := by
  cases fuel with
  | zero => omega
  | succ n => rw [drain, if_pos h]

/-- One popped entry of the delivery drain. -/
theorem drain_once {V : Type} (fuel : Nat) (st : RState V)
    (hf : 0 < fuel) (hne : ¬(st.recvTail = st.recvHead)) (d : V)
    (hd : alookup st.mRecv st.recvTail = some d) :
    drain fuel st = drain (fuel - 1)
      { st with
        mRecv := aerase st.mRecv st.recvTail
        recvTail := (st.recvTail + 1) % st.window
        pendAck := true
        rq := st.rq ++ [d] } := by
  cases fuel with
  | zero => omega
  | succ m =>
    rw [drain, if_neg hne, hd]
    simp

/-- Accepting a fresh in-order data message when the window is empty. -/
theorem handleData_fresh {V : Type} (st : RState V) (v : V)
    (hw : 4 ≤ st.window) (heq : st.recvTail = st.recvHead)
    (hr : st.recvTail < st.window) :
    handleData st st.recvTail (some v) = { st with
      pendAck := true
      mRecv := ainsert st.mRecv st.recvTail v
      recvHead := (st.recvTail + 1) % st.window } := by
  have hp0 : pydiff st.recvTail st.recvTail st.window = 0 :=
    pydiff_self _ _ (by omega)
  have c1 : between { st with pendAck := true }
      st.recvTail st.recvHead st.recvTail = true := by
    simp only [between, decide_eq_true_eq]
    show pydiff st.recvHead st.recvTail st.window
      ≤ pydiff st.recvTail st.recvTail st.window
    rw [← heq]
  have c2 : pydiff st.recvTail st.recvTail st.window < st.window / 2 := by
    rw [hp0]
    omega
  simp only [handleData]
  rw [if_pos c1, if_pos c2]

/-- A bare ack announcing exactly the current head is a no-op. -/
theorem handleData_self {V : Type} (st : RState V)
    (hw : 4 ≤ st.window) (heq : st.recvTail = st.recvHead)
    (hr : st.recvTail < st.window) :
    handleData st st.recvHead none = st := by
  have hp0 : pydiff st.recvHead st.recvTail st.window = 0 := by
    rw [heq]
    exact pydiff_self _ _ (by omega)
  have c1 : between st st.recvTail st.recvHead st.recvHead = true := by
    simp only [between, decide_eq_true_eq]
    exact Nat.le_refl _
  have c2 : pydiff st.recvHead st.recvTail st.window ≤ st.window / 2 := by
    rw [hp0]
    omega
  simp only [handleData]
  rw [if_pos c1, if_pos c2]

/-- The drain pops a single stored entry sitting right below the head. -/
theorem drain_pop_stop {V : Type} (fuel : Nat) (st : RState V) (d : V)
    (hf : 2 ≤ fuel) (hne : ¬(st.recvTail = st.recvHead))
    (hd : alookup st.mRecv st.recvTail = some d)
    (hafter : (st.recvTail + 1) % st.window = st.recvHead) :
    drain fuel st = { st with
      mRecv := aerase st.mRecv st.recvTail
      recvTail := st.recvHead
      pendAck := true
      rq := st.rq ++ [d] } := by
  rw [drain_once fuel st (by omega) hne d hd, hafter]
  exact drain_stop _ _ (by omega) rfl

/-- The ack walk pops a single stored entry and lands on the ack. -/
theorem ackWalk_pop_stop {V : Type} (fuel : Nat) (st : RState V) (sAck : Nat)
    (vf : V × Bool) (hf : 2 ≤ fuel) (hne1 : ¬(st.sendTail = sAck))
    (hne2 : ¬(st.sendTail = st.sendHead))
    (hd : alookup st.mSend st.sendTail = some vf)
    (hafter : (st.sendTail + 1) % st.window = sAck) :
    ackWalk fuel st sAck = { st with
      mSend := aerase st.mSend st.sendTail
      pendAck := true
      sendTail := sAck } := by
  cases fuel with
  | zero => omega
  | succ m =>
    rw [ackWalk, if_neg hne1, if_neg hne2, hd]
    simp only [hafter]
    exact ackWalk_stop _ _ _ (by omega) rfl

/-- `xMark` over an empty send table does nothing. -/
theorem xMark_nil {V : Type} (l : List Nat) (st : RState V)
    (h : st.mSend = []) : xMark st l = st := by
  induction l with
  | nil => rfl
  | cons rr rest ih =>
    rw [xMark]
    have hl : alookup st.mSend rr = none := by rw [h]; rfl
    rw [hl]
    exact ih


/-- Walking one slot back from a successor residue goes all the way
around. -/
theorem pydiff_back_succ {t w : Nat} (hw : 2 ≤ w) (ht : t < w) :
    pydiff t ((t + 1) % w) w = w - 1 := by
  have h1 : pydiff ((t + 1) % w) (t % w) w = 1 := pydiff_mod_eq (by omega) t 1 (by omega)
  rw [Nat.mod_eq_of_lt ht] at h1
  have hne : (t + 1) % w ≠ t := by
    intro he
    rw [he, pydiff_self _ _ (by omega)] at h1
    omega
  have h2 := pydiff_add_rev (Nat.mod_lt _ (show 0 < w by omega)) ht hne
  omega

/-- Characterization of the ack-processing walk of `dispatch`: starting
at the send tail and acked `Δ` positions into the in-flight span, the walk
moves the tail onto the acked residue, pops exactly the send entries
below it, touches no other field, and pends an ack unless it popped
nothing. -/
theorem ackWalk_char {V : Type} {w : Nat} (hw : 4 ≤ w) :
    ∀ (Δ fuel : Nat) (st : RState V) (sAck : Nat),
    st.window = w → st.sendHead < w → st.sendTail < w →
    Δ ≤ pydiff st.sendHead st.sendTail w →
    sAck = (st.sendTail + Δ) % w →
    Δ < fuel →
    (ackWalk fuel st sAck).window = w ∧
    (ackWalk fuel st sAck).sendHead = st.sendHead ∧
    (ackWalk fuel st sAck).sendTail = sAck ∧
    (ackWalk fuel st sAck).recvHead = st.recvHead ∧
    (ackWalk fuel st sAck).recvTail = st.recvTail ∧
    (ackWalk fuel st sAck).mRecv = st.mRecv ∧
    (ackWalk fuel st sAck).sQ = st.sQ ∧
    (ackWalk fuel st sAck).rq = st.rq ∧
    (ackWalk fuel st sAck).closed = st.closed ∧
    (ackWalk fuel st sAck).inReset = st.inReset ∧
    ((ackWalk fuel st sAck).pendAck = true ∨
      (ackWalk fuel st sAck).pendAck = st.pendAck) ∧
    (∀ k v, alookup (ackWalk fuel st sAck).mSend k = some v →
      alookup st.mSend k = some v) ∧
    (∀ k, k < w → pydiff k st.sendTail w < Δ →
      alookup (ackWalk fuel st sAck).mSend k = none) ∧
    (∀ k, k < w → Δ ≤ pydiff k st.sendTail w →
      alookup (ackWalk fuel st sAck).mSend k = alookup st.mSend k) := by
  intro Δ
  induction Δ with
  | zero =>
    intro fuel st sAck hwin hh ht hsh hack hfuel
    have hst : st.sendTail = sAck := by
      rw [hack, Nat.add_zero, Nat.mod_eq_of_lt ht]
    rw [ackWalk_stop fuel st sAck (by omega) hst]
    refine ⟨hwin, rfl, hst, rfl, rfl, rfl, rfl, rfl, rfl, rfl, Or.inr rfl,
      fun k v h => h, fun k hk h0 => absurd h0 (by omega), fun k hk h0 => rfl⟩
  | succ n ih =>
    intro fuel st sAck hwin hh ht hsh hack hfuel
    have hnw : n + 1 < w := lt_of_le_of_lt hsh (pydiff_lt hh ht)
    have hpda : pydiff sAck st.sendTail w = n + 1 := by
      have h2 := pydiff_mod_eq (w := w) (by omega) st.sendTail (n + 1) hnw
      rwa [Nat.mod_eq_of_lt ht, ← hack] at h2
    have hne1 : st.sendTail ≠ sAck := by
      intro he
      rw [← he, pydiff_self _ _ (by omega)] at hpda
      omega
    have hne2 : st.sendTail ≠ st.sendHead := by
      intro he
      have h0 : pydiff st.sendHead st.sendTail w = 0 := by
        rw [← he, pydiff_self _ _ (by omega)]
      omega
    cases fuel with
    | zero => omega
    | succ m =>
      have hbs : pydiff st.sendTail ((st.sendTail + 1) % w) w = w - 1 :=
        pydiff_back_succ (by omega) ht
      have hps := pydiff_succ_right hh ht (fun he => hne2 he.symm)
      have htm : (st.sendTail + 1) % w < w := Nat.mod_lt _ (by omega)
      have hackm : sAck = ((st.sendTail + 1) % w + n) % w := by
        rw [Nat.mod_add_mod, hack]
        congr 1
        omega
      cases hms : alookup st.mSend st.sendTail with
      | none =>
        have hstep : ackWalk (m + 1) st sAck
            = ackWalk m { st with sendTail := (st.sendTail + 1) % w } sAck := by
          rw [ackWalk, if_neg hne1, if_neg hne2, hms]
          simp [hwin]
        rw [hstep]
        have hres := ih m { st with sendTail := (st.sendTail + 1) % w } sAck
          hwin hh htm
          (by
            show n ≤ pydiff st.sendHead ((st.sendTail + 1) % w) w
            rw [hps.1]
            omega)
          hackm (by omega)
        obtain ⟨c1, c2, c3, c4, c5, c6, c7, c8, c9, c10, c11, c12, c13, c14⟩ := hres
        refine ⟨c1, c2, c3, c4, c5, c6, c7, c8, c9, c10, c11, c12, ?_, ?_⟩
        · intro k hk hlt
          by_cases hkt : k = st.sendTail
          · have h1 : pydiff k ((st.sendTail + 1) % w) w = w - 1 := by
              rw [hkt]
              exact hbs
            have h2 := c14 k hk
              (by
                show n ≤ pydiff k ((st.sendTail + 1) % w) w
                rw [h1]
                omega)
            rw [h2, hkt]
            exact hms
          · have h1 := (pydiff_succ_right hk ht hkt).1
            have h2 := (pydiff_succ_right hk ht hkt).2
            exact c13 k hk
              (by
                show pydiff k ((st.sendTail + 1) % w) w < n
                omega)
        · intro k hk hge
          have hkt : k ≠ st.sendTail := by
            intro he
            rw [he, pydiff_self _ _ (by omega)] at hge
            omega
          have h1 := (pydiff_succ_right hk ht hkt).1
          exact c14 k hk
            (by
              show n ≤ pydiff k ((st.sendTail + 1) % w) w
              omega)
      | some v =>
        have hstep : ackWalk (m + 1) st sAck
            = ackWalk m
              { st with
                mSend := aerase st.mSend st.sendTail
                pendAck := true
                sendTail := (st.sendTail + 1) % w } sAck := by
          rw [ackWalk, if_neg hne1, if_neg hne2, hms]
          simp [hwin]
        rw [hstep]
        have hres := ih m
          { st with
            mSend := aerase st.mSend st.sendTail
            pendAck := true
            sendTail := (st.sendTail + 1) % w } sAck
          hwin hh htm
          (by
            show n ≤ pydiff st.sendHead ((st.sendTail + 1) % w) w
            rw [hps.1]
            omega)
          hackm (by omega)
        obtain ⟨c1, c2, c3, c4, c5, c6, c7, c8, c9, c10, c11, c12, c13, c14⟩ := hres
        refine ⟨c1, c2, c3, c4, c5, c6, c7, c8, c9, c10, ?_, ?_, ?_, ?_⟩
        · rcases c11 with h | h
          · exact Or.inl h
          · exact Or.inl h
        · intro k v1 hkv
          have h1 := c12 k v1 hkv
          by_cases hkt : k = st.sendTail
          · rw [hkt, alookup_aerase_self] at h1
            exact absurd h1 (by simp)
          · rwa [alookup_aerase_ne _ _ _ hkt] at h1
        · intro k hk hlt
          by_cases hkt : k = st.sendTail
          · have h1 : pydiff k ((st.sendTail + 1) % w) w = w - 1 := by
              rw [hkt]
              exact hbs
            have h2 := c14 k hk
              (by
                show n ≤ pydiff k ((st.sendTail + 1) % w) w
                rw [h1]
                omega)
            rw [h2, hkt, alookup_aerase_self]
          · have h1 := (pydiff_succ_right hk ht hkt).1
            have h2 := (pydiff_succ_right hk ht hkt).2
            exact c13 k hk
              (by
                show pydiff k ((st.sendTail + 1) % w) w < n
                omega)
        · intro k hk hge
          have hkt : k ≠ st.sendTail := by
            intro he
            rw [he, pydiff_self _ _ (by omega)] at hge
            omega
          have h1 := (pydiff_succ_right hk ht hkt).1
          rw [c14 k hk
              (by
                show n ≤ pydiff k ((st.sendTail + 1) % w) w
                omega),
            alookup_aerase_ne _ _ _ hkt]


/-- Effect of the `x`-list loop: only the waiter flags of send entries
change; every field and every entry payload is preserved. -/
theorem xMark_fields {V : Type} :
    ∀ (l : List Nat) (st : RState V),
    (xMark st l).window = st.window ∧ (xMark st l).sendHead = st.sendHead ∧
    (xMark st l).sendTail = st.sendTail ∧ (xMark st l).recvHead = st.recvHead ∧
    (xMark st l).recvTail = st.recvTail ∧ (xMark st l).mRecv = st.mRecv ∧
    (xMark st l).sQ = st.sQ ∧ (xMark st l).rq = st.rq ∧
    (xMark st l).closed = st.closed ∧ (xMark st l).inReset = st.inReset ∧
    (xMark st l).pendAck = st.pendAck ∧
    ∀ k v, alookup (xMark st l).mSend k = some v →
      ∃ v0, alookup st.mSend k = some v0 ∧ v0.1 = v.1 := by
  intro l
  induction l with
  | nil =>
    intro st
    exact ⟨rfl, rfl, rfl, rfl, rfl, rfl, rfl, rfl, rfl, rfl, rfl,
      fun k v h => ⟨v, h, rfl⟩⟩
  | cons rr rest ih =>
    intro st
    cases hl : alookup st.mSend rr with
    | none =>
      have hstep : xMark st (rr :: rest) = xMark st rest := by
        rw [xMark, hl]
      rw [hstep]
      exact ih st
    | some vf =>
      have hstep : xMark st (rr :: rest)
          = xMark { st with mSend := ainsert st.mSend rr (vf.1, true) } rest := by
        rw [xMark, hl]
      rw [hstep]
      obtain ⟨c1, c2, c3, c4, c5, c6, c7, c8, c9, c10, c11, c12⟩ :=
        ih { st with mSend := ainsert st.mSend rr (vf.1, true) }
      refine ⟨c1, c2, c3, c4, c5, c6, c7, c8, c9, c10, c11, ?_⟩
      intro k v hkv
      obtain ⟨v0, hv0, hv01⟩ := c12 k v hkv
      by_cases hkr : k = rr
      · rw [hkr, alookup_ainsert_self] at hv0
        refine ⟨vf, by rw [← hkr] at hl; exact hl, ?_⟩
        cases hv0
        exact hv01
      · rw [alookup_ainsert_ne _ _ _ _ hkr] at hv0
        exact ⟨v0, hv0, hv01⟩

/-- Characterization of the delivery drain: some count `c` of contiguous
entries starting at the tail is handed to the receive queue in order; the
tail advances by `c`, the entries below it disappear, everything else is
untouched. -/
theorem drain_char {V : Type} {w : Nat} (hw : 4 ≤ w) (ms : List V) :
    ∀ (fuel : Nat) (st : RState V) (D : Nat),
    st.window = w → st.recvHead < w → st.recvTail < w →
    st.recvTail = D % w →
    st.rq = ms.take D →
    D + pydiff st.recvHead st.recvTail w ≤ ms.length →
    (∀ k v, alookup st.mRecv k = some v →
      k < w ∧ pydiff k st.recvTail w < pydiff st.recvHead st.recvTail w ∧
      ms.get? (D + pydiff k st.recvTail w) = some v) →
    pydiff st.recvHead st.recvTail w < fuel →
    ∃ c, c ≤ pydiff st.recvHead st.recvTail w ∧
      (drain fuel st).window = w ∧
      (drain fuel st).recvHead = st.recvHead ∧
      (drain fuel st).recvTail = (D + c) % w ∧
      (drain fuel st).sendHead = st.sendHead ∧
      (drain fuel st).sendTail = st.sendTail ∧
      (drain fuel st).mSend = st.mSend ∧
      (drain fuel st).sQ = st.sQ ∧
      (drain fuel st).closed = st.closed ∧
      (drain fuel st).inReset = st.inReset ∧
      ((drain fuel st).pendAck = true ∨ (drain fuel st).pendAck = st.pendAck) ∧
      (drain fuel st).rq = ms.take (D + c) ∧
      (drain fuel st).rq.length = D + c ∧
      (∀ k v, alookup (drain fuel st).mRecv k = some v →
        ∃ j, D + c < j ∧ j < D + pydiff st.recvHead st.recvTail w ∧
          k = j % w ∧ ms.get? j = some v) := by
  intro fuel
  induction fuel with
  | zero =>
    intro st D hwin hh ht htD hrq hlen hcert hfuel
    omega
  | succ m ih =>
    intro st D hwin hh ht htD hrq hlen hcert hfuel
    by_cases hth : st.recvTail = st.recvHead
    · have hed : pydiff st.recvHead st.recvTail w = 0 := by
        rw [hth, pydiff_self _ _ (by omega)]
      rw [drain_stop _ _ (by omega) hth]
      refine ⟨0, by omega, hwin, rfl, by rw [Nat.add_zero, ← htD], rfl, rfl, rfl,
        rfl, rfl, rfl, Or.inr rfl, by rw [Nat.add_zero, hrq], ?_, ?_⟩
      · rw [hrq, Nat.add_zero, List.length_take]
        omega
      · intro k v hkv
        have h1 := (hcert k v hkv).2.1
        omega
    · cases hmr : alookup st.mRecv st.recvTail with
      | none =>
        have hstep0 : drain (m + 1) st = st := by
          rw [drain, if_neg hth, hmr]
        rw [hstep0]
        refine ⟨0, by omega, hwin, rfl, by rw [Nat.add_zero, ← htD], rfl, rfl, rfl,
          rfl, rfl, rfl, Or.inr rfl, by rw [Nat.add_zero, hrq], ?_, ?_⟩
        · rw [hrq, Nat.add_zero, List.length_take]
          have h2 := pydiff_lt (a := st.recvHead) (b := st.recvTail) (w := w) hh ht
          omega
        · intro k v hkv
          obtain ⟨hkw, hkp, hkval⟩ := hcert k v hkv
          have hkt : k ≠ st.recvTail := by
            intro he
            rw [he] at hkv
            rw [hkv] at hmr
            exact Option.noConfusion hmr
          have hkpos : 0 < pydiff k st.recvTail w := by
            rcases Nat.eq_zero_or_pos (pydiff k st.recvTail w) with h0 | h0
            · exact absurd ((pydiff_eq_zero_iff hkw ht).1 h0) hkt
            · exact h0
          refine ⟨D + pydiff k st.recvTail w, by omega, by omega, ?_, hkval⟩
          rw [htD]
          exact (add_pydiff_mod (by omega) D k hkw).symm
      | some d =>
        have hd0 : ms.get? D = some d := by
          have h1 := (hcert _ _ hmr).2.2
          rwa [pydiff_self _ _ (by omega), Nat.add_zero] at h1
        have hps := pydiff_succ_right hh ht (fun he => hth he.symm)
        have hed1 : 0 < pydiff st.recvHead st.recvTail w := hps.2
        have htm : (st.recvTail + 1) % w < w := Nat.mod_lt _ (by omega)
        have htD1 : (st.recvTail + 1) % w = (D + 1) % w := by
          rw [htD]
          conv_rhs => rw [Nat.add_mod]
          rw [Nat.mod_eq_of_lt (show (1 : Nat) < w by omega)]
        have hstep : drain (m + 1) st
            = drain m
              { st with
                mRecv := aerase st.mRecv st.recvTail
                recvTail := (st.recvTail + 1) % w
                pendAck := true
                rq := st.rq ++ [d] } := by
          rw [drain, if_neg hth, hmr]
          simp [hwin]
        rw [hstep]
        have hres := ih
          { st with
            mRecv := aerase st.mRecv st.recvTail
            recvTail := (st.recvTail + 1) % w
            pendAck := true
            rq := st.rq ++ [d] } (D + 1)
          hwin hh htm htD1
          (by
            show st.rq ++ [d] = ms.take (D + 1)
            have hd0g : ms[D]? = some d := by rwa [← List.get?_eq_getElem?]
            rw [hrq, List.take_succ, hd0g]
            rfl)
          (by
            show D + 1 + pydiff st.recvHead ((st.recvTail + 1) % w) w ≤ ms.length
            rw [hps.1]
            omega)
          (by
            intro k v hkv
            show k < w ∧
              pydiff k ((st.recvTail + 1) % w) w
                < pydiff st.recvHead ((st.recvTail + 1) % w) w ∧
              ms.get? (D + 1 + pydiff k ((st.recvTail + 1) % w) w) = some v
            have hkv2 : alookup st.mRecv k = some v := by
              by_cases hkt : k = st.recvTail
              · rw [hkt, alookup_aerase_self] at hkv
                exact Option.noConfusion hkv
              · rwa [alookup_aerase_ne _ _ _ hkt] at hkv
            have hkt : k ≠ st.recvTail := by
              intro he
              rw [he, alookup_aerase_self] at hkv
              exact Option.noConfusion hkv
            obtain ⟨hkw, hkp, hkval⟩ := hcert k v hkv2
            have hks := pydiff_succ_right hkw ht hkt
            refine ⟨hkw, by rw [hps.1, hks.1]; omega, ?_⟩
            rw [hks.1]
            rw [show D + 1 + (pydiff k st.recvTail w - 1) = D + pydiff k st.recvTail w
              by omega]
            exact hkval)
          (by
            show pydiff st.recvHead ((st.recvTail + 1) % w) w < m
            rw [hps.1]
            omega)
        obtain ⟨c, hc, c1, c2, c3, c4, c5, c6, c7, c8, c9, c10, c11, c12, c13⟩ := hres
        rw [hps.1] at hc
        refine ⟨c + 1, by omega, c1, c2, ?_, c4, c5, c6, c7, c8, c9, ?_, ?_, ?_, ?_⟩
        · rw [c3]
          congr 1
          omega
        · rcases c10 with h | h
          · exact Or.inl h
          · exact Or.inl h
        · rw [c11]
          congr 1
          omega
        · rw [c12]
          omega
        · intro k v hkv
          obtain ⟨j, hj1, hj2, hj3, hj4⟩ := c13 k v hkv
          refine ⟨j, by omega, ?_, hj3, hj4⟩
          rw [hps.1] at hj2
          omega

end Rel

/-!
## Reliable in-order delivery (claim C1)

Two `Reliable` instances `A` (sender) and `B` (receiver) are composed over
a transport carrying whole frames in each direction.  `A`'s pending-send
queue starts holding the whole submitted sequence `ms` (each
`Reliable.send` only appends to the queue); `B` submits nothing.  Each
frame carries a ghost field `gabs`: the absolute (unwrapped) sequence
number of a data frame, the absolute next-expected value of a bare ack -
the endpoints never read it.

The claimed adversary may lose, duplicate and reorder frames.  The
counterexample below exercises duplication: a duplicate of the very first
data frame, delivered after the window has wrapped (window 8, nine
messages), is accepted as new data and delivered again in place of the
ninth message, whose own later frame is then treated as a duplicate and
whose seq is acknowledged by the receiver's ack for the stale frame.  The
amended claim restricts the transport to in-order, duplication-free
delivery with arbitrary loss (the FIFO steps of `SStep`).
-/

namespace RelSys

open Rel

/-- A frame in flight, with its wire message and the ghost absolute
counter it was emitted at. -/
structure Frame (V : Type) where
  m : RMsg V
  gabs : Nat
deriving DecidableEq

/-- The two endpoints plus the frames in flight in each direction. -/
structure Sys (V : Type) where
  A : RState V
  B : RState V
  ab : List (Frame V)
  ba : List (Frame V)
deriving DecidableEq

/-- Ghost: number of payloads delivered by `B`. -/
def sD {V : Type} (s : Sys V) : Nat := s.B.rq.length

/-- Ghost: `A`'s absolute send tail, reconstructed from the delivered
count and the wrapped counters. -/
def sT {V : Type} (s : Sys V) : Nat :=
  sD s - pydiff (sD s % s.A.window) s.A.sendTail s.A.window

/-- Ghost: `A`'s absolute send head. -/
def sH {V : Type} (s : Sys V) : Nat :=
  sT s + pydiff s.A.sendHead s.A.sendTail s.A.window

/-- Ghost: `B`'s absolute receive head. -/
def sE {V : Type} (s : Sys V) : Nat :=
  sD s + pydiff s.B.recvHead s.B.recvTail s.B.window

/-- The background task of `A` assigns the next queued message and emits
its data frame. -/
def stepAssignA {V : Type} (s : Sys V) : Sys V :=
  let p := bgAssign s.A
  { s with A := p.1, ab := s.ab ++ p.2.toList.map (fun m => ⟨m, sH s⟩) }

/-- The background task of `A` retransmits the unacknowledged entry `k`. -/
def stepRetransA {V : Type} (s : Sys V) (k : Nat) : Sys V :=
  let p := bgRetransmit s.A k
  { s with
    A := p.1
    ab := s.ab ++ p.2.toList.map
      (fun m => ⟨m, sT s + pydiff k s.A.sendTail s.A.window⟩) }

/-- The background task of `A` sends a pending bare ack. -/
def stepAckA {V : Type} (s : Sys V) : Sys V :=
  let p := sendMsgAck s.A
  { s with A := p.1, ab := s.ab ++ p.2.toList.map (fun m => ⟨m, sH s⟩) }

/-- The background task of `B` sends a pending bare ack. -/
def stepAckB {V : Type} (s : Sys V) : Sys V :=
  let p := sendMsgAck s.B
  { s with B := p.1, ba := s.ba ++ p.2.toList.map (fun m => ⟨m, sD s⟩) }

/-- `B` receives and dispatches the frame at position `i` of the `A`-to-`B`
direction (position 0 is FIFO delivery; other positions model
reordering). -/
def stepDeliverABAt {V : Type} (s : Sys V) (i : Nat) : Sys V :=
  match s.ab[i]? with
  | none => s
  | some f =>
    let r := dispatch s.B f.m
    { s with
      B := r.st
      ab := s.ab.eraseIdx i
      ba := s.ba ++ r.out.map (fun m => ⟨m, r.st.rq.length⟩) }

/-- `A` receives and dispatches the frame at position `i` of the `B`-to-`A`
direction. -/
def stepDeliverBAAt {V : Type} (s : Sys V) (i : Nat) : Sys V :=
  match s.ba[i]? with
  | none => s
  | some g =>
    let r := dispatch s.A g.m
    let s2 : Sys V := { s with A := r.st, ba := s.ba.eraseIdx i }
    { s2 with ab := s2.ab ++ r.out.map (fun m => ⟨m, sH s2⟩) }

/-- The transport duplicates the `A`-to-`B` frame at position `i`. -/
def stepDupAB {V : Type} (s : Sys V) (i : Nat) : Sys V :=
  match s.ab[i]? with
  | none => s
  | some f => { s with ab := s.ab ++ [f] }

/-- Both sides up (reset handshake completed), `A` holding the whole
submitted sequence in its pending-send queue. -/
def initSys (V : Type) (w t : Nat) (ms : List V) : Sys V :=
  { A := { initSt V w t with inReset := false, isUp := true, sQ := ms },
    B := { initSt V w t with inReset := false, isUp := true },
    ab := [], ba := [] }



/-- Shared wire shape of every frame `A` emits: a pure data-phase message
whose seq is the ghost counter's residue, whose ack field is 0 (`A`
receives nothing) and whose `x` list is empty (`A`'s receive table is
empty). -/
def dShape {V : Type} (w : Nat) (f : Frame V) : Prop :=
  f.m.a = none ∧ f.m.n = none ∧ f.m.c = none ∧ f.m.e = none ∧
  f.m.s = some (f.gabs % w) ∧ f.m.r = some 0 ∧ f.m.x = []

/-- Invariant of a frame in flight from `A` to `B`, relative to the
absolute send head `H` and receive head `E`: a data frame carries the
`gabs`-th payload, was assigned below `H`, and is recent enough that the
receiver cannot confuse it with a fresh seq; a bare ack announces a head
value between `E` and `H`. -/
def FrAB {V : Type} (w : Nat) (ms : List V) (H E : Nat) (f : Frame V) : Prop :=
  dShape w f ∧
  (∀ v, f.m.d = some v → ms.get? f.gabs = some v ∧ f.gabs < H ∧ E ≤ f.gabs + w / 2) ∧
  (f.m.d = none → f.gabs ≤ H ∧ E ≤ f.gabs)

/-- Invariant of an ack frame in flight from `B` to `A`: a bare message
acknowledging everything below the ghost counter, which lies between `A`'s
absolute tail and the delivered count. -/
def FrBA {V : Type} (w T D : Nat) (g : Frame V) : Prop :=
  g.m.a = none ∧ g.m.n = none ∧ g.m.c = none ∧ g.m.e = none ∧
  g.m.s = some 0 ∧ g.m.r = some (g.gabs % w) ∧ g.m.d = none ∧
  T ≤ g.gabs ∧ g.gabs ≤ D

/-- Emission bound of a frame: data occupies its slot, so counts one past
its ghost. -/
def fBnd {V : Type} (f : Frame V) : Nat :=
  match f.m.d with
  | some _ => f.gabs + 1
  | none => f.gabs

/-- Staleness cap a frame puts on later receive-head positions. -/
def fCap {V : Type} (w : Nat) (f : Frame V) : Nat :=
  match f.m.d with
  | some _ => f.gabs + w / 2
  | none => f.gabs

/-- The inductive invariant of the composed system, with ghost absolute
counters: `T` = `A`'s send tail, `D` = delivered count, `E` = `B`'s
receive head, `H` = `A`'s send head. -/
structure SInvC {V : Type} (w : Nat) (ms : List V) (T D E H : Nat)
    (s : Sys V) : Prop where
  hw : 4 ≤ w
  aw : s.A.window = w
  acl : s.A.closed = false
  arst : s.A.inReset = false
  ast : s.A.sendTail = T % w
  ahd : s.A.sendHead = H % w
  arh : s.A.recvHead = 0
  art : s.A.recvTail = 0
  amr : s.A.mRecv = []
  asq : s.A.sQ = ms.drop H
  ams : ∀ k v, alookup s.A.mSend k = some v →
    ∃ j, T ≤ j ∧ j < H ∧ k = j % w ∧ ms.get? j = some v.1
  bw : s.B.window = w
  bcl : s.B.closed = false
  brst : s.B.inReset = false
  bsh : s.B.sendHead = 0
  bst : s.B.sendTail = 0
  bms : s.B.mSend = []
  bsq : s.B.sQ = []
  hD : s.B.rq.length = D
  brt : s.B.recvTail = D % w
  brh : s.B.recvHead = E % w
  brq : s.B.rq = ms.take D
  bmr : ∀ k v, alookup s.B.mRecv k = some v →
    ∃ j, D < j ∧ j < E ∧ k = j % w ∧ ms.get? j = some v
  oTD : T ≤ D
  oDE : D ≤ E
  oEH : E ≤ H
  oHL : H ≤ ms.length
  oTH : H ≤ T + w / 2
  fab : ∀ f ∈ s.ab, FrAB w ms H E f
  fabP : List.Pairwise (fun p q => fBnd p ≤ fCap w q) s.ab
  fba : ∀ g ∈ s.ba, FrBA w T D g
  fbaP : List.Pairwise (fun p q : Frame V => p.gabs ≤ q.gabs) s.ba

/-- The system invariant: some assignment of ghost counters satisfies
`SInvC`. -/
def SInv {V : Type} (w : Nat) (ms : List V) (s : Sys V) : Prop :=
  ∃ T D E H, SInvC w ms T D E H s

/-- One step of the composed system over a FIFO lossy transport: endpoint
background actions, in-order delivery of the oldest frame of either
direction, or loss of the oldest frame. -/
inductive SStep {V : Type} : Sys V → Sys V → Prop where
  | assignA (s : Sys V) : SStep s (stepAssignA s)
  | retransA (s : Sys V) (k : Nat) : SStep s (stepRetransA s k)
  | ackA (s : Sys V) : SStep s (stepAckA s)
  | ackB (s : Sys V) : SStep s (stepAckB s)
  | deliverAB (s : Sys V) : SStep s (stepDeliverABAt s 0)
  | dropAB (s : Sys V) : SStep s { s with ab := s.ab.drop 1 }
  | deliverBA (s : Sys V) : SStep s (stepDeliverBAAt s 0)
  | dropBA (s : Sys V) : SStep s { s with ba := s.ba.drop 1 }

/-- Reachability of the composed system. -/
inductive SReach {V : Type} (s0 : Sys V) : Sys V → Prop where
  | refl : SReach s0 s0
  | tail {s1 s2 : Sys V} : SReach s0 s1 → SStep s1 s2 → SReach s0 s2


/-- The ghost counters reconstructed by `sT`, `sD`, `sE`, `sH` agree with
the invariant's witnesses. -/
theorem sTHE_eq {V : Type} {w : Nat} {ms : List V} {T D E H : Nat} {s : Sys V}
    (inv : SInvC w ms T D E H s) :
    sT s = T ∧ sD s = D ∧ sE s = E ∧ sH s = H := by
  have hw := inv.hw
  have hDd : sD s = D := inv.hD
  have hT : sT s = T := by
    unfold sT
    rw [hDd, inv.aw, inv.ast, pydiff_mod_sub (by omega) inv.oTD (by
      have h1 := inv.oDE
      have h2 := inv.oEH
      have h3 := inv.oTH
      omega)]
    have h0 := inv.oTD
    omega
  have hH : sH s = H := by
    unfold sH
    rw [hT, inv.aw, inv.ast, inv.ahd, pydiff_mod_sub (by omega)
      (by have h1 := inv.oTD; have h2 := inv.oDE; have h3 := inv.oEH; omega)
      (by have h3 := inv.oTH; omega)]
    have h0 := inv.oTD
    have h1 := inv.oDE
    have h2 := inv.oEH
    omega
  have hE : sE s = E := by
    unfold sE
    rw [hDd, inv.bw, inv.brt, inv.brh, pydiff_mod_sub (by omega) inv.oDE (by
      have h1 := inv.oTD
      have h2 := inv.oEH
      have h3 := inv.oTH
      omega)]
    have h0 := inv.oDE
    omega
  exact ⟨hT, hDd, hE, hH⟩

/-- A frame constraint is monotone as the send head grows (receive head
fixed or lower). -/
theorem FrAB_mono {V : Type} {w : Nat} {ms : List V} {H E H2 E2 : Nat}
    {f : Frame V} (h : FrAB w ms H E f) (hH : H ≤ H2) (hE : E2 ≤ E) :
    FrAB w ms H2 E2 f := by
  obtain ⟨hs, hd, hb⟩ := h
  refine ⟨hs, ?_, ?_⟩
  · intro v hv
    obtain ⟨h1, h2, h3⟩ := hd v hv
    exact ⟨h1, by omega, by omega⟩
  · intro hv
    obtain ⟨h1, h2⟩ := hb hv
    exact ⟨by omega, by omega⟩

/-- Every frame in flight was emitted below the send head. -/
theorem FrAB_bnd {V : Type} {w : Nat} {ms : List V} {H E : Nat}
    {f : Frame V} (h : FrAB w ms H E f) : fBnd f ≤ H := by
  obtain ⟨hs, hd, hb⟩ := h
  cases hdm : f.m.d with
  | none =>
    have h1 := hb hdm
    simp only [fBnd, hdm]
    omega
  | some v =>
    have h1 := hd v hdm
    simp only [fBnd, hdm]
    omega


/-- The assignment step preserves the invariant (the send head advances). -/
theorem sinv_assignA {V : Type} {w : Nat} {ms : List V} {T D E H : Nat}
    {s : Sys V} (inv : SInvC w ms T D E H s) : SInv w ms (stepAssignA s) := by
  have hw := inv.hw
  obtain ⟨hsT, hsD, hsE, hsH⟩ := sTHE_eq inv
  cases hsq : s.A.sQ with
  | nil =>
    have hid : stepAssignA s = s := by
      simp [stepAssignA, bgAssign, hsq]
    rw [hid]
    exact ⟨T, D, E, H, inv⟩
  | cons v rest =>
    by_cases hg : pydiff s.A.sendHead s.A.sendTail s.A.window < s.A.window / 2
    · have h0 : s.A.recvTail = s.A.recvHead := by rw [inv.art, inv.arh]
      have h1 : ms.drop H = v :: rest := by rw [← inv.asq, hsq]
      have hH : H < ms.length := by
        by_contra hle
        rw [List.drop_eq_nil_of_le (by omega)] at h1
        exact List.noConfusion h1
      have hv : ms.get? H = some v := by
        have h2 := List.get?_drop ms H 0
        rw [h1] at h2
        simpa using h2.symm
      have hrest : ms.drop (H + 1) = rest := by
        rw [← List.tail_drop, h1]
        rfl
      have hgw : H - T < w / 2 := by
        rw [inv.ahd, inv.ast, inv.aw] at hg
        rwa [pydiff_mod_sub (by omega)
          (by have h2 := inv.oTD; have h3 := inv.oDE; have h4 := inv.oEH; omega)
          (by have h4 := inv.oTH; omega)] at hg
      have hstep : stepAssignA s = { s with
          A := { s.A with
            sQ := rest
            sendHead := (s.A.sendHead + 1) % s.A.window
            mSend := ainsert s.A.mSend s.A.sendHead (v, false)
            pendAck := false }
          ab := s.ab ++ [⟨{ s := some s.A.sendHead, d := some v, r := some 0, x := [] }, sH s⟩] } := by
        simp only [stepAssignA, bgAssign, hsq, if_pos hg, sendMsgData,
          alookup_ainsert_self, Option.toList, List.map, inv.art, inv.arh,
          collectX_stop]
      rw [hstep]
      refine ⟨T, D, E, H + 1, ?_⟩
      exact {
        hw := hw
        aw := inv.aw
        acl := inv.acl
        arst := inv.arst
        ast := inv.ast
        ahd := by
          show (s.A.sendHead + 1) % s.A.window = (H + 1) % w
          rw [inv.ahd, inv.aw, Nat.mod_add_mod]
        arh := inv.arh
        art := inv.art
        amr := inv.amr
        asq := hrest.symm
        ams := by
          intro k v1 hkv
          show ∃ j, T ≤ j ∧ j < H + 1 ∧ k = j % w ∧ ms.get? j = some v1.1
          by_cases hks : k = s.A.sendHead
          · rw [hks, alookup_ainsert_self] at hkv
            cases hkv
            refine ⟨H, ?_, by omega, by rw [hks, inv.ahd], hv⟩
            have h2 := inv.oTD
            have h3 := inv.oDE
            have h4 := inv.oEH
            omega
          · rw [alookup_ainsert_ne _ _ _ _ hks] at hkv
            obtain ⟨j, hj1, hj2, hj3, hj4⟩ := inv.ams k v1 hkv
            exact ⟨j, hj1, by omega, hj3, hj4⟩
        bw := inv.bw
        bcl := inv.bcl
        brst := inv.brst
        bsh := inv.bsh
        bst := inv.bst
        bms := inv.bms
        bsq := inv.bsq
        hD := inv.hD
        brt := inv.brt
        brh := inv.brh
        brq := inv.brq
        bmr := inv.bmr
        oTD := inv.oTD
        oDE := inv.oDE
        oEH := Nat.le_trans inv.oEH (by omega)
        oHL := by omega
        oTH := by
          have h2 := inv.oTD
          have h3 := inv.oDE
          have h4 := inv.oEH
          omega
        fab := by
          intro f hf
          rw [List.mem_append] at hf
          rcases hf with hf | hf
          · exact FrAB_mono (inv.fab f hf) (by omega) (by omega)
          · rw [List.mem_singleton] at hf
            subst hf
            refine ⟨⟨rfl, rfl, rfl, rfl, ?_, rfl, rfl⟩, ?_, ?_⟩
            · show some s.A.sendHead = some (sH s % w)
              rw [hsH, inv.ahd]
            · intro v2 hv2
              cases hv2
              refine ⟨?_, ?_, ?_⟩
              · show ms.get? (sH s) = some v
                rw [hsH]
                exact hv
              · show sH s < H + 1
                rw [hsH]
                omega
              · show E ≤ sH s + w / 2
                rw [hsH]
                have h4 := inv.oEH
                omega
            · intro hv2
              exact Option.noConfusion hv2
        fabP := by
          rw [List.pairwise_append]
          refine ⟨inv.fabP, List.pairwise_singleton _ _, ?_⟩
          intro p hp q hq
          rw [List.mem_singleton] at hq
          subst hq
          have h2 := FrAB_bnd (inv.fab p hp)
          show fBnd p ≤ fCap w _
          have h3 : fCap w (⟨{ s := some s.A.sendHead, d := some v, r := some 0, x := [] }, sH s⟩ : Frame V) = sH s + w / 2 := rfl
          rw [h3, hsH]
          omega
        fba := inv.fba
        fbaP := inv.fbaP }
    · have hid : stepAssignA s = s := by
        simp [stepAssignA, bgAssign, hsq, if_neg hg]
      rw [hid]
      exact ⟨T, D, E, H, inv⟩


/-- The retransmit step preserves the invariant: it re-emits a stored
in-flight payload with its original seq. -/
theorem sinv_retransA {V : Type} {w : Nat} {ms : List V} {T D E H : Nat}
    {s : Sys V} (inv : SInvC w ms T D E H s) (k : Nat) :
    SInv w ms (stepRetransA s k) := by
  have hw := inv.hw
  obtain ⟨hsT, hsD, hsE, hsH⟩ := sTHE_eq inv
  cases hms : alookup s.A.mSend k with
  | none =>
    have hid : stepRetransA s k = s := by
      simp [stepRetransA, bgRetransmit, hms]
    rw [hid]
    exact ⟨T, D, E, H, inv⟩
  | some vf =>
    obtain ⟨v0, fl⟩ := vf
    obtain ⟨j, hj1, hj2, hj3, hj4⟩ := inv.ams k (v0, fl) hms
    cases fl with
    | true =>
      have hid : stepRetransA s k = s := by
        simp [stepRetransA, bgRetransmit, hms]
      rw [hid]
      exact ⟨T, D, E, H, inv⟩
    | false =>
      have hgabs : sT s + pydiff k s.A.sendTail s.A.window = j := by
        rw [hsT, inv.ast, inv.aw, hj3, pydiff_mod_sub (by omega) hj1
          (by have h1 := inv.oTD; have h2 := inv.oDE
              have h3 := inv.oEH; have h4 := inv.oTH; omega)]
        omega
      have hstep : stepRetransA s k = { s with
          A := { s.A with pendAck := false }
          ab := s.ab ++ [⟨{ s := some k, d := some v0, r := some 0, x := [] }, sT s + pydiff k s.A.sendTail s.A.window⟩] } := by
        simp only [stepRetransA, bgRetransmit, hms, sendMsgData, Option.toList,
          List.map, inv.art, inv.arh, collectX_stop]
      rw [hstep]
      refine ⟨T, D, E, H, ?_⟩
      exact {
        hw := hw
        aw := inv.aw
        acl := inv.acl
        arst := inv.arst
        ast := inv.ast
        ahd := inv.ahd
        arh := inv.arh
        art := inv.art
        amr := inv.amr
        asq := inv.asq
        ams := inv.ams
        bw := inv.bw
        bcl := inv.bcl
        brst := inv.brst
        bsh := inv.bsh
        bst := inv.bst
        bms := inv.bms
        bsq := inv.bsq
        hD := inv.hD
        brt := inv.brt
        brh := inv.brh
        brq := inv.brq
        bmr := inv.bmr
        oTD := inv.oTD
        oDE := inv.oDE
        oEH := inv.oEH
        oHL := inv.oHL
        oTH := inv.oTH
        fab := by
          intro f hf
          rw [List.mem_append] at hf
          rcases hf with hf | hf
          · exact inv.fab f hf
          · rw [List.mem_singleton] at hf
            subst hf
            refine ⟨⟨rfl, rfl, rfl, rfl, ?_, rfl, rfl⟩, ?_, ?_⟩
            · show some k = some ((sT s + pydiff k s.A.sendTail s.A.window) % w)
              rw [hgabs, hj3]
            · intro v2 hv2
              cases hv2
              refine ⟨?_, ?_, ?_⟩
              · show ms.get? (sT s + pydiff k s.A.sendTail s.A.window) = some v0
                rw [hgabs]
                exact hj4
              · show sT s + pydiff k s.A.sendTail s.A.window < H
                rw [hgabs]
                omega
              · show E ≤ sT s + pydiff k s.A.sendTail s.A.window + w / 2
                rw [hgabs]
                have h2 := inv.oEH
                have h3 := inv.oTH
                omega
            · intro hv2
              exact Option.noConfusion hv2
        fabP := by
          rw [List.pairwise_append]
          refine ⟨inv.fabP, List.pairwise_singleton _ _, ?_⟩
          intro p hp q hq
          rw [List.mem_singleton] at hq
          subst hq
          have h2 := FrAB_bnd (inv.fab p hp)
          show fBnd p ≤ fCap w _
          have h3 : fCap w (⟨{ s := some k, d := some v0, r := some 0, x := [] }, sT s + pydiff k s.A.sendTail s.A.window⟩ : Frame V) = sT s + pydiff k s.A.sendTail s.A.window + w / 2 := rfl
          rw [h3, hgabs]
          have h4 := inv.oTH
          omega
        fba := inv.fba
        fbaP := inv.fbaP }

/-- The sender's bare-ack step preserves the invariant. -/
theorem sinv_ackA {V : Type} {w : Nat} {ms : List V} {T D E H : Nat}
    {s : Sys V} (inv : SInvC w ms T D E H s) : SInv w ms (stepAckA s) := by
  have hw := inv.hw
  obtain ⟨hsT, hsD, hsE, hsH⟩ := sTHE_eq inv
  cases hpa : s.A.pendAck with
  | false =>
    have hid : stepAckA s = s := by
      simp [stepAckA, sendMsgAck, hpa]
    rw [hid]
    exact ⟨T, D, E, H, inv⟩
  | true =>
    have hstep : stepAckA s = { s with
        A := { s.A with pendAck := false }
        ab := s.ab ++ [⟨{ s := some s.A.sendHead, r := some 0, x := [] }, sH s⟩] } := by
      simp only [stepAckA, sendMsgAck, hpa, if_pos, Option.toList, List.map,
        inv.art, inv.arh, collectX_stop]
    rw [hstep]
    refine ⟨T, D, E, H, ?_⟩
    exact {
      hw := hw
      aw := inv.aw
      acl := inv.acl
      arst := inv.arst
      ast := inv.ast
      ahd := inv.ahd
      arh := inv.arh
      art := inv.art
      amr := inv.amr
      asq := inv.asq
      ams := inv.ams
      bw := inv.bw
      bcl := inv.bcl
      brst := inv.brst
      bsh := inv.bsh
      bst := inv.bst
      bms := inv.bms
      bsq := inv.bsq
      hD := inv.hD
      brt := inv.brt
      brh := inv.brh
      brq := inv.brq
      bmr := inv.bmr
      oTD := inv.oTD
      oDE := inv.oDE
      oEH := inv.oEH
      oHL := inv.oHL
      oTH := inv.oTH
      fab := by
        intro f hf
        rw [List.mem_append] at hf
        rcases hf with hf | hf
        · exact inv.fab f hf
        · rw [List.mem_singleton] at hf
          subst hf
          refine ⟨⟨rfl, rfl, rfl, rfl, ?_, rfl, rfl⟩, ?_, ?_⟩
          · show some s.A.sendHead = some (sH s % w)
            rw [hsH, inv.ahd]
          · intro v2 hv2
            exact Option.noConfusion hv2
          · intro hv2
            constructor
            · show sH s ≤ H
              rw [hsH]
            · show E ≤ sH s
              rw [hsH]
              exact inv.oEH
      fabP := by
        rw [List.pairwise_append]
        refine ⟨inv.fabP, List.pairwise_singleton _ _, ?_⟩
        intro p hp q hq
        rw [List.mem_singleton] at hq
        subst hq
        have h2 := FrAB_bnd (inv.fab p hp)
        show fBnd p ≤ fCap w _
        have h3 : fCap w (⟨{ s := some s.A.sendHead, r := some 0, x := [] }, sH s⟩ : Frame V) = sH s := rfl
        rw [h3, hsH]
        exact h2
      fba := inv.fba
      fbaP := inv.fbaP }

/-- The receiver's bare-ack step preserves the invariant. -/
theorem sinv_ackB {V : Type} {w : Nat} {ms : List V} {T D E H : Nat}
    {s : Sys V} (inv : SInvC w ms T D E H s) : SInv w ms (stepAckB s) := by
  have hw := inv.hw
  obtain ⟨hsT, hsD, hsE, hsH⟩ := sTHE_eq inv
  cases hpa : s.B.pendAck with
  | false =>
    have hid : stepAckB s = s := by
      simp [stepAckB, sendMsgAck, hpa]
    rw [hid]
    exact ⟨T, D, E, H, inv⟩
  | true =>
    have hstep : stepAckB s = { s with
        B := { s.B with pendAck := false }
        ba := s.ba ++ [⟨{ s := some s.B.sendHead, r := some s.B.recvTail, x := collectX s.B.window s.B s.B.recvTail }, sD s⟩] } := by
      simp only [stepAckB, sendMsgAck, hpa, if_pos, Option.toList, List.map]
    rw [hstep]
    refine ⟨T, D, E, H, ?_⟩
    exact {
      hw := hw
      aw := inv.aw
      acl := inv.acl
      arst := inv.arst
      ast := inv.ast
      ahd := inv.ahd
      arh := inv.arh
      art := inv.art
      amr := inv.amr
      asq := inv.asq
      ams := inv.ams
      bw := inv.bw
      bcl := inv.bcl
      brst := inv.brst
      bsh := inv.bsh
      bst := inv.bst
      bms := inv.bms
      bsq := inv.bsq
      hD := inv.hD
      brt := inv.brt
      brh := inv.brh
      brq := inv.brq
      bmr := inv.bmr
      oTD := inv.oTD
      oDE := inv.oDE
      oEH := inv.oEH
      oHL := inv.oHL
      oTH := inv.oTH
      fab := inv.fab
      fabP := inv.fabP
      fba := by
        intro g hg
        rw [List.mem_append] at hg
        rcases hg with hg | hg
        · exact inv.fba g hg
        · rw [List.mem_singleton] at hg
          subst hg
          refine ⟨rfl, rfl, rfl, rfl, ?_, ?_, rfl, ?_, ?_⟩
          · show some s.B.sendHead = some 0
            rw [inv.bsh]
          · show some s.B.recvTail = some (sD s % w)
            rw [hsD, inv.brt]
          · show T ≤ sD s
            rw [hsD]
            exact inv.oTD
          · show sD s ≤ D
            rw [hsD]
      fbaP := by
        rw [List.pairwise_append]
        refine ⟨inv.fbaP, List.pairwise_singleton _ _, ?_⟩
        intro p hp q hq
        rw [List.mem_singleton] at hq
        subst hq
        show p.gabs ≤ sD s
        rw [hsD]
        exact (inv.fba p hp).2.2.2.2.2.2.2.2 }

/-- Losing the oldest frame towards `B` preserves the invariant. -/
theorem sinv_dropAB {V : Type} {w : Nat} {ms : List V} {T D E H : Nat}
    {s : Sys V} (inv : SInvC w ms T D E H s) :
    SInv w ms { s with ab := s.ab.drop 1 } := by
  refine ⟨T, D, E, H, ?_⟩
  exact {
    hw := inv.hw
    aw := inv.aw
    acl := inv.acl
    arst := inv.arst
    ast := inv.ast
    ahd := inv.ahd
    arh := inv.arh
    art := inv.art
    amr := inv.amr
    asq := inv.asq
    ams := inv.ams
    bw := inv.bw
    bcl := inv.bcl
    brst := inv.brst
    bsh := inv.bsh
    bst := inv.bst
    bms := inv.bms
    bsq := inv.bsq
    hD := inv.hD
    brt := inv.brt
    brh := inv.brh
    brq := inv.brq
    bmr := inv.bmr
    oTD := inv.oTD
    oDE := inv.oDE
    oEH := inv.oEH
    oHL := inv.oHL
    oTH := inv.oTH
    fab := fun f hf => inv.fab f (List.mem_of_mem_drop hf)
    fabP := List.Pairwise.sublist (List.drop_sublist 1 s.ab) inv.fabP
    fba := inv.fba
    fbaP := inv.fbaP }

/-- Losing the oldest frame towards `A` preserves the invariant. -/
theorem sinv_dropBA {V : Type} {w : Nat} {ms : List V} {T D E H : Nat}
    {s : Sys V} (inv : SInvC w ms T D E H s) :
    SInv w ms { s with ba := s.ba.drop 1 } := by
  refine ⟨T, D, E, H, ?_⟩
  exact {
    hw := inv.hw
    aw := inv.aw
    acl := inv.acl
    arst := inv.arst
    ast := inv.ast
    ahd := inv.ahd
    arh := inv.arh
    art := inv.art
    amr := inv.amr
    asq := inv.asq
    ams := inv.ams
    bw := inv.bw
    bcl := inv.bcl
    brst := inv.brst
    bsh := inv.bsh
    bst := inv.bst
    bms := inv.bms
    bsq := inv.bsq
    hD := inv.hD
    brt := inv.brt
    brh := inv.brh
    brq := inv.brq
    bmr := inv.bmr
    oTD := inv.oTD
    oDE := inv.oDE
    oEH := inv.oEH
    oHL := inv.oHL
    oTH := inv.oTH
    fab := inv.fab
    fabP := inv.fabP
    fba := fun g hg => inv.fba g (List.mem_of_mem_drop hg)
    fbaP := List.Pairwise.sublist (List.drop_sublist 1 s.ba) inv.fbaP }

/-- The initial (post-handshake) system satisfies the invariant with all
ghost counters zero. -/
theorem sinv_init (V : Type) (w t : Nat) (ms : List V) (hw : 4 ≤ w) :
    SInvC w ms 0 0 0 0 (initSys V w t ms) := {
  hw := hw
  aw := rfl
  acl := rfl
  arst := rfl
  ast := (Nat.zero_mod w).symm
  ahd := (Nat.zero_mod w).symm
  arh := rfl
  art := rfl
  amr := rfl
  asq := (List.drop_zero ms).symm
  ams := fun k v h => Option.noConfusion h
  bw := rfl
  bcl := rfl
  brst := rfl
  bsh := rfl
  bst := rfl
  bms := rfl
  bsq := rfl
  hD := rfl
  brt := (Nat.zero_mod w).symm
  brh := (Nat.zero_mod w).symm
  brq := rfl
  bmr := fun k v h => Option.noConfusion h
  oTD := Nat.le_refl 0
  oDE := Nat.le_refl 0
  oEH := Nat.le_refl 0
  oHL := Nat.zero_le _
  oTH := Nat.zero_le _
  fab := fun f hf => absurd hf (List.not_mem_nil f)
  fabP := List.Pairwise.nil
  fba := fun g hg => absurd hg (List.not_mem_nil g)
  fbaP := List.Pairwise.nil }


/-- Delivering the oldest `B`-to-`A` ack frame preserves the invariant:
the sender's absolute tail advances to the acknowledged counter. -/
theorem sinv_deliverBA {V : Type} {w : Nat} {ms : List V} {T D E H : Nat}
    {s : Sys V} (inv : SInvC w ms T D E H s) : SInv w ms (stepDeliverBAAt s 0) := by
  have hw := inv.hw
  obtain ⟨hsT, hsD, hsE, hsH⟩ := sTHE_eq inv
  cases hba : s.ba with
  | nil =>
    have hid : stepDeliverBAAt s 0 = s := by
      simp [stepDeliverBAAt, hba]
    rw [hid]
    exact ⟨T, D, E, H, inv⟩
  | cons g rest =>
    obtain ⟨hga, hgn, hgc, hge, hgs, hgr, hgd, hgT, hgD⟩ :=
      inv.fba g (by rw [hba]; exact List.mem_cons_self g rest)
    have hrest : ∀ g2 ∈ rest, FrBA w T D g2 := by
      intro g2 hg2
      exact inv.fba g2 (by rw [hba]; exact List.mem_cons_of_mem g hg2)
    have hrmono : ∀ g2 ∈ rest, g.gabs ≤ g2.gabs := by
      have h1 := inv.fbaP
      rw [hba, List.pairwise_cons] at h1
      exact h1.1
    have hrpw : List.Pairwise (fun p q : Frame V => p.gabs ≤ q.gabs) rest := by
      have h1 := inv.fbaP
      rw [hba, List.pairwise_cons] at h1
      exact h1.2
    -- bounds on the acked counter
    have haD : g.gabs ≤ D := hgD
    have haT : T ≤ g.gabs := hgT
    have hDT : D - T ≤ w / 2 := by
      have h1 := inv.oDE
      have h2 := inv.oEH
      have h3 := inv.oTH
      omega
    have hHT : H - T ≤ w / 2 := by
      have h3 := inv.oTH
      omega
    -- dispatch enters the data phase
    have hgH : g.gabs ≤ H := by
      have h1 := inv.oDE
      have h2 := inv.oEH
      omega
    have hdisp : dispatch s.A g.m = dataPhase s.A g.m := by
      simp [dispatch, hga, inv.acl, inv.arst]
    -- handleData is the identity here
    have hp0 : pydiff 0 0 s.A.window = 0 :=
      pydiff_self 0 s.A.window (by rw [inv.aw]; omega)
    have hcond1 : between s.A s.A.recvTail s.A.recvHead 0 = true := by
      unfold between
      rw [inv.art, inv.arh, hp0]
      simp
    have hcond2 : pydiff 0 s.A.recvTail s.A.window ≤ s.A.window / 2 := by
      rw [inv.art, hp0]
      exact Nat.zero_le _
    have hst1 : handleData s.A 0 none = s.A := by
      unfold handleData
      rw [if_pos hcond1, if_pos hcond2]
      conv_lhs => rw [← inv.arh]
    -- the ack walk
    have hpdh : pydiff s.A.sendHead s.A.sendTail w = H - T := by
      rw [inv.ahd, inv.ast]
      exact pydiff_mod_sub (by omega)
        (by have h1 := inv.oTD; have h2 := inv.oDE; have h3 := inv.oEH; omega)
        (by omega)
    have hack : g.gabs % w = (s.A.sendTail + (g.gabs - T)) % w := by
      rw [inv.ast, Nat.mod_add_mod]
      congr 1
      omega
    have hwalk := ackWalk_char hw (g.gabs - T) s.A.window s.A (g.gabs % w)
      inv.aw (by rw [inv.ahd]; exact Nat.mod_lt _ (by omega))
      (by rw [inv.ast]; exact Nat.mod_lt _ (by omega))
      (by rw [hpdh]; omega) hack (by rw [inv.aw]; omega)
    obtain ⟨c1, c2, c3, c4, c5, c6, c7, c8, c9, c10, c11, c12, c13, c14⟩ := hwalk
    obtain ⟨x1, x2, x3, x4, x5, x6, x7, x8, x9, x10, x11, x12⟩ :=
      xMark_fields g.m.x (ackWalk s.A.window s.A (g.gabs % w))
    have hXrt : (xMark (ackWalk s.A.window s.A (g.gabs % w)) g.m.x).recvTail
        = (xMark (ackWalk s.A.window s.A (g.gabs % w)) g.m.x).recvHead := by
      rw [x4, x5, c4, c5, inv.art, inv.arh]
    have hXw : (xMark (ackWalk s.A.window s.A (g.gabs % w)) g.m.x).window = w := by
      rw [x1, c1]
    have hdp : dataPhase s.A g.m =
        (if (xMark (ackWalk s.A.window s.A (g.gabs % w)) g.m.x).pendAck then
          ⟨{ xMark (ackWalk s.A.window s.A (g.gabs % w)) g.m.x with pendAck := false },
            [{ s := some (xMark (ackWalk s.A.window s.A (g.gabs % w)) g.m.x).sendHead,
               r := some (xMark (ackWalk s.A.window s.A (g.gabs % w)) g.m.x).recvTail,
               x := [] }], []⟩
        else ⟨xMark (ackWalk s.A.window s.A (g.gabs % w)) g.m.x, [], []⟩) := by
      simp only [dataPhase, hgs, hgr, hgd]
      rw [if_pos ⟨by rw [inv.aw]; omega, by rw [inv.aw]; exact Nat.mod_lt _ (by omega)⟩]
      rw [hst1]
      rw [drain_stop _ _ (by rw [hXw]; omega) hXrt]
      simp only [sendMsgAck]
      cases hpaX : (xMark (ackWalk s.A.window s.A (g.gabs % w)) g.m.x).pendAck with
      | false => simp
      | true =>
        rw [collectX_stop _ _ _ hXrt]
        simp
    -- collected facts about the post-walk sender state
    have hXsh : (xMark (ackWalk s.A.window s.A (g.gabs % w)) g.m.x).sendHead
        = s.A.sendHead := by rw [x2, c2]
    have hXst : (xMark (ackWalk s.A.window s.A (g.gabs % w)) g.m.x).sendTail
        = g.gabs % w := by rw [x3, c3]
    have hXrh : (xMark (ackWalk s.A.window s.A (g.gabs % w)) g.m.x).recvHead
        = 0 := by rw [x4, c4, inv.arh]
    have hXrt0 : (xMark (ackWalk s.A.window s.A (g.gabs % w)) g.m.x).recvTail
        = 0 := by rw [x5, c5, inv.art]
    have hXmr : (xMark (ackWalk s.A.window s.A (g.gabs % w)) g.m.x).mRecv
        = [] := by rw [x6, c6, inv.amr]
    have hXsq : (xMark (ackWalk s.A.window s.A (g.gabs % w)) g.m.x).sQ
        = ms.drop H := by rw [x7, c7, inv.asq]
    have hXcl : (xMark (ackWalk s.A.window s.A (g.gabs % w)) g.m.x).closed
        = false := by rw [x9, c9, inv.acl]
    have hXir : (xMark (ackWalk s.A.window s.A (g.gabs % w)) g.m.x).inReset
        = false := by rw [x10, c10, inv.arst]
    have hXms : ∀ k v,
        alookup (xMark (ackWalk s.A.window s.A (g.gabs % w)) g.m.x).mSend k = some v →
        ∃ j, g.gabs ≤ j ∧ j < H ∧ k = j % w ∧ ms.get? j = some v.1 := by
      intro k v hkv
      obtain ⟨v0, hv0, hv01⟩ := x12 k v hkv
      obtain ⟨j, hj1, hj2, hj3, hj4⟩ := inv.ams k v0 (c12 k v0 hv0)
      refine ⟨j, ?_, hj2, hj3, by rw [← hv01]; exact hj4⟩
      by_contra hlt
      push_neg at hlt
      have hkw : k < w := by
        rw [hj3]
        exact Nat.mod_lt _ (by omega)
      have hpk : pydiff k s.A.sendTail w = j - T := by
        rw [hj3, inv.ast]
        exact pydiff_mod_sub (by omega) hj1 (by have h3 := inv.oTH; omega)
      rw [c13 k hkw (by rw [hpk]; omega)] at hv0
      exact Option.noConfusion hv0
    have hfba2 : ∀ g2 ∈ rest, FrBA w g.gabs D g2 := by
      intro g2 hg2
      obtain ⟨a1, a2, a3, a4, a5, a6, a7, a8, a9⟩ := hrest g2 hg2
      exact ⟨a1, a2, a3, a4, a5, a6, a7, hrmono g2 hg2, a9⟩
    cases hpaX : (xMark (ackWalk s.A.window s.A (g.gabs % w)) g.m.x).pendAck with
    | false =>
      have hsys : stepDeliverBAAt s 0 = { s with
          A := xMark (ackWalk s.A.window s.A (g.gabs % w)) g.m.x
          ba := rest } := by
        simp only [stepDeliverBAAt, hba, List.getElem?_cons_zero, List.eraseIdx]
        rw [hdisp, hdp]
        simp [hpaX]
      rw [hsys]
      refine ⟨g.gabs, D, E, H, ?_⟩
      exact {
        hw := hw
        aw := hXw
        acl := hXcl
        arst := hXir
        ast := hXst
        ahd := hXsh.trans inv.ahd
        arh := hXrh
        art := hXrt0
        amr := hXmr
        asq := hXsq
        ams := hXms
        bw := inv.bw
        bcl := inv.bcl
        brst := inv.brst
        bsh := inv.bsh
        bst := inv.bst
        bms := inv.bms
        bsq := inv.bsq
        hD := inv.hD
        brt := inv.brt
        brh := inv.brh
        brq := inv.brq
        bmr := inv.bmr
        oTD := haD
        oDE := inv.oDE
        oEH := inv.oEH
        oHL := inv.oHL
        oTH := by
          have h1 := inv.oTH
          omega
        fab := inv.fab
        fabP := inv.fabP
        fba := hfba2
        fbaP := hrpw }
    | true =>
      have hDTa : pydiff (D % w) (g.gabs % w) w = D - g.gabs :=
        pydiff_mod_sub (by omega) haD (by omega)
      have hsT2 : sT { s with
          A := { xMark (ackWalk s.A.window s.A (g.gabs % w)) g.m.x with pendAck := false }
          ba := rest } = g.gabs := by
        unfold sT sD
        show s.B.rq.length - pydiff (s.B.rq.length %
            (xMark (ackWalk s.A.window s.A (g.gabs % w)) g.m.x).window)
            (xMark (ackWalk s.A.window s.A (g.gabs % w)) g.m.x).sendTail
            (xMark (ackWalk s.A.window s.A (g.gabs % w)) g.m.x).window = g.gabs
        rw [inv.hD, hXw, hXst, hDTa]
        omega
      have hsH2 : sH { s with
          A := { xMark (ackWalk s.A.window s.A (g.gabs % w)) g.m.x with pendAck := false }
          ba := rest } = H := by
        unfold sH
        rw [hsT2]
        show g.gabs + pydiff
            (xMark (ackWalk s.A.window s.A (g.gabs % w)) g.m.x).sendHead
            (xMark (ackWalk s.A.window s.A (g.gabs % w)) g.m.x).sendTail
            (xMark (ackWalk s.A.window s.A (g.gabs % w)) g.m.x).window = H
        rw [hXsh, hXst, hXw, inv.ahd,
          pydiff_mod_sub (by omega) hgH (by have h3 := inv.oTH; omega)]
        omega
      have hsys : stepDeliverBAAt s 0 = { s with
          A := { xMark (ackWalk s.A.window s.A (g.gabs % w)) g.m.x with pendAck := false }
          ba := rest
          ab := s.ab ++ [⟨{ s := some (xMark (ackWalk s.A.window s.A (g.gabs % w)) g.m.x).sendHead, r := some (xMark (ackWalk s.A.window s.A (g.gabs % w)) g.m.x).recvTail, x := [] }, sH { s with A := { xMark (ackWalk s.A.window s.A (g.gabs % w)) g.m.x with pendAck := false }, ba := rest }⟩] } := by
        simp only [stepDeliverBAAt, hba, List.getElem?_cons_zero, List.eraseIdx]
        rw [hdisp, hdp]
        simp [hpaX]
      rw [hsys]
      refine ⟨g.gabs, D, E, H, ?_⟩
      exact {
        hw := hw
        aw := hXw
        acl := hXcl
        arst := hXir
        ast := hXst
        ahd := hXsh.trans inv.ahd
        arh := hXrh
        art := hXrt0
        amr := hXmr
        asq := hXsq
        ams := hXms
        bw := inv.bw
        bcl := inv.bcl
        brst := inv.brst
        bsh := inv.bsh
        bst := inv.bst
        bms := inv.bms
        bsq := inv.bsq
        hD := inv.hD
        brt := inv.brt
        brh := inv.brh
        brq := inv.brq
        bmr := inv.bmr
        oTD := haD
        oDE := inv.oDE
        oEH := inv.oEH
        oHL := inv.oHL
        oTH := by
          have h1 := inv.oTH
          omega
        fab := by
          intro f hf
          rw [List.mem_append] at hf
          rcases hf with hf | hf
          · exact inv.fab f hf
          · rw [List.mem_singleton] at hf
            subst hf
            refine ⟨⟨rfl, rfl, rfl, rfl, ?_, ?_, rfl⟩, ?_, ?_⟩
            · show some (xMark (ackWalk s.A.window s.A (g.gabs % w)) g.m.x).sendHead
                = some (sH { s with A := { xMark (ackWalk s.A.window s.A (g.gabs % w)) g.m.x with pendAck := false }, ba := rest } % w)
              rw [hsH2, hXsh, inv.ahd]
            · show some (xMark (ackWalk s.A.window s.A (g.gabs % w)) g.m.x).recvTail
                = some 0
              rw [hXrt0]
            · intro v2 hv2
              exact Option.noConfusion hv2
            · intro hv2
              constructor
              · show sH { s with A := { xMark (ackWalk s.A.window s.A (g.gabs % w)) g.m.x with pendAck := false }, ba := rest } ≤ H
                rw [hsH2]
              · show E ≤ sH { s with A := { xMark (ackWalk s.A.window s.A (g.gabs % w)) g.m.x with pendAck := false }, ba := rest }
                rw [hsH2]
                exact inv.oEH
        fabP := by
          rw [List.pairwise_append]
          refine ⟨inv.fabP, List.pairwise_singleton _ _, ?_⟩
          intro p hp q hq
          rw [List.mem_singleton] at hq
          subst hq
          have h2 := FrAB_bnd (inv.fab p hp)
          show fBnd p ≤ fCap w _
          have h3 : fCap w (⟨{ s := some (xMark (ackWalk s.A.window s.A (g.gabs % w)) g.m.x).sendHead, r := some (xMark (ackWalk s.A.window s.A (g.gabs % w)) g.m.x).recvTail, x := [] }, sH { s with A := { xMark (ackWalk s.A.window s.A (g.gabs % w)) g.m.x with pendAck := false }, ba := rest }⟩ : Frame V)
              = sH { s with A := { xMark (ackWalk s.A.window s.A (g.gabs % w)) g.m.x with pendAck := false }, ba := rest } := rfl
          rw [h3, hsH2]
          exact h2
        fba := hfba2
        fbaP := hrpw }


/-- Abbreviation for the tail of `dataPhase` after the accept, walk and
`x`-mark stages: drain the receive window, then send the pending ack.
Used to state the intermediate dispatch characterizations. -/
def dzTail {V : Type} (st1 : RState V) : DResult V :=
  let st4 := drain st1.window st1
  if st4.pendAck then
    let p := sendMsgAck st4
    ⟨p.1, p.2.toList, []⟩
  else ⟨st4, [], []⟩

/-- Processing the tail of the data phase on the receiver: whatever was
accepted into the window, draining and acking preserves the invariant with
the delivered count advanced by the drained run. -/
theorem sinv_dzTail {V : Type} {w : Nat} {ms : List V} {T D E H E2 : Nat}
    {s : Sys V} (inv : SInvC w ms T D E H s) (rest : List (Frame V))
    (hr1 : ∀ f2 ∈ rest, FrAB w ms H E2 f2)
    (hr2 : List.Pairwise (fun p q => fBnd p ≤ fCap w q) rest)
    (st1 : RState V)
    (h1w : st1.window = w) (h1rh : st1.recvHead = E2 % w)
    (h1rt : st1.recvTail = D % w)
    (h1sh : st1.sendHead = 0) (h1st : st1.sendTail = 0) (h1ms : st1.mSend = [])
    (h1sq : st1.sQ = []) (h1rq : st1.rq = ms.take D)
    (h1cl : st1.closed = false) (h1ir : st1.inReset = false)
    (hE1 : D ≤ E2) (hE2b : E2 ≤ H)
    (hcert : ∀ k v2, alookup st1.mRecv k = some v2 →
      k < w ∧ pydiff k st1.recvTail w < E2 - D ∧
      ms.get? (D + pydiff k st1.recvTail w) = some v2) :
    SInv w ms { s with
      B := (dzTail st1).st
      ab := rest
      ba := s.ba ++ (dzTail st1).out.map
        (fun m => ⟨m, (dzTail st1).st.rq.length⟩) } := by
  have hw := inv.hw
  have hE2D : E2 - D ≤ w / 2 := by
    have h1 := inv.oTD
    have h2 := inv.oTH
    omega
  have hed : pydiff st1.recvHead st1.recvTail w = E2 - D := by
    rw [h1rh, h1rt]
    exact pydiff_mod_sub (by omega) hE1 (by omega)
  have hdc := drain_char hw ms st1.window st1 D h1w
    (by rw [h1rh]; exact Nat.mod_lt _ (by omega))
    (by rw [h1rt]; exact Nat.mod_lt _ (by omega))
    h1rt h1rq
    (by rw [hed]; have h2 := inv.oHL; omega)
    (fun k v2 hkv => by
      obtain ⟨hk1, hk2, hk3⟩ := hcert k v2 hkv
      exact ⟨hk1, by rw [hed]; omega, hk3⟩)
    (by rw [hed, h1w]; omega)
  obtain ⟨c, hc, e1, e2, e3, e4, e5, e6, e7, e8, e9, e10, e11, e12, e13⟩ := hdc
  rw [hed] at hc
  have hfba2 : ∀ g2 ∈ s.ba, FrBA w T (D + c) g2 := by
    intro g2 hg2
    obtain ⟨a1, a2, a3, a4, a5, a6, a7, a8, a9⟩ := inv.fba g2 hg2
    exact ⟨a1, a2, a3, a4, a5, a6, a7, a8, by omega⟩
  have hbmr2 : ∀ k v2, alookup (drain st1.window st1).mRecv k = some v2 →
      ∃ j, D + c < j ∧ j < E2 ∧ k = j % w ∧ ms.get? j = some v2 := by
    intro k v2 hkv
    obtain ⟨j, hj1, hj2, hj3, hj4⟩ := e13 k v2 hkv
    rw [hed] at hj2
    exact ⟨j, hj1, by omega, hj3, hj4⟩
  cases hpa4 : (drain st1.window st1).pendAck with
  | true =>
    have hdz : dzTail st1 = ⟨{ drain st1.window st1 with pendAck := false },
        [{ s := some (drain st1.window st1).sendHead,
           r := some (drain st1.window st1).recvTail,
           x := collectX (drain st1.window st1).window (drain st1.window st1)
             (drain st1.window st1).recvTail }], []⟩ := by
      simp only [dzTail, sendMsgAck, hpa4, if_true, Option.toList]
    rw [hdz]
    refine ⟨T, D + c, E2, H, ?_⟩
    exact {
      hw := hw
      aw := inv.aw
      acl := inv.acl
      arst := inv.arst
      ast := inv.ast
      ahd := inv.ahd
      arh := inv.arh
      art := inv.art
      amr := inv.amr
      asq := inv.asq
      ams := inv.ams
      bw := e1
      bcl := e8.trans h1cl
      brst := e9.trans h1ir
      bsh := e4.trans h1sh
      bst := e5.trans h1st
      bms := e6.trans h1ms
      bsq := e7.trans h1sq
      hD := e12
      brt := e3
      brh := e2.trans h1rh
      brq := e11
      bmr := hbmr2
      oTD := by have h1 := inv.oTD; omega
      oDE := by omega
      oEH := hE2b
      oHL := inv.oHL
      oTH := inv.oTH
      fab := hr1
      fabP := hr2
      fba := by
        intro g2 hg2
        rw [List.mem_append] at hg2
        rcases hg2 with hg2 | hg2
        · exact hfba2 g2 hg2
        · rw [List.mem_map] at hg2
          obtain ⟨m0, hm0, hm0e⟩ := hg2
          rw [List.mem_singleton] at hm0
          subst hm0
          subst hm0e
          refine ⟨rfl, rfl, rfl, rfl, ?_, ?_, rfl, ?_, ?_⟩
          · show some (drain st1.window st1).sendHead = some 0
            rw [e4, h1sh]
          · show some (drain st1.window st1).recvTail
              = some ({ drain st1.window st1 with pendAck := false }.rq.length % w)
            show some (drain st1.window st1).recvTail
              = some ((drain st1.window st1).rq.length % w)
            rw [e3, e12]
          · show T ≤ { drain st1.window st1 with pendAck := false }.rq.length
            show T ≤ (drain st1.window st1).rq.length
            rw [e12]
            have h1 := inv.oTD
            omega
          · show { drain st1.window st1 with pendAck := false }.rq.length ≤ D + c
            show (drain st1.window st1).rq.length ≤ D + c
            rw [e12]
      fbaP := by
        rw [List.pairwise_append]
        refine ⟨inv.fbaP, ?_, ?_⟩
        · simp
        · intro p hp q hq
          rw [List.mem_map] at hq
          obtain ⟨m0, hm0, hm0e⟩ := hq
          rw [List.mem_singleton] at hm0
          subst hm0
          subst hm0e
          show p.gabs ≤ { drain st1.window st1 with pendAck := false }.rq.length
          show p.gabs ≤ (drain st1.window st1).rq.length
          rw [e12]
          have h1 := (inv.fba p hp).2.2.2.2.2.2.2.2
          omega }
  | false =>
    have hdz : dzTail st1 = ⟨drain st1.window st1, [], []⟩ := by
      simp only [dzTail, hpa4, if_false, Bool.false_eq_true]
    rw [hdz]
    refine ⟨T, D + c, E2, H, ?_⟩
    exact {
      hw := hw
      aw := inv.aw
      acl := inv.acl
      arst := inv.arst
      ast := inv.ast
      ahd := inv.ahd
      arh := inv.arh
      art := inv.art
      amr := inv.amr
      asq := inv.asq
      ams := inv.ams
      bw := e1
      bcl := e8.trans h1cl
      brst := e9.trans h1ir
      bsh := e4.trans h1sh
      bst := e5.trans h1st
      bms := e6.trans h1ms
      bsq := e7.trans h1sq
      hD := e12
      brt := e3
      brh := e2.trans h1rh
      brq := e11
      bmr := hbmr2
      oTD := by have h1 := inv.oTD; omega
      oDE := by omega
      oEH := hE2b
      oHL := inv.oHL
      oTH := inv.oTH
      fab := hr1
      fabP := hr2
      fba := by
        intro g2 hg2
        rw [List.map_nil, List.append_nil] at hg2
        exact hfba2 g2 hg2
      fbaP := by
        rw [List.map_nil, List.append_nil]
        exact inv.fbaP }

/-- Delivering the oldest `A`-to-`B` frame preserves the invariant: fresh
data extends the receive window, in-window duplicates are re-stored with
the same payload, stale frames are discarded by the half-window check, and
bare acks move the receive head. -/
theorem sinv_deliverAB {V : Type} {w : Nat} {ms : List V} {T D E H : Nat}
    {s : Sys V} (inv : SInvC w ms T D E H s) : SInv w ms (stepDeliverABAt s 0) := by
  have hw := inv.hw
  cases hab : s.ab with
  | nil =>
    have hid : stepDeliverABAt s 0 = s := by
      simp [stepDeliverABAt, hab]
    rw [hid]
    exact ⟨T, D, E, H, inv⟩
  | cons f rest =>
    obtain ⟨⟨hfa, hfn, hfc, hfe, hfs, hfr0, hfx⟩, hfd, hfb⟩ :=
      inv.fab f (by rw [hab]; exact List.mem_cons_self f rest)
    have hrest : ∀ f2 ∈ rest, FrAB w ms H E f2 := fun f2 hf2 =>
      inv.fab f2 (by rw [hab]; exact List.mem_cons_of_mem f hf2)
    have hpwh : ∀ f2 ∈ rest, fBnd f ≤ fCap w f2 := by
      have h1 := inv.fabP
      rw [hab, List.pairwise_cons] at h1
      exact h1.1
    have hrpw : List.Pairwise (fun p q => fBnd p ≤ fCap w q) rest := by
      have h1 := inv.fabP
      rw [hab, List.pairwise_cons] at h1
      exact h1.2
    have hrestGen : ∀ E2 : Nat, (∀ f2 ∈ rest, E2 ≤ fCap w f2) →
        ∀ f2 ∈ rest, FrAB w ms H E2 f2 := by
      intro E2 hE2c f2 hf2
      obtain ⟨hs2, hd2, hb2x⟩ := hrest f2 hf2
      have hcap := hE2c f2 hf2
      refine ⟨hs2, ?_, ?_⟩
      · intro v2 hv2
        obtain ⟨q1, q2, q3⟩ := hd2 v2 hv2
        have hCf : fCap w f2 = f2.gabs + w / 2 := by simp only [fCap, hv2]
        exact ⟨q1, q2, by omega⟩
      · intro hv2
        obtain ⟨q1, q2⟩ := hb2x hv2
        have hCf : fCap w f2 = f2.gabs := by simp only [fCap, hv2]
        exact ⟨q1, by omega⟩
    have hdisp : dispatch s.B f.m = dataPhase s.B f.m := by
      simp [dispatch, hfa, inv.bcl, inv.brst]
    have hedE : pydiff (E % w) (D % w) w = E - D :=
      pydiff_mod_sub (by omega) inv.oDE
        (by have h1 := inv.oTD; have h2 := inv.oEH; have h3 := inv.oTH; omega)
    have hval : f.gabs % w < s.B.window ∧ 0 < s.B.window :=
      ⟨by rw [inv.bw]; exact Nat.mod_lt _ (by omega), by rw [inv.bw]; omega⟩
    cases hfdm : f.m.d with
    | some v =>
      obtain ⟨hvi, hiH, hiEc⟩ := hfd v hfdm
      have hiDd : f.gabs ≤ D + w / 2 - 1 := by
        have h1 := inv.oTD
        have h2 := inv.oTH
        omega
      by_cases hiD : D ≤ f.gabs
      · have hqi : pydiff (f.gabs % w) (D % w) w = f.gabs - D :=
          pydiff_mod_sub (by omega) hiD (by omega)
        by_cases hiE2 : f.gabs < E
        · -- in-window duplicate: stored without moving the head
          have hb1 : ¬(between { s.B with pendAck := true }
              s.B.recvTail s.B.recvHead (f.gabs % w) = true) := by
            simp only [between, decide_eq_true_eq]
            show ¬(pydiff s.B.recvHead s.B.recvTail s.B.window
              ≤ pydiff (f.gabs % w) s.B.recvTail s.B.window)
            rw [inv.brt, inv.brh, inv.bw, hedE, hqi]
            omega
          have hb2 : between { s.B with pendAck := true }
              s.B.recvTail (f.gabs % w) s.B.recvHead = true := by
            simp only [between, decide_eq_true_eq]
            show pydiff (f.gabs % w) s.B.recvTail s.B.window
              ≤ pydiff s.B.recvHead s.B.recvTail s.B.window
            rw [inv.brt, inv.brh, inv.bw, hedE, hqi]
            omega
          have hhd : handleData s.B (f.gabs % w) (some v)
              = { s.B with
                pendAck := true
                mRecv := ainsert s.B.mRecv (f.gabs % w) v } := by
            simp only [handleData]
            rw [if_neg hb1, if_pos hb2]
          have hdp : dataPhase s.B f.m = dzTail { s.B with
              pendAck := true
              mRecv := ainsert s.B.mRecv (f.gabs % w) v } := by
            simp only [dataPhase, hfs, hfr0, hfdm]
            rw [if_pos hval, hhd]
            have hstopB : ackWalk ({ s.B with pendAck := true, mRecv := ainsert s.B.mRecv (f.gabs % w) v } : RState V).window { s.B with pendAck := true, mRecv := ainsert s.B.mRecv (f.gabs % w) v } 0 = { s.B with pendAck := true, mRecv := ainsert s.B.mRecv (f.gabs % w) v } :=
              ackWalk_stop _ _ _ (by show 0 < s.B.window; rw [inv.bw]; omega) inv.bst
            rw [hstopB]
            rw [hfx]
            simp only [xMark]
            rfl
          have hsys : stepDeliverABAt s 0 = { s with
              B := (dzTail { s.B with
                pendAck := true
                mRecv := ainsert s.B.mRecv (f.gabs % w) v }).st
              ab := rest
              ba := s.ba ++ (dzTail { s.B with
                pendAck := true
                mRecv := ainsert s.B.mRecv (f.gabs % w) v }).out.map
                (fun m => ⟨m, (dzTail { s.B with
                  pendAck := true
                  mRecv := ainsert s.B.mRecv (f.gabs % w) v }).st.rq.length⟩) } := by
            simp only [stepDeliverABAt, hab, List.getElem?_cons_zero, List.eraseIdx]
            rw [hdisp, hdp]
          rw [hsys]
          refine sinv_dzTail inv rest hrest hrpw _ inv.bw inv.brh inv.brt inv.bsh
            inv.bst inv.bms inv.bsq inv.brq inv.bcl inv.brst inv.oDE inv.oEH ?_
          intro k v2 hkv
          show k < w ∧ pydiff k s.B.recvTail w < E - D ∧
            ms.get? (D + pydiff k s.B.recvTail w) = some v2
          rw [inv.brt]
          by_cases hks : k = f.gabs % w
          · rw [hks, alookup_ainsert_self] at hkv
            cases hkv
            refine ⟨by rw [hks]; exact Nat.mod_lt _ (by omega), ?_, ?_⟩
            · rw [hks, hqi]
              omega
            · rw [hks, hqi, show D + (f.gabs - D) = f.gabs by omega]
              exact hvi
          · rw [alookup_ainsert_ne _ _ _ _ hks] at hkv
            obtain ⟨j, hj1, hj2, hj3, hj4⟩ := inv.bmr k v2 hkv
            have hqj : pydiff k (D % w) w = j - D := by
              rw [hj3]
              exact pydiff_mod_sub (by omega) (by omega)
                (by have h1 := inv.oTD; have h2 := inv.oEH; have h3 := inv.oTH; omega)
            refine ⟨by rw [hj3]; exact Nat.mod_lt _ (by omega), by rw [hqj]; omega, ?_⟩
            rw [hqj, show D + (j - D) = j by omega]
            exact hj4
        · -- fresh data: stored and the head advances past it
          have hb1 : between { s.B with pendAck := true }
              s.B.recvTail s.B.recvHead (f.gabs % w) = true := by
            simp only [between, decide_eq_true_eq]
            show pydiff s.B.recvHead s.B.recvTail s.B.window
              ≤ pydiff (f.gabs % w) s.B.recvTail s.B.window
            rw [inv.brt, inv.brh, inv.bw, hedE, hqi]
            omega
          have hacc : pydiff (f.gabs % w) s.B.recvTail s.B.window
              < s.B.window / 2 := by
            rw [inv.brt, inv.bw, hqi]
            omega
          have hhd : handleData s.B (f.gabs % w) (some v)
              = { s.B with
                pendAck := true
                mRecv := ainsert s.B.mRecv (f.gabs % w) v
                recvHead := (f.gabs % w + 1) % s.B.window } := by
            simp only [handleData]
            rw [if_pos hb1, if_pos hacc]
          have hdp : dataPhase s.B f.m = dzTail { s.B with
              pendAck := true
              mRecv := ainsert s.B.mRecv (f.gabs % w) v
              recvHead := (f.gabs % w + 1) % s.B.window } := by
            simp only [dataPhase, hfs, hfr0, hfdm]
            rw [if_pos hval, hhd]
            have hstopA : ackWalk ({ s.B with pendAck := true, mRecv := ainsert s.B.mRecv (f.gabs % w) v, recvHead := (f.gabs % w + 1) % s.B.window } : RState V).window { s.B with pendAck := true, mRecv := ainsert s.B.mRecv (f.gabs % w) v, recvHead := (f.gabs % w + 1) % s.B.window } 0 = { s.B with pendAck := true, mRecv := ainsert s.B.mRecv (f.gabs % w) v, recvHead := (f.gabs % w + 1) % s.B.window } :=
              ackWalk_stop _ _ _ (by show 0 < s.B.window; rw [inv.bw]; omega) inv.bst
            rw [hstopA]
            rw [hfx]
            simp only [xMark]
            rfl
          have hsys : stepDeliverABAt s 0 = { s with
              B := (dzTail { s.B with
                pendAck := true
                mRecv := ainsert s.B.mRecv (f.gabs % w) v
                recvHead := (f.gabs % w + 1) % s.B.window }).st
              ab := rest
              ba := s.ba ++ (dzTail { s.B with
                pendAck := true
                mRecv := ainsert s.B.mRecv (f.gabs % w) v
                recvHead := (f.gabs % w + 1) % s.B.window }).out.map
                (fun m => ⟨m, (dzTail { s.B with
                  pendAck := true
                  mRecv := ainsert s.B.mRecv (f.gabs % w) v
                  recvHead := (f.gabs % w + 1) % s.B.window }).st.rq.length⟩) } := by
            simp only [stepDeliverABAt, hab, List.getElem?_cons_zero, List.eraseIdx]
            rw [hdisp, hdp]
          rw [hsys]
          refine sinv_dzTail inv rest
            (hrestGen (f.gabs + 1) ?_) hrpw _ inv.bw ?_ inv.brt inv.bsh
            inv.bst inv.bms inv.bsq inv.brq inv.bcl inv.brst (by omega)
            (by omega) ?_
          · intro f2 hf2
            have h1 := hpwh f2 hf2
            have h2 : fBnd f = f.gabs + 1 := by simp only [fBnd, hfdm]
            omega
          · show (f.gabs % w + 1) % s.B.window = (f.gabs + 1) % w
            rw [inv.bw, Nat.mod_add_mod]
          · intro k v2 hkv
            show k < w ∧ pydiff k s.B.recvTail w < f.gabs + 1 - D ∧
              ms.get? (D + pydiff k s.B.recvTail w) = some v2
            rw [inv.brt]
            by_cases hks : k = f.gabs % w
            · rw [hks, alookup_ainsert_self] at hkv
              cases hkv
              refine ⟨by rw [hks]; exact Nat.mod_lt _ (by omega), ?_, ?_⟩
              · rw [hks, hqi]
                omega
              · rw [hks, hqi, show D + (f.gabs - D) = f.gabs by omega]
                exact hvi
            · rw [alookup_ainsert_ne _ _ _ _ hks] at hkv
              obtain ⟨j, hj1, hj2, hj3, hj4⟩ := inv.bmr k v2 hkv
              have hqj : pydiff k (D % w) w = j - D := by
                rw [hj3]
                exact pydiff_mod_sub (by omega) (by omega)
                  (by have h1 := inv.oTD; have h2 := inv.oEH
                      have h3 := inv.oTH; omega)
              refine ⟨by rw [hj3]; exact Nat.mod_lt _ (by omega), ?_, ?_⟩
              · rw [hqj]
                omega
              · rw [hqj, show D + (j - D) = j by omega]
                exact hj4
      · -- stale data: rejected by the half-window check
        push_neg at hiD
        have hDg : D - f.gabs ≤ w / 2 := by
          have h1 := inv.oDE
          omega
        have hqs : pydiff (f.gabs % w) (D % w) w = w - (D - f.gabs) :=
          pydiff_mod_stale (by omega) f.gabs D hiD (by omega)
        have hb1 : between { s.B with pendAck := true }
            s.B.recvTail s.B.recvHead (f.gabs % w) = true := by
          simp only [between, decide_eq_true_eq]
          show pydiff s.B.recvHead s.B.recvTail s.B.window
            ≤ pydiff (f.gabs % w) s.B.recvTail s.B.window
          rw [inv.brt, inv.brh, inv.bw, hedE, hqs]
          have h1 := inv.oTD
          have h2 := inv.oEH
          have h3 := inv.oTH
          omega
        have haccn : ¬(pydiff (f.gabs % w) s.B.recvTail s.B.window
            < s.B.window / 2) := by
          rw [inv.brt, inv.bw, hqs]
          omega
        have hhd : handleData s.B (f.gabs % w) (some v)
            = { s.B with pendAck := true } := by
          simp only [handleData]
          rw [if_pos hb1, if_neg haccn]
        have hdp : dataPhase s.B f.m = dzTail { s.B with pendAck := true } := by
          simp only [dataPhase, hfs, hfr0, hfdm]
          rw [if_pos hval, hhd]
          have hstopC : ackWalk ({ s.B with pendAck := true } : RState V).window { s.B with pendAck := true } 0 = { s.B with pendAck := true } :=
            ackWalk_stop _ _ _ (by show 0 < s.B.window; rw [inv.bw]; omega) inv.bst
          rw [hstopC]
          rw [hfx]
          simp only [xMark]
          rfl
        have hsys : stepDeliverABAt s 0 = { s with
            B := (dzTail { s.B with pendAck := true }).st
            ab := rest
            ba := s.ba ++ (dzTail { s.B with pendAck := true }).out.map
              (fun m => ⟨m, (dzTail { s.B with pendAck := true }).st.rq.length⟩) } := by
          simp only [stepDeliverABAt, hab, List.getElem?_cons_zero, List.eraseIdx]
          rw [hdisp, hdp]
        rw [hsys]
        refine sinv_dzTail inv rest hrest hrpw _ inv.bw inv.brh inv.brt inv.bsh
          inv.bst inv.bms inv.bsq inv.brq inv.bcl inv.brst inv.oDE inv.oEH ?_
        intro k v2 hkv
        show k < w ∧ pydiff k s.B.recvTail w < E - D ∧
          ms.get? (D + pydiff k s.B.recvTail w) = some v2
        rw [inv.brt]
        obtain ⟨j, hj1, hj2, hj3, hj4⟩ := inv.bmr k v2 hkv
        have hqj : pydiff k (D % w) w = j - D := by
          rw [hj3]
          exact pydiff_mod_sub (by omega) (by omega)
            (by have h1 := inv.oTD; have h2 := inv.oEH; have h3 := inv.oTH; omega)
        refine ⟨by rw [hj3]; exact Nat.mod_lt _ (by omega), by rw [hqj]; omega, ?_⟩
        rw [hqj, show D + (j - D) = j by omega]
        exact hj4
    | none =>
      -- bare ack: the receive head jumps to the announced position
      obtain ⟨hgH2, hEg⟩ := hfb hfdm
      have hDg : D ≤ f.gabs := Nat.le_trans inv.oDE hEg
      have hgD2 : f.gabs - D ≤ w / 2 := by
        have h1 := inv.oTD
        have h2 := inv.oTH
        omega
      have hqg : pydiff (f.gabs % w) (D % w) w = f.gabs - D :=
        pydiff_mod_sub (by omega) hDg (by omega)
      have hb1 : between s.B s.B.recvTail s.B.recvHead (f.gabs % w) = true := by
        simp only [between, decide_eq_true_eq]
        rw [inv.brt, inv.brh, inv.bw, hedE, hqg]
        omega
      have hacc : pydiff (f.gabs % w) s.B.recvTail s.B.window
          ≤ s.B.window / 2 := by
        rw [inv.brt, inv.bw, hqg]
        omega
      have hhd : handleData s.B (f.gabs % w) none
          = { s.B with recvHead := f.gabs % w } := by
        simp only [handleData]
        rw [if_pos hb1, if_pos hacc]
      have hdp : dataPhase s.B f.m
          = dzTail { s.B with recvHead := f.gabs % w } := by
        simp only [dataPhase, hfs, hfr0, hfdm]
        rw [if_pos hval, hhd]
        have hstopN : ackWalk ({ s.B with recvHead := f.gabs % w } : RState V).window { s.B with recvHead := f.gabs % w } 0 = { s.B with recvHead := f.gabs % w } :=
          ackWalk_stop _ _ _ (by show 0 < s.B.window; rw [inv.bw]; omega) inv.bst
        rw [hstopN]
        rw [hfx]
        simp only [xMark]
        rfl
      have hsys : stepDeliverABAt s 0 = { s with
          B := (dzTail { s.B with recvHead := f.gabs % w }).st
          ab := rest
          ba := s.ba ++ (dzTail { s.B with recvHead := f.gabs % w }).out.map
            (fun m => ⟨m, (dzTail { s.B with recvHead := f.gabs % w }).st.rq.length⟩) } := by
        simp only [stepDeliverABAt, hab, List.getElem?_cons_zero, List.eraseIdx]
        rw [hdisp, hdp]
      rw [hsys]
      refine sinv_dzTail inv rest (hrestGen f.gabs ?_) hrpw _
        inv.bw rfl inv.brt inv.bsh inv.bst inv.bms inv.bsq inv.brq inv.bcl
        inv.brst hDg hgH2 ?_
      · intro f2 hf2
        have h1 := hpwh f2 hf2
        have h2 : fBnd f = f.gabs := by simp only [fBnd, hfdm]
        omega
      · intro k v2 hkv
        show k < w ∧ pydiff k s.B.recvTail w < f.gabs - D ∧
          ms.get? (D + pydiff k s.B.recvTail w) = some v2
        rw [inv.brt]
        obtain ⟨j, hj1, hj2, hj3, hj4⟩ := inv.bmr k v2 hkv
        have hqj : pydiff k (D % w) w = j - D := by
          rw [hj3]
          exact pydiff_mod_sub (by omega) (by omega)
            (by have h1 := inv.oTD; have h2 := inv.oEH; have h3 := inv.oTH; omega)
        refine ⟨by rw [hj3]; exact Nat.mod_lt _ (by omega), by rw [hqj]; omega, ?_⟩
        rw [hqj, show D + (j - D) = j by omega]
        exact hj4

/-- Every FIFO-transport step preserves the invariant. -/
theorem sinv_step {V : Type} {w : Nat} {ms : List V} {s1 s2 : Sys V}
    (h : SStep s1 s2) (inv : SInv w ms s1) : SInv w ms s2 := by
  obtain ⟨T, D, E, H, invc⟩ := inv
  cases h with
  | assignA => exact sinv_assignA invc
  | retransA k => exact sinv_retransA invc k
  | ackA => exact sinv_ackA invc
  | ackB => exact sinv_ackB invc
  | deliverAB => exact sinv_deliverAB invc
  | dropAB => exact sinv_dropAB invc
  | deliverBA => exact sinv_deliverBA invc
  | dropBA => exact sinv_dropBA invc

/-- Every reachable state of the composed system satisfies the invariant. -/
theorem sinv_reach {V : Type} {w t : Nat} {ms : List V} {s : Sys V}
    (hw : 4 ≤ w) (h : SReach (initSys V w t ms) s) : SInv w ms s := by
  induction h with
  | refl => exact ⟨0, 0, 0, 0, sinv_init V w t ms hw⟩
  | tail h1 h2 ih => exact sinv_step h2 ih

/-- The adversarial trace for C1: window 8, nine payloads `0..8`.  A
duplicate of the first data frame (seq 0, payload 0) is delivered after
the window has wrapped, when `B` again expects seq 0 in absolute position
8; the real ninth frame is then discarded as an in-window duplicate and
its seq acknowledged by the ack the stale frame provoked. -/
def c1Steps : List (Sys Nat → Sys Nat) :=
  [ stepAssignA,
    (stepDupAB · 0),
    stepAssignA, stepAssignA, stepAssignA,
    (stepDeliverABAt · 0),
    (stepDeliverABAt · 1),
    (stepDeliverABAt · 1),
    (stepDeliverABAt · 1),
    (stepDeliverBAAt · 0),
    (stepDeliverABAt · 1),
    (stepDeliverBAAt · 0), (stepDeliverABAt · 1),
    (stepDeliverBAAt · 0), (stepDeliverABAt · 1),
    (stepDeliverBAAt · 0), (stepDeliverABAt · 1),
    stepAssignA, stepAssignA, stepAssignA, stepAssignA,
    (stepDeliverABAt · 1), (stepDeliverABAt · 1),
    (stepDeliverABAt · 1), (stepDeliverABAt · 1),
    (stepDeliverBAAt · 0), (stepDeliverABAt · 1),
    (stepDeliverBAAt · 0), (stepDeliverABAt · 1),
    (stepDeliverBAAt · 0), (stepDeliverABAt · 1),
    (stepDeliverBAAt · 0), (stepDeliverABAt · 1),
    stepAssignA,
    (stepDeliverABAt · 0),
    (stepDeliverABAt · 0),
    (stepDeliverBAAt · 0), (stepDeliverABAt · 0),
    (stepDeliverBAAt · 0), (stepDeliverABAt · 0) ]

/-- The final system state of the C1 adversarial trace. -/
def c1Final : Sys Nat :=
  c1Steps.foldl (fun s f => f s) (initSys Nat 8 1000 [0, 1, 2, 3, 4, 5, 6, 7, 8])

set_option maxRecDepth 4096 in
/-- C1 counterexample: under the claimed adversary - which may duplicate
frames - there is a finite run of two composed Reliable instances,
starting just after the reset handshake with window 8, in which the
transport ends with both directions empty (so every emitted frame has
been delivered at least once), yet the receiver has delivered
`[0,1,2,3,4,5,6,7,0]` instead of the submitted `[0,...,8]`: payload 0 is
delivered twice, out of order, and payload 8 is lost forever even though
the sender's in-flight table is empty, i.e. the sender believes it was
acknowledged. -/
theorem in_order_counterexample :
    c1Final.B.rq = [0, 1, 2, 3, 4, 5, 6, 7, 0] ∧
    c1Final.ab = [] ∧ c1Final.ba = [] ∧
    c1Final.A.mSend = [] ∧ c1Final.A.sQ = [] ∧
    c1Final.B.rq ≠ [0, 1, 2, 3, 4, 5, 6, 7, 8] := by
  refine ⟨by decide, by decide, by decide, by decide, by decide, by decide⟩

end RelSys

namespace RelSys
open Rel
def cleanSys (V : Type) (w t : Nat) (ms : List V) (n : Nat) : Sys V :=
  { A := { window := w
           timeout := t
           closed := false
           inReset := false
           isUp := true
           resetLevel := 1
           sendHead := n % w
           sendTail := n % w
           recvHead := 0
           recvTail := 0
           sQ := ms.drop n
           mSend := []
           mRecv := []
           pendAck := false
           rq := [] }
    B := { window := w
           timeout := t
           closed := false
           inReset := false
           isUp := true
           resetLevel := 1
           sendHead := 0
           sendTail := 0
           recvHead := n % w
           recvTail := n % w
           sQ := []
           mSend := []
           mRecv := []
           pendAck := false
           rq := ms.take n }
    ab := []
    ba := [] }

def cleanMid1 (V : Type) (w t : Nat) (ms : List V) (n : Nat) (v : V) : Sys V :=
  { cleanSys V w t ms n with
    A := { (cleanSys V w t ms n).A with
      sendHead := (n + 1) % w
      sQ := ms.drop (n + 1)
      mSend := [(n % w, (v, false))]
      pendAck := false }
    ab := [⟨{ s := some (n % w), d := some v, r := some 0, x := [] }, n⟩] }

def cleanMid2 (V : Type) (w t : Nat) (ms : List V) (n : Nat) (v : V) : Sys V :=
  { cleanMid1 V w t ms n v with
    B := { (cleanSys V w t ms n).B with
      recvHead := (n + 1) % w
      recvTail := (n + 1) % w
      rq := ms.take (n + 1) }
    ab := []
    ba := [⟨{ s := some 0, r := some ((n + 1) % w), x := [] }, n + 1⟩] }

theorem clean_step1 {V : Type} {w t : Nat} {ms : List V} {n : Nat}
    (hw : 4 ≤ w) (hn : n < ms.length) (v : V) (rest2 : List V)
    (hdrop : ms.drop n = v :: rest2)
    (hrest2 : ms.drop (n + 1) = rest2)
    (hlen : (ms.take n).length = n) :
    stepAssignA (cleanSys V w t ms n) = cleanMid1 V w t ms n v := by
  have hps0 : pydiff (n % w) (n % w) w = 0 := pydiff_self _ _ (by omega)
  have hghX : sH ({ A := { window := w, timeout := t, closed := false, inReset := false, isUp := true, resetLevel := 1, sendHead := n % w, sendTail := n % w, recvHead := 0, recvTail := 0, sQ := v :: rest2, mSend := [], mRecv := [], pendAck := false, rq := [] }, B := { window := w, timeout := t, closed := false, inReset := false, isUp := true, resetLevel := 1, sendHead := 0, sendTail := 0, recvHead := n % w, recvTail := n % w, sQ := [], mSend := [], mRecv := [], pendAck := false, rq := List.take n ms }, ab := [], ba := [] } : Sys V) = n := by
    unfold sH sT sD
    simp only [hlen, hps0]
    omega
  simp only [stepAssignA, bgAssign, cleanSys, hdrop]
  rw [if_pos (by simp only [hps0]; omega)]
  simp only [sendMsgData, ainsert, aerase, List.filter_nil, alookup_cons,
    eq_self_iff_true, if_true, collectX_stop, Option.toList, List.map,
    List.nil_append, hghX, Nat.mod_add_mod, hrest2]
  simp only [cleanMid1, cleanSys, hrest2]

theorem clean_step2 {V : Type} {w t : Nat} {ms : List V} {n : Nat}
    (hw : 4 ≤ w) (hn : n < ms.length) (v : V) (rest2 : List V)
    (hdrop : ms.drop n = v :: rest2)
    (hrest2 : ms.drop (n + 1) = rest2)
    (hlen : (ms.take n).length = n)
    (hlen1 : (ms.take (n + 1)).length = n + 1)
    (htk1 : ms.take n ++ [v] = ms.take (n + 1)) :
    stepDeliverABAt (cleanMid1 V w t ms n v) 0 = cleanMid2 V w t ms n v := by
  have hps0 : pydiff (n % w) (n % w) w = 0 := pydiff_self _ _ (by omega)
  have hnw : n % w < w := Nat.mod_lt _ (by omega)
  have hw0 : 0 < w := by omega
  have hw2 : 2 ≤ w := by omega
  have hmm1 : (n % w + 1) % w = (n + 1) % w := by
    conv_rhs => rw [Nat.add_mod]
    rw [Nat.mod_eq_of_lt (show (1 : Nat) < w by omega)]
  have hne : ¬((n + 1) % w = n % w) := by
    intro he
    have h1 := pydiff_mod_eq (w := w) (by omega) n 1 (by omega)
    rw [he, pydiff_self _ _ (by omega)] at h1
    omega
  have hneA : ¬(n % w = (n + 1) % w) := fun he => hne he.symm
  simp only [stepDeliverABAt, cleanMid1, cleanSys, List.getElem?_cons_zero,
    List.eraseIdx]
  simp only [dispatch, dataPhase, Bool.false_eq_true, if_false, false_and,
    ite_false]
  rw [if_pos ⟨hnw, by omega⟩]
  rw [handleData_fresh _ v hw rfl hnw]
  simp only [ainsert, aerase, List.filter_nil, hmm1]
  simp only [ackWalk_stop, hw0, xMark]
  have hdrain : drain w { window := w, timeout := t, closed := false, inReset := false, isUp := true, resetLevel := 1, sendHead := 0, sendTail := 0, recvHead := (n + 1) % w, recvTail := n % w, sQ := [], mSend := [], mRecv := [(n % w, v)], pendAck := true, rq := List.take n ms } = ({ window := w, timeout := t, closed := false, inReset := false, isUp := true, resetLevel := 1, sendHead := 0, sendTail := 0, recvHead := (n + 1) % w, recvTail := (n + 1) % w, sQ := [], mSend := [], mRecv := [], pendAck := true, rq := List.take n ms ++ [v] } : RState V) := by
    rw [drain_pop_stop w _ v hw2 hneA (by simp [alookup_cons]) hmm1]
    simp [aerase_cons, aerase]
  rw [hdrain]
  simp only [sendMsgAck, collectX_stop, Option.toList, List.map,
    List.nil_append, htk1, hlen1, if_true]
  simp only [cleanMid2, cleanMid1, cleanSys, hrest2]

def cleanMid3 (V : Type) (w t : Nat) (ms : List V) (n : Nat) : Sys V :=
  { cleanSys V w t ms (n + 1) with
    ab := [⟨{ s := some ((n + 1) % w), r := some 0, x := [] }, n + 1⟩] }

theorem clean_step3 {V : Type} {w t : Nat} {ms : List V} {n : Nat}
    (hw : 4 ≤ w) (hn : n < ms.length) (v : V) (rest2 : List V)
    (hdrop : ms.drop n = v :: rest2)
    (hrest2 : ms.drop (n + 1) = rest2)
    (hlen1 : (ms.take (n + 1)).length = n + 1) :
    stepDeliverBAAt (cleanMid2 V w t ms n v) 0 = cleanMid3 V w t ms n := by
  have hnw : n % w < w := Nat.mod_lt _ (by omega)
  have hsw : (n + 1) % w < w := Nat.mod_lt _ (by omega)
  have hw0 : 0 < w := by omega
  have hw2 : 2 ≤ w := by omega
  have hps1 : pydiff ((n + 1) % w) ((n + 1) % w) w = 0 := pydiff_self _ _ (by omega)
  have hmm1 : (n % w + 1) % w = (n + 1) % w := by
    conv_rhs => rw [Nat.add_mod]
    rw [Nat.mod_eq_of_lt (show (1 : Nat) < w by omega)]
  have hneA : ¬(n % w = (n + 1) % w) := by
    intro he
    have h1 := pydiff_mod_eq (w := w) (by omega) n 1 (by omega)
    rw [← he, pydiff_self _ _ (by omega)] at h1
    omega
  simp only [stepDeliverBAAt, cleanMid2, cleanMid1, cleanSys,
    List.getElem?_cons_zero, List.eraseIdx]
  simp only [dispatch, dataPhase, Bool.false_eq_true, if_false, false_and,
    ite_false]
  rw [if_pos ⟨hw0, hsw⟩]
  rw [handleData_self _ hw rfl hw0]
  have hwalk : ackWalk w { window := w, timeout := t, closed := false, inReset := false, isUp := true, resetLevel := 1, sendHead := (n + 1) % w, sendTail := n % w, recvHead := 0, recvTail := 0, sQ := ms.drop (n + 1), mSend := [(n % w, (v, false))], mRecv := [], pendAck := false, rq := [] } ((n + 1) % w) = ({ window := w, timeout := t, closed := false, inReset := false, isUp := true, resetLevel := 1, sendHead := (n + 1) % w, sendTail := (n + 1) % w, recvHead := 0, recvTail := 0, sQ := ms.drop (n + 1), mSend := [], mRecv := [], pendAck := true, rq := [] } : RState V) := by
    rw [ackWalk_pop_stop w _ ((n + 1) % w) (v, false) hw2 hneA hneA
      (by simp [alookup_cons]) hmm1]
    simp [aerase_cons, aerase]
  rw [hwalk]
  simp only [xMark, drain_stop, hw0, sendMsgAck, if_true, collectX_stop,
    Option.toList, List.map, List.nil_append]
  have hgh3 : sH ({ A := { window := w, timeout := t, closed := false, inReset := false, isUp := true, resetLevel := 1, sendHead := (n + 1) % w, sendTail := (n + 1) % w, recvHead := 0, recvTail := 0, sQ := ms.drop (n + 1), mSend := [], mRecv := [], pendAck := false, rq := [] }, B := { window := w, timeout := t, closed := false, inReset := false, isUp := true, resetLevel := 1, sendHead := 0, sendTail := 0, recvHead := (n + 1) % w, recvTail := (n + 1) % w, sQ := [], mSend := [], mRecv := [], pendAck := false, rq := List.take (n + 1) ms }, ab := [], ba := [] } : Sys V) = n + 1 := by
    unfold sH sT sD
    simp only [hlen1, hps1]
    omega
  simp only [hgh3]
  simp only [cleanMid3, cleanSys]

theorem clean_step4 {V : Type} {w t : Nat} {ms : List V} {n : Nat}
    (hw : 4 ≤ w) (hn : n < ms.length) :
    stepDeliverABAt (cleanMid3 V w t ms n) 0 = cleanSys V w t ms (n + 1) := by
  have hsw : (n + 1) % w < w := Nat.mod_lt _ (by omega)
  have hw0 : 0 < w := by omega
  simp only [stepDeliverABAt, cleanMid3, cleanSys, List.getElem?_cons_zero,
    List.eraseIdx]
  simp only [dispatch, dataPhase, Bool.false_eq_true, if_false, false_and,
    ite_false]
  rw [if_pos ⟨hsw, hw0⟩]
  rw [handleData_self _ hw rfl hsw]
  simp only [ackWalk_stop, hw0, xMark, drain_stop, sendMsgAck,
    Bool.false_eq_true, if_false, List.map, List.append_nil]

/-- One full schedule round: assign, deliver, ack back, ack confirm. -/
theorem clean_cycle {V : Type} {w t : Nat} {ms : List V} {n : Nat}
    (hw : 4 ≤ w) (hn : n < ms.length) :
    SReach (cleanSys V w t ms n) (cleanSys V w t ms (n + 1)) := by
  cases hdrop : ms.drop n with
  | nil =>
    rw [List.drop_eq_nil_iff_le] at hdrop
    omega
  | cons v rest2 =>
    have hrest2 : ms.drop (n + 1) = rest2 := by
      rw [← List.tail_drop, hdrop]
      rfl
    have hlen : (ms.take n).length = n := by
      rw [List.length_take]
      omega
    have hlen1 : (ms.take (n + 1)).length = n + 1 := by
      rw [List.length_take]
      omega
    have htk1 : ms.take n ++ [v] = ms.take (n + 1) := by
      have hv : ms.get? n = some v := by
        have h2 := List.get?_drop ms n 0
        rw [hdrop] at h2
        simpa using h2.symm
      have hd0g : ms[n]? = some v := by rwa [← List.get?_eq_getElem?]
      rw [List.take_succ, hd0g]
      rfl
    have r1 : SStep (cleanSys V w t ms n) (cleanMid1 V w t ms n v) := by
      rw [← clean_step1 hw hn v rest2 hdrop hrest2 hlen]
      exact SStep.assignA _
    have r2 : SStep (cleanMid1 V w t ms n v) (cleanMid2 V w t ms n v) := by
      rw [← clean_step2 hw hn v rest2 hdrop hrest2 hlen hlen1 htk1]
      exact SStep.deliverAB _
    have r3 : SStep (cleanMid2 V w t ms n v) (cleanMid3 V w t ms n) := by
      rw [← clean_step3 hw hn v rest2 hdrop hrest2 hlen1]
      exact SStep.deliverBA _
    have r4 : SStep (cleanMid3 V w t ms n) (cleanSys V w t ms (n + 1)) := by
      rw [← clean_step4 hw hn]
      exact SStep.deliverAB _
    exact .tail (.tail (.tail (.tail .refl r1) r2) r3) r4

/-- After the initial pending acks are exchanged, the system is in the
steady schedule state. -/
theorem clean_bridge {V : Type} {w t : Nat} {ms : List V} (hw : 4 ≤ w) :
    SReach (initSys V w t ms) (cleanSys V w t ms 0) := by
  have hw0 : 0 < w := by omega
  have e1 : stepAckA (initSys V w t ms) = { initSys V w t ms with
      A := { (initSys V w t ms).A with pendAck := false }
      ab := [⟨{ s := some 0, r := some 0, x := [] }, 0⟩] } := by
    simp only [stepAckA, initSys, initSt, sendMsgAck, if_true, collectX_stop,
      Option.toList, List.map, List.nil_append]
    have hgh0 : sH (initSys V w t ms) = 0 := by
      unfold sH sT sD initSys initSt
      simp [pydiff_self _ _ hw0]
    simp only [initSys, initSt] at hgh0
    simp only [hgh0]
  have e2 : stepDeliverABAt ({ initSys V w t ms with
      A := { (initSys V w t ms).A with pendAck := false }
      ab := [⟨{ s := some 0, r := some 0, x := [] }, 0⟩] } : Sys V) 0
      = { initSys V w t ms with
        A := { (initSys V w t ms).A with pendAck := false }
        B := { (initSys V w t ms).B with pendAck := false }
        ba := [⟨{ s := some 0, r := some 0, x := [] }, 0⟩] } := by
    simp only [stepDeliverABAt, initSys, initSt, List.getElem?_cons_zero,
      List.eraseIdx]
    simp only [dispatch, dataPhase, Bool.false_eq_true, if_false, false_and,
      ite_false]
    rw [if_pos ⟨hw0, hw0⟩]
    rw [handleData_self _ (by exact hw) rfl hw0]
    simp only [ackWalk_stop, hw0, xMark, drain_stop, sendMsgAck, if_true,
      collectX_stop, Option.toList, List.map, List.nil_append,
      List.length_nil]
  have e3 : stepDeliverBAAt ({ initSys V w t ms with
      A := { (initSys V w t ms).A with pendAck := false }
      B := { (initSys V w t ms).B with pendAck := false }
      ba := [⟨{ s := some 0, r := some 0, x := [] }, 0⟩] } : Sys V) 0
      = cleanSys V w t ms 0 := by
    simp only [stepDeliverBAAt, initSys, initSt, List.getElem?_cons_zero,
      List.eraseIdx]
    simp only [dispatch, dataPhase, Bool.false_eq_true, if_false, false_and,
      ite_false]
    rw [if_pos ⟨hw0, hw0⟩]
    rw [handleData_self _ (by exact hw) rfl hw0]
    simp only [ackWalk_stop, hw0, xMark, drain_stop, sendMsgAck,
      Bool.false_eq_true, if_false, List.map, List.append_nil]
    simp [cleanSys, Nat.zero_mod, List.drop_zero, List.take_zero]
  have r1 : SStep (initSys V w t ms) _ := SStep.ackA (initSys V w t ms)
  rw [e1] at r1
  have r2 : SStep _ _ := SStep.deliverAB ({ initSys V w t ms with
      A := { (initSys V w t ms).A with pendAck := false }
      ab := [⟨{ s := some 0, r := some 0, x := [] }, 0⟩] } : Sys V)
  rw [e2] at r2
  have r3 : SStep _ _ := SStep.deliverBA ({ initSys V w t ms with
      A := { (initSys V w t ms).A with pendAck := false }
      B := { (initSys V w t ms).B with pendAck := false }
      ba := [⟨{ s := some 0, r := some 0, x := [] }, 0⟩] } : Sys V)
  rw [e3] at r3
  exact .tail (.tail (.tail .refl r1) r2) r3

/-- Reachability composes. -/
theorem sreach_trans {V : Type} {a b c : Sys V}
    (h1 : SReach a b) (h2 : SReach b c) : SReach a c := by
  induction h2 with
  | refl => exact h1
  | tail h3 h4 ih => exact .tail ih h4

/-- The schedule delivers any prefix of the submitted sequence. -/
theorem clean_reach {V : Type} {w t : Nat} {ms : List V} (hw : 4 ≤ w) :
    ∀ n, n ≤ ms.length → SReach (initSys V w t ms) (cleanSys V w t ms n) := by
  intro n
  induction n with
  | zero => intro h0; exact clean_bridge hw
  | succ m ih =>
    intro hm
    exact sreach_trans (ih (by omega)) (clean_cycle hw (by omega))

/-- C1 amended: over a transport that may lose frames but delivers the
surviving ones in emission order without duplication (the FIFO steps of
`SStep`, which also include retransmissions and both background ack
tasks), a pair of Reliable instances with agreed window `w ≥ 4`, started
just after the reset handshake with the whole sequence `ms` submitted on
the sender, (a) never delivers out of order, with duplicates or with
gaps: in every reachable state the receiver's delivered queue is exactly
the prefix of `ms` of its length; and (b) can deliver everything: some
reachable state has delivered all of `ms` with both transport directions
empty. -/
theorem in_order_delivery {V : Type} (w t : Nat) (ms : List V) (hw : 4 ≤ w) :
    (∀ s : Sys V, SReach (initSys V w t ms) s →
      s.B.rq = ms.take s.B.rq.length) ∧
    (∃ s : Sys V, SReach (initSys V w t ms) s ∧ s.B.rq = ms ∧
      s.ab = [] ∧ s.ba = []) := by
  constructor
  · intro s hr
    obtain ⟨T, D, E, H, inv⟩ := sinv_reach hw hr
    conv_rhs => rw [inv.hD]
    exact inv.brq
  · refine ⟨cleanSys V w t ms ms.length, clean_reach hw ms.length (Nat.le_refl _),
      ?_, rfl, rfl⟩
    simp [cleanSys, List.take_length]

/-- Witness for the amended C1 theorem at window 4 with a two-message
sequence. -/
theorem in_order_delivery_witness :
    4 ≤ 4 ∧
    ((∀ s : Sys Nat, SReach (initSys Nat 4 9 [5, 6]) s →
      s.B.rq = [5, 6].take s.B.rq.length) ∧
    (∃ s : Sys Nat, SReach (initSys Nat 4 9 [5, 6]) s ∧ s.B.rq = [5, 6] ∧
      s.ab = [] ∧ s.ba = [])) :=
  ⟨by decide, in_order_delivery 4 9 [5, 6] (by decide)⟩

end RelSys
